import Mathlib

/-!
# NachOS multilevel feedback scheduler (`HW3/scheduler.cc`)

A shallow embedding of the scheduler of `HW3/scheduler.cc`.

* Thread objects live in a store indexed by their address (`ThreadPtr`); the ready queues hold
  addresses, exactly as the C++ queues hold `Thread *`.
* C++ `int` values are unbounded `Int`; `/` is truncating division (`Int.tdiv`).  The key
  `predict/2 + last_time/2` cannot leave the 32-bit range, and signed overflow elsewhere is
  undefined in C++, so no wrap-around is modelled.
* A failed `ASSERT` aborts the machine: the embedded function returns `none`.
-/

namespace Nachos

/-! ## Data model -/

/-- Address of a thread control block (`Thread *`). -/
abbrev ThreadPtr := Nat

/-- Modelled from the spec: the thread states of `thread.h` (not among the sources). -/
inductive ThreadStatus where
  | JUST_CREATED
  | READY
  | RUNNING
  | BLOCKED
  | FINISHED
deriving DecidableEq, Repr

/-- Modelled from the spec: the interrupt levels of the machine simulator (`interrupt.h` is not
among the sources). -/
inductive IntStatus where
  | IntOff
  | IntOn
deriving DecidableEq, Repr

/-- Modelled from the spec: the thread control block of `thread.h` (not among the sources), reduced
to the fields the scheduler reads and writes through `getX` / `setX`. -/
structure Thread where
  ID : Int
  priority : Int
  agingCount : Int
  comeReady : Int
  predict : Int
  lastTime : Int
  accumExec : Int
  status : ThreadStatus
deriving DecidableEq, Repr

/-- The three ready queues a `List<Thread *> *` argument can point to. -/
inductive QueueId where
  | L1
  | L2
  | L3
deriving DecidableEq, Repr

/-- The part of the kernel the scheduler works on: the thread store, `kernel->currentThread`,
`kernel->stats->totalTicks`, `kernel->interrupt->getLevel()`, the round-robin flag of
`kernel->alarm`, and the three ready queues of the `Scheduler` object. -/
structure Kernel where
  threads : ThreadPtr → Thread
  currentThread : ThreadPtr
  totalTicks : Int
  interruptLevel : IntStatus
  roundRobin : Bool
  MultiLevelList1 : List ThreadPtr
  MultiLevelList2 : List ThreadPtr
  MultiLevelList3 : List ThreadPtr

/-- Write through a thread pointer: apply `f` to the object at address `p`. -/
def Kernel.update (k : Kernel) (p : ThreadPtr) (f : Thread → Thread) : Kernel :=
  { k with threads := fun q => if q = p then f (k.threads p) else k.threads q }

/-- The queue a `List<Thread *> *` points to. -/
def Kernel.queue (k : Kernel) : QueueId → List ThreadPtr
  | QueueId.L1 => k.MultiLevelList1
  | QueueId.L2 => k.MultiLevelList2
  | QueueId.L3 => k.MultiLevelList3

/-- Replace the contents of one queue. -/
def Kernel.setQueue (k : Kernel) (q : QueueId) (l : List ThreadPtr) : Kernel :=
  match q with
  | QueueId.L1 => { k with MultiLevelList1 := l }
  | QueueId.L2 => { k with MultiLevelList2 := l }
  | QueueId.L3 => { k with MultiLevelList3 := l }

/-! ## The list library -/

/-- Modelled from the spec: `List<T>::Append` of `lib/list.cc` (not among the sources); the item
goes to the tail of the FIFO sequence. -/
def NachosList.Append {α : Type} (l : List α) (item : α) : List α :=
  l ++ [item]

/-- Modelled from the spec: `List<T>::Remove` of `lib/list.cc` (not among the sources); removal by
identity takes out the occurrence of the item and keeps the order of the rest. -/
def NachosList.Remove {α : Type} [DecidableEq α] (l : List α) (item : α) : List α :=
  l.erase item

/-- Modelled from the spec: `List<T>::IsEmpty` of `lib/list.cc` (not among the sources). -/
def NachosList.IsEmpty {α : Type} : List α → Bool
  | [] => true
  | _ :: _ => false

/-- Modelled from the spec: `List<T>::Front` of `lib/list.cc` (not among the sources); the head of
the sequence, nothing on an empty list. -/
def NachosList.Front {α : Type} : List α → Option α
  | [] => none
  | x :: _ => some x

/-- Modelled from the spec: `List<T>::RemoveFront` of `lib/list.cc` (not among the sources); the
head and the remaining sequence, nothing on an empty list. -/
def NachosList.RemoveFront {α : Type} : List α → Option (α × List α)
  | [] => none
  | x :: xs => some (x, xs)

/-- Modelled from the spec: `ListIterator` of `lib/list.h` (not among the sources); an iteration
considers every element that is in the list when it starts exactly once, in list order, also when
the loop body moves the element it is looking at. -/
def ListIterator.items {α : Type} (l : List α) : List α :=
  l

/-- Modelled from the spec: `SortedList<T>::Insert` of `lib/list.cc` (not among the sources); the
item goes in front of the first element that compares greater, so the sequence stays ordered by
the comparator and ties keep insertion order. -/
def SortedList.Insert {α : Type} (compare : α → α → Int) (item : α) : List α → List α
  | [] => [item]
  | x :: xs =>
    if compare item x < 0 then item :: x :: xs
    else x :: SortedList.Insert compare item xs

/-! ## `scheduler.cc` -/

/-- Source `SJFCompare`: comparator of L1, on the thread objects behind the two pointers. -/
def SJFCompare (a b : Thread) : Int :=
  if a.predict.tdiv 2 + a.lastTime.tdiv 2 = b.predict.tdiv 2 + b.lastTime.tdiv 2 then 0
  else if a.predict.tdiv 2 + a.lastTime.tdiv 2 > b.predict.tdiv 2 + b.lastTime.tdiv 2 then 1
  else -1

/-- Source `PriorityCompare`: comparator of L2, on the thread objects behind the two pointers. -/
def PriorityCompare (a b : Thread) : Int :=
  if a.priority = b.priority then 0
  else if a.priority > b.priority then -1
  else 1

/-- Call `MultiLevelList1->Insert(thread)`: the comparator dereferences the pointers in the
current store. -/
def Kernel.insertL1 (k : Kernel) (thread : ThreadPtr) : Kernel :=
  k.setQueue QueueId.L1
    (SortedList.Insert (fun a b => SJFCompare (k.threads a) (k.threads b)) thread
      k.MultiLevelList1)

/-- Call `MultiLevelList2->Insert(thread)`. -/
def Kernel.insertL2 (k : Kernel) (thread : ThreadPtr) : Kernel :=
  k.setQueue QueueId.L2
    (SortedList.Insert (fun a b => PriorityCompare (k.threads a) (k.threads b)) thread
      k.MultiLevelList2)

/-- Call `MultiLevelList3->Append(thread)`. -/
def Kernel.appendL3 (k : Kernel) (thread : ThreadPtr) : Kernel :=
  k.setQueue QueueId.L3 (NachosList.Append k.MultiLevelList3 thread)

/-- The body of the `for` loop of `Scheduler::agingCheck(list)` for the element `now`. -/
def Scheduler.agingCheckItem (list : QueueId) (k : Kernel) (now : ThreadPtr) : Kernel :=
  let k1 :=
    if now ≠ k.currentThread then
      (k.update now (fun t =>
        { t with agingCount := t.agingCount + k.totalTicks - t.comeReady })).update now
          (fun t => { t with comeReady := k.totalTicks })
    else k
  let oriPriority := (k1.threads now).priority
  if (k1.threads now).agingCount ≥ 1500 ∧ oriPriority ≠ 149 then
    let k2 := k1.update now (fun t => { t with agingCount := t.agingCount - 1500 })
    let k3 := k2.update now (fun t => { t with priority := t.priority + 10 })
    let k4 :=
      if (k3.threads now).priority > 149 then
        k3.update now (fun t => { t with priority := 149 })
      else k3
    let k5 := k4.setQueue list (NachosList.Remove (k4.queue list) now)
    if (k5.threads now).priority > 99 then k5.insertL1 now
    else if (k5.threads now).priority > 49 then k5.insertL2 now
    else k5.appendL3 now
  else k1

/-- Source `Scheduler::agingCheck(list)`: the loop body runs over the elements the iterator
yields for the queue. -/
def Scheduler.agingCheck (list : QueueId) (k : Kernel) : Kernel :=
  (ListIterator.items (k.queue list)).foldl (Scheduler.agingCheckItem list) k

/-- Source `Scheduler::aging`. -/
def Scheduler.aging (k : Kernel) : Kernel :=
  Scheduler.agingCheck QueueId.L3
    (Scheduler.agingCheck QueueId.L2 (Scheduler.agingCheck QueueId.L1 k))

/-- Source `Scheduler::Preemtive`.  The two `double` locals hold `int` values converted exactly,
so the comparison is the integer one. -/
def Scheduler.Preemtive (k : Kernel) : Bool :=
  if (k.threads k.currentThread).priority ≥ 100 ∧ (k.threads k.currentThread).priority ≤ 149 then
    if NachosList.IsEmpty k.MultiLevelList1 = false then
      match NachosList.Front k.MultiLevelList1 with
      | some first_thread =>
        if (k.threads first_thread).predict < (k.threads k.currentThread).predict then true
        else false
      | none => false
    else false
  else if (k.threads k.currentThread).priority ≥ 50 ∧
      (k.threads k.currentThread).priority ≤ 99 then
    if NachosList.IsEmpty k.MultiLevelList1 = false then true else false
  else false

/-- Source `Scheduler::ReadyToRun`; `none` is the failed `ASSERT` on the interrupt level. -/
def Scheduler.ReadyToRun (k : Kernel) (thread : ThreadPtr) : Option Kernel :=
  if k.interruptLevel ≠ IntStatus.IntOff then none
  else
    let k1 :=
      if (k.threads thread).status = ThreadStatus.JUST_CREATED then
        k.update thread (fun t => { t with agingCount := 0 })
      else k
    let k2 := k1.update thread (fun t => { t with status := ThreadStatus.READY })
    let k3 := k2.update thread (fun t => { t with comeReady := k2.totalTicks })
    if (k3.threads thread).priority ≥ 100 ∧ (k3.threads thread).priority ≤ 149 then
      some (k3.insertL1 thread)
    else if (k3.threads thread).priority ≥ 50 ∧ (k3.threads thread).priority ≤ 99 then
      some (k3.insertL2 thread)
    else if (k3.threads thread).priority ≥ 0 ∧ (k3.threads thread).priority ≤ 49 then
      some (k3.appendL3 thread)
    else some k3

/-- Source `Scheduler::FindNextToRun`; the outer `none` is a failed `ASSERT`, the inner `none` is
the `NULL` result. -/
def Scheduler.FindNextToRun (k : Kernel) : Option (Option ThreadPtr × Kernel) :=
  if k.interruptLevel ≠ IntStatus.IntOff then none
  else if NachosList.IsEmpty k.MultiLevelList1 = false then
    (NachosList.RemoveFront k.MultiLevelList1).map (fun r =>
      (some r.1, { k with roundRobin := false, MultiLevelList1 := r.2 }))
  else if NachosList.IsEmpty k.MultiLevelList2 = false then
    (NachosList.RemoveFront k.MultiLevelList2).map (fun r =>
      (some r.1, { k with roundRobin := false, MultiLevelList2 := r.2 }))
  else if NachosList.IsEmpty k.MultiLevelList3 = false then
    (NachosList.RemoveFront k.MultiLevelList3).map (fun r =>
      (some r.1, { k with roundRobin := true, MultiLevelList3 := r.2 }))
  else some (none, k)

/-! ## Call sequences -/

/-- A call of one of the queue operations of the scheduler. -/
inductive SchedulerCall where
  | ReadyToRun (thread : ThreadPtr)
  | FindNextToRun
  | aging
deriving DecidableEq, Repr

/-- Whether a call of `FindNextToRun` that led from `k` to `k2` and returned `t` took `t` from the
head of L3, read off the queues before and after the call. -/
def Scheduler.takenFromL3 (k : Kernel) (t : ThreadPtr) (k2 : Kernel) : Bool :=
  decide (k.MultiLevelList3 = t :: k2.MultiLevelList3 ∧
    k2.MultiLevelList1 = k.MultiLevelList1 ∧ k2.MultiLevelList2 = k.MultiLevelList2)

/-- Run a sequence of calls; next to the kernel state it records, for the last call of
`FindNextToRun` that returned a thread, whether the thread came from L3 (`last` before the
first such call). -/
def Scheduler.runCalls : Kernel → Option Bool → List SchedulerCall → Option (Kernel × Option Bool)
  | k, last, [] => some (k, last)
  | k, last, SchedulerCall.ReadyToRun thread :: cs =>
    match Scheduler.ReadyToRun k thread with
    | none => none
    | some k2 => Scheduler.runCalls k2 last cs
  | k, last, SchedulerCall.FindNextToRun :: cs =>
    match Scheduler.FindNextToRun k with
    | none => none
    | some (none, k2) => Scheduler.runCalls k2 last cs
    | some (some t, k2) => Scheduler.runCalls k2 (some (Scheduler.takenFromL3 k t k2)) cs
  | k, last, SchedulerCall.aging :: cs => Scheduler.runCalls (Scheduler.aging k) last cs

/-- Make the threads of a sequence ready one after another. -/
def Scheduler.readyAll : Kernel → List ThreadPtr → Option Kernel
  | k, [] => some k
  | k, thread :: ts =>
    match Scheduler.ReadyToRun k thread with
    | none => none
    | some k2 => Scheduler.readyAll k2 ts

/-- Call `FindNextToRun` up to `n` times, stopping at the first `NULL`, and collect the threads
it returns. -/
def Scheduler.dispatch : Nat → Kernel → Option (List ThreadPtr × Kernel)
  | 0, k => some ([], k)
  | n + 1, k =>
    match Scheduler.FindNextToRun k with
    | none => none
    | some (none, k2) => some ([], k2)
    | some (some t, k2) =>
      match Scheduler.dispatch n k2 with
      | none => none
      | some (ts, k3) => some (t :: ts, k3)

/-! ## Specification-side notions -/

/-- The L1 sort key of the spec, `predict/2 + last_time/2` with truncating division. -/
def sjfKey (t : Thread) : Int :=
  t.predict.tdiv 2 + t.lastTime.tdiv 2

/-- The stable sort of the spec by an integer key: smaller keys first, equal keys in the order of
the input. -/
def stableSortByKey {α : Type} (key : α → Int) (l : List α) : List α :=
  l.insertionSort (fun a b => key a ≤ key b)

/-- Ordering of L1 in the spec (P2): every adjacent pair has non-decreasing key. -/
def L1Ordered (k : Kernel) : Prop :=
  k.MultiLevelList1.Chain' (fun a b => sjfKey (k.threads a) ≤ sjfKey (k.threads b))

/-- Ordering of L2 in the spec (P3): every adjacent pair has non-increasing priority. -/
def L2Ordered (k : Kernel) : Prop :=
  k.MultiLevelList2.Chain' (fun a b => (k.threads a).priority ≥ (k.threads b).priority)

/-- Every thread is linked at most once in the three ready queues together. -/
def LinkedOnce (k : Kernel) : Prop :=
  (k.MultiLevelList1 ++ k.MultiLevelList2 ++ k.MultiLevelList3).Nodup

/-- The thread object after the waiting time since `comeReady` has been credited to the aging
count at tick `totalTicks`; the current thread gets no credit. -/
def credited (isCurrent : Bool) (totalTicks : Int) (t : Thread) : Thread :=
  if isCurrent then t
  else { t with agingCount := t.agingCount + totalTicks - t.comeReady, comeReady := totalTicks }

/-- Whether a round of aging raises the priority of the thread object: after the credit the
count has reached 1500 and the priority is not 149. -/
def agingDue (isCurrent : Bool) (totalTicks : Int) (t : Thread) : Bool :=
  decide ((credited isCurrent totalTicks t).agingCount ≥ 1500 ∧ t.priority ≠ 149)

/-- A thread object after one round of aging: the waiting time is credited unless the thread is
the current one, then, when due, 1500 ticks are traded once for 10 priority levels, capped at
149. -/
def agedOnce (isCurrent : Bool) (totalTicks : Int) (t : Thread) : Thread :=
  if agingDue isCurrent totalTicks t then
    { credited isCurrent totalTicks t with
      agingCount := (credited isCurrent totalTicks t).agingCount - 1500
      priority := min (t.priority + 10) 149 }
  else credited isCurrent totalTicks t

/-- A thread object as the aging rule of the spec leaves it: the waiting time is credited, then
1500 ticks are traded for 10 priority levels (capped at 149) for as long as the count is at least
1500 and the priority is below 149.  The fuel bounds the number of rounds. -/
def agedSpecLoop : Nat → Thread → Thread
  | 0, t => t
  | n + 1, t =>
    if t.agingCount ≥ 1500 ∧ t.priority < 149 then
      agedSpecLoop n { t with agingCount := t.agingCount - 1500,
                              priority := min (t.priority + 10) 149 }
    else t

/-! ## Example states -/

/-- A ready thread object with the given priority, burst prediction and aging count. -/
def mkThread (priority predict agingCount : Int) : Thread :=
  { ID := 0, priority := priority, agingCount := agingCount, comeReady := 0,
    predict := predict, lastTime := 0, accumExec := 0, status := ThreadStatus.READY }

/-- A kernel with interrupts off at tick `now`, thread 0 running, and the given store and
queues. -/
def mkKernel (threads : ThreadPtr → Thread) (now : Int) (l1 l2 l3 : List ThreadPtr) : Kernel :=
  { threads := threads, currentThread := 0, totalTicks := now,
    interruptLevel := IntStatus.IntOff, roundRobin := false,
    MultiLevelList1 := l1, MultiLevelList2 := l2, MultiLevelList3 := l3 }

/-- An example state at tick 100: thread 1 (priority 120) in L1; thread 2 (priority 95, aging
count 1500) and thread 3 (priority 60) in L2; thread 4 (priority 45, aging count 1500) in L3;
all became ready at tick 0. -/
def agingExample : Kernel :=
  mkKernel (fun p =>
    if p = 1 then mkThread 120 10 0
    else if p = 2 then mkThread 95 4 1500
    else if p = 3 then mkThread 60 0 0
    else if p = 4 then mkThread 45 0 1500
    else mkThread 0 0 0) 100 [1] [2, 3] [4]

/-- An example state at tick 0: thread 1 (priority 60) is linked in L2 with 3000 ticks of
accumulated aging count. -/
def agingBacklogExample : Kernel :=
  mkKernel (fun p => if p = 1 then mkThread 60 0 3000 else mkThread 0 0 0) 0 [] [1] []

/-- Lower end of the priority band of a ready queue (glossary of the spec: L1 100-149,
L2 50-99, L3 0-49). -/
def QueueId.bandLo : QueueId → Int
  | QueueId.L1 => 100
  | QueueId.L2 => 50
  | QueueId.L3 => 0

/-- Upper end of the priority band of a ready queue. -/
def QueueId.bandHi : QueueId → Int
  | QueueId.L1 => 149
  | QueueId.L2 => 99
  | QueueId.L3 => 49

/-- Partitioning of the spec (P1, Invariant T1): every thread linked in a ready queue has its
priority in the band of that queue. -/
def InBand (k : Kernel) : Prop :=
  ∀ q t, t ∈ k.queue q →
    q.bandLo ≤ (k.threads t).priority ∧ (k.threads t).priority ≤ q.bandHi

/-- An example state at tick 1500: thread 1 (priority 45) has been linked in L3 since tick 0. -/
def agingPromotionExample : Kernel :=
  mkKernel (fun p => if p = 1 then mkThread 45 0 0 else mkThread 0 0 0) 1500 [] [] [1]

/-- An example state at tick 0: the current thread 0 (priority 95, aging count 1500) is linked
in L2. -/
def agingCurrentExample : Kernel :=
  mkKernel (fun _ => mkThread 95 0 1500) 0 [] [0] []

/-! ## File system (`HW4/filesys/filesys.cc`): constants and collaborators

The raw disk, `OpenFile`, `PersistentBitmap`, `FileHeader` and `Directory` are not among the
sources; they are modelled from the spec.  A file is identified by the sector of its header
(which is what an `OpenFile` is opened on) and the contents of a file are attached to that
sector.  Paths are C strings, here lists of characters (without the terminating NUL); the
500-byte path buffers of the source are taken to be large enough. -/

/-- The constants of `disk.h`, `filesys.h` and `directory.h`, which are not among the sources;
they are parameters of the embedding. -/
structure FsParams where
  NumSectors : Nat
  SectorSize : Nat
  NumDirEntries : Nat
  DirectoryFileSize : Nat
  FreeMapFileSize : Nat
  MAXFILENUM : Nat
deriving DecidableEq, Repr

/-- The sector of the header of the bitmap file (spec: FreeMapSector = 0). -/
def FreeMapSector : Nat := 0

/-- The sector of the header of the root directory file (spec: DirectorySector = 1). -/
def DirectorySector : Nat := 1

/-- A bitmap, one bit per sector, `true` for a marked (used) sector. -/
abbrev Bitmap := List Bool

/-- Modelled from the spec: `Bitmap::Bitmap` of `lib/bitmap.cc` (not among the sources); all bits
clear. -/
def Bitmap.create (numItems : Nat) : Bitmap :=
  List.replicate numItems false

/-- Modelled from the spec: `Bitmap::Mark` of `lib/bitmap.cc` (not among the sources). -/
def Bitmap.Mark (b : Bitmap) (which : Nat) : Bitmap :=
  b.set which true

/-- Modelled from the spec: `Bitmap::Clear` of `lib/bitmap.cc` (not among the sources). -/
def Bitmap.Clear (b : Bitmap) (which : Nat) : Bitmap :=
  b.set which false

/-- Modelled from the spec: `Bitmap::Test` of `lib/bitmap.cc` (not among the sources). -/
def Bitmap.Test (b : Bitmap) (which : Nat) : Bool :=
  b.getD which false

/-- Modelled from the spec: `Bitmap::NumClear` of `lib/bitmap.cc` (not among the sources). -/
def Bitmap.NumClear (b : Bitmap) : Nat :=
  b.count false

/-- Modelled from the spec: `Bitmap::FindAndSet` of `lib/bitmap.cc` (not among the sources); it
returns the lowest-numbered clear bit and sets it, or -1 if there is none. -/
def Bitmap.FindAndSet (b : Bitmap) : Int × Bitmap :=
  if b.findIdx (fun bit => !bit) < b.length then
    (((b.findIdx (fun bit => !bit) : Nat) : Int), Bitmap.Mark b (b.findIdx (fun bit => !bit)))
  else (-1, b)

/-- Calls of `FindAndSet` one after another, `n` times, collecting the sectors found. -/
def Bitmap.FindAndSetMany : Nat → Bitmap → List Nat × Bitmap
  | 0, b => ([], b)
  | n + 1, b =>
    ((Bitmap.FindAndSet b).1.toNat :: (Bitmap.FindAndSetMany n (Bitmap.FindAndSet b).2).1,
      (Bitmap.FindAndSetMany n (Bitmap.FindAndSet b).2).2)

/-- Modelled from the spec: the file header of `filehdr.h` (not among the sources): the length of
the file in bytes and the sectors of its data. -/
structure FileHeader where
  numBytes : Nat
  numSectors : Nat
  dataSectors : List Nat
deriving DecidableEq, Repr

/-- Rounding division `divRoundUp` of `lib/utility.h`. -/
def divRoundUp (n s : Nat) : Nat :=
  (n + s - 1) / s

/-- Modelled from the spec: `FileHeader::Allocate` of `filehdr.cc` (not among the sources); it
reserves `⌈size / SectorSize⌉` sectors from the bitmap and returns the bytes taken by headers
(one sector), or returns 0 when the bitmap has too few clear bits, without touching it. -/
def FileHeader.Allocate (c : FsParams) (freeMap : Bitmap) (fileSize : Nat) :
    Int × Bitmap × FileHeader :=
  if Bitmap.NumClear freeMap < divRoundUp fileSize c.SectorSize then
    (0, freeMap,
      { numBytes := fileSize, numSectors := divRoundUp fileSize c.SectorSize, dataSectors := [] })
  else
    ((c.SectorSize : Int),
      (Bitmap.FindAndSetMany (divRoundUp fileSize c.SectorSize) freeMap).2,
      { numBytes := fileSize, numSectors := divRoundUp fileSize c.SectorSize,
        dataSectors := (Bitmap.FindAndSetMany (divRoundUp fileSize c.SectorSize) freeMap).1 })

/-- Modelled from the spec: `FileHeader::Deallocate` of `filehdr.cc` (not among the sources); it
clears the bit of every data sector of the file. -/
def FileHeader.Deallocate (hdr : FileHeader) (freeMap : Bitmap) : Bitmap :=
  hdr.dataSectors.foldl Bitmap.Clear freeMap

/-- Modelled from the spec: a directory entry of `directory.h` (not among the sources).  Names
are taken to fit the fixed-width field. -/
structure DirectoryEntry where
  inUse : Bool
  isDir : Bool
  name : List Char
  sector : Nat
deriving DecidableEq, Repr

/-- A directory table: a fixed number of entries. -/
abbrev Directory := List DirectoryEntry

/-- Modelled from the spec: `Directory::Directory(size)` of `directory.cc` (not among the
sources); no entry is in use. -/
def Directory.create (size : Nat) : Directory :=
  List.replicate size { inUse := false, isDir := false, name := [], sector := 0 }

/-- The first entry in use with the given name (`Directory::FindIndex`). -/
def Directory.FindEntry (d : Directory) (name : List Char) : Option DirectoryEntry :=
  d.find? (fun e => e.inUse && decide (e.name = name))

/-- Modelled from the spec: `Directory::Find` of `directory.cc` (not among the sources); the
sector of the header of the named file, or -1. -/
def Directory.Find (d : Directory) (name : List Char) : Int :=
  match Directory.FindEntry d name with
  | some e => (e.sector : Int)
  | none => -1

/-- Modelled from the spec: `Directory::IsDir` of `directory.cc` (not among the sources); whether
the named entry exists and is a directory. -/
def Directory.IsDir (d : Directory) (name : List Char) : Bool :=
  match Directory.FindEntry d name with
  | some e => e.isDir
  | none => false

/-- Put an entry into the first slot that is not in use. -/
def Directory.fill (e : DirectoryEntry) : Directory → Option Directory
  | [] => none
  | x :: xs =>
    if x.inUse = true then (Directory.fill e xs).map (fun r => x :: r)
    else some (e :: xs)

/-- Modelled from the spec: `Directory::Add` of `directory.cc` (not among the sources); it fails
on a name collision or when no entry is free. -/
def Directory.Add (d : Directory) (name : List Char) (newSector : Nat) (isDir : Bool) :
    Bool × Directory :=
  if Directory.Find d name ≠ -1 then (false, d)
  else
    match Directory.fill { inUse := true, isDir := isDir, name := name, sector := newSector } d
    with
    | some r => (true, r)
    | none => (false, d)

/-- Mark the first entry in use with the given name as not in use. -/
def Directory.release (name : List Char) : Directory → Directory
  | [] => []
  | x :: xs =>
    if (x.inUse && decide (x.name = name)) = true then { x with inUse := false } :: xs
    else x :: Directory.release name xs

/-- Modelled from the spec: `Directory::Remove` of `directory.cc` (not among the sources); it
marks the entry not in use and frees no data blocks. -/
def Directory.Remove (d : Directory) (name : List Char) : Bool × Directory :=
  if Directory.Find d name = -1 then (false, d)
  else (true, Directory.release name d)

/-- Modelled from the spec: an open-file handle of `openfile.h` (not among the sources), opened
on the sector of a file header. -/
structure OpenFile where
  sector : Nat
deriving DecidableEq, Repr

/-- Modelled from the spec: the disk as the file system sees it through `FetchFrom` and
`WriteBack` (`disk.cc`, `openfile.cc`, `pbitmap.cc` are not among the sources): the file header
stored in each sector, the contents of the bitmap file, and the contents of the file whose
header is in a given sector, read as a directory table.  The three are kept apart: the bytes of
a sector are not shared between them, so the table of a directory is the one last kept under its
header sector, whatever was written before to the sectors that hold its data. -/
structure Disk where
  headers : Nat → FileHeader
  freeMap : Bitmap
  directories : Nat → Directory

/-- The state of the `FileSystem` object and its disk.  `freeMapFile` and `directoryFile` are
the handles on `FreeMapSector` and `DirectorySector` that the constructor opens. -/
structure FileSystem where
  disk : Disk
  num_openfile : Nat
  fileDescriptorTable : Nat → Option OpenFile

/-- Call `hdr->WriteBack(sector)`. -/
def Disk.writeHeader (d : Disk) (sector : Nat) (hdr : FileHeader) : Disk :=
  { d with headers := fun s => if s = sector then hdr else d.headers s }

/-- Call `directory->WriteBack(file)`. -/
def Disk.writeDirectory (d : Disk) (file : OpenFile) (directory : Directory) : Disk :=
  { d with directories := fun s => if s = file.sector then directory else d.directories s }

/-- Call `freeMap->WriteBack(freeMapFile)`. -/
def Disk.writeFreeMap (d : Disk) (freeMap : Bitmap) : Disk :=
  { d with freeMap := freeMap }

/-- Call `directory->FetchFrom(file)`. -/
def Disk.fetchDirectory (d : Disk) (file : OpenFile) : Directory :=
  d.directories file.sector

/-- The tokens that `strtok(path, "/")` and the following `strtok(NULL, "/")` calls return:
the maximal runs of characters other than the slash; `cur` is the run being read. -/
def strtokAll : List Char → List Char → List (List Char)
  | cur, [] => if cur = [] then [] else [cur]
  | cur, ch :: rest =>
    if ch = '/' then
      if cur = [] then strtokAll [] rest else cur :: strtokAll [] rest
    else strtokAll (cur ++ [ch]) rest

/-! ## `filesys.cc` -/

/-- The `while` loop of `FileSystem::findsubdirectory`: `token` is the component at hand, the
list holds the components still to come (`nextToken` first). -/
def FileSystem.findsubdirectoryLoop (fs : FileSystem) :
    OpenFile → List Char → List (List Char) → Option (OpenFile × List Char)
  | current_dirfile, token, [] => some (current_dirfile, token)
  | current_dirfile, token, nextToken :: more =>
    if Directory.IsDir (fs.disk.fetchDirectory current_dirfile) token = true then
      if Directory.Find (fs.disk.fetchDirectory current_dirfile) token ≠ -1 then
        FileSystem.findsubdirectoryLoop fs
          (OpenFile.mk (Directory.Find (fs.disk.fetchDirectory current_dirfile) token).toNat)
          nextToken more
      else none
    else some (current_dirfile, token)

/-- Source `FileSystem::findsubdirectory`: the handle of the directory it ends in and the name
it leaves in the path buffer, or `none` for `NULL`. -/
def FileSystem.findsubdirectory (fs : FileSystem) (path : List Char) :
    Option (OpenFile × List Char) :=
  match strtokAll [] path with
  | [] => none
  | token :: more => FileSystem.findsubdirectoryLoop fs (OpenFile.mk DirectorySector) token more

/-- Source `FileSystem::FileSystem(format)`, run on a disk and on an object whose descriptor
slots hold `memory` before the constructor runs; `none` is a failed `ASSERT`. -/
def FileSystem.construct (c : FsParams) (format : Bool) (disk : Disk)
    (memory : Nat → Option OpenFile) : Option FileSystem :=
  if format = true then
    if (FileHeader.Allocate c
        (Bitmap.Mark (Bitmap.Mark (Bitmap.create c.NumSectors) FreeMapSector) DirectorySector)
        c.FreeMapFileSize).1 = 0 then none
    else if (FileHeader.Allocate c
        (FileHeader.Allocate c
          (Bitmap.Mark (Bitmap.Mark (Bitmap.create c.NumSectors) FreeMapSector) DirectorySector)
          c.FreeMapFileSize).2.1 c.DirectoryFileSize).1 = 0 then none
    else
      some
        { disk :=
            Disk.writeDirectory
              (Disk.writeFreeMap
                (Disk.writeHeader
                  (Disk.writeHeader disk FreeMapSector
                    (FileHeader.Allocate c
                      (Bitmap.Mark (Bitmap.Mark (Bitmap.create c.NumSectors) FreeMapSector)
                        DirectorySector) c.FreeMapFileSize).2.2)
                  DirectorySector
                  (FileHeader.Allocate c
                    (FileHeader.Allocate c
                      (Bitmap.Mark (Bitmap.Mark (Bitmap.create c.NumSectors) FreeMapSector)
                        DirectorySector) c.FreeMapFileSize).2.1 c.DirectoryFileSize).2.2)
                (FileHeader.Allocate c
                  (FileHeader.Allocate c
                    (Bitmap.Mark (Bitmap.Mark (Bitmap.create c.NumSectors) FreeMapSector)
                      DirectorySector) c.FreeMapFileSize).2.1 c.DirectoryFileSize).2.1)
              (OpenFile.mk DirectorySector) (Directory.create c.NumDirEntries)
          num_openfile := 0
          fileDescriptorTable := fun i => if i < c.MAXFILENUM then none else memory i }
  else
    some
      { disk := disk
        num_openfile := 0
        fileDescriptorTable := fun i => if i < c.MAXFILENUM then none else memory i }

/-- Source `FileSystem::Create`: the result and the state after the call. -/
def FileSystem.Create (c : FsParams) (fs : FileSystem) (path : List Char) (initialSize : Nat)
    (Dir : Bool) : Bool × FileSystem :=
  match FileSystem.findsubdirectory fs path with
  | none => (false, fs)
  | some (current_dirfile, targetPath) =>
    if Directory.Find (fs.disk.fetchDirectory current_dirfile) targetPath ≠ -1 then (false, fs)
    else if (Bitmap.FindAndSet fs.disk.freeMap).1 = -1 then (false, fs)
    else if (Directory.Add (fs.disk.fetchDirectory current_dirfile) targetPath
        (Bitmap.FindAndSet fs.disk.freeMap).1.toNat Dir).1 = false then (false, fs)
    else if (FileHeader.Allocate c (Bitmap.FindAndSet fs.disk.freeMap).2
        (if Dir = true then c.DirectoryFileSize else initialSize)).1 = 0 then (false, fs)
    else
      (true,
        { fs with
          disk :=
            Disk.writeFreeMap
              (Disk.writeDirectory
                (Disk.writeHeader fs.disk (Bitmap.FindAndSet fs.disk.freeMap).1.toNat
                  (FileHeader.Allocate c (Bitmap.FindAndSet fs.disk.freeMap).2
                    (if Dir = true then c.DirectoryFileSize else initialSize)).2.2)
                current_dirfile
                (Directory.Add (fs.disk.fetchDirectory current_dirfile) targetPath
                  (Bitmap.FindAndSet fs.disk.freeMap).1.toNat Dir).2)
              (FileHeader.Allocate c (Bitmap.FindAndSet fs.disk.freeMap).2
                (if Dir = true then c.DirectoryFileSize else initialSize)).2.1 })

/-- The `for` loop of `FileSystem::Open`: the first `i` in 1..MAXFILENUM whose slot is `NULL`. -/
def FileSystem.firstFreeSlot (c : FsParams) (fs : FileSystem) : Option Nat :=
  (List.range' 1 c.MAXFILENUM).find? (fun i => (fs.fileDescriptorTable i).isNone)

/-- Source `FileSystem::Open`: the pair it returns (`none` for `NULL`) and the state after the
call. -/
def FileSystem.Open (c : FsParams) (fs : FileSystem) (path : List Char) :
    (Option OpenFile × Int) × FileSystem :=
  if fs.num_openfile = c.MAXFILENUM then ((none, -1), fs)
  else
    match FileSystem.findsubdirectory fs path with
    | none => ((none, -1), fs)
    | some (current_dirfile, targetPath) =>
      if Directory.Find (fs.disk.fetchDirectory current_dirfile) targetPath ≥ 0 then
        match FileSystem.firstFreeSlot c fs with
        | some i =>
          ((some (OpenFile.mk
              (Directory.Find (fs.disk.fetchDirectory current_dirfile) targetPath).toNat),
            (i : Int)),
            { fs with
              num_openfile := fs.num_openfile + 1
              fileDescriptorTable := fun j =>
                if j = i then
                  some (OpenFile.mk
                    (Directory.Find (fs.disk.fetchDirectory current_dirfile) targetPath).toNat)
                else fs.fileDescriptorTable j })
        | none => ((none, -1), fs)
      else ((none, -1), fs)

/-- The `for` loop of `FileSystem::Remove` over the table of the sub-directory; `remove` is the
recursive call `Remove(recursive, targetPath)`, whose result is dropped as in the source. -/
def FileSystem.RemoveEntries (remove : FileSystem → List Char → Option (Bool × FileSystem))
    (path : List Char) : List DirectoryEntry → FileSystem → Option FileSystem
  | [], fs => some fs
  | tablei :: rest, fs =>
    if tablei.inUse = true then
      match remove fs (path ++ '/' :: tablei.name) with
      | none => none
      | some r => FileSystem.RemoveEntries remove path rest r.2
    else FileSystem.RemoveEntries remove path rest fs

/-- Source `FileSystem::Remove`.  The fuel bounds the depth of the recursion (`none` when it
runs out). -/
def FileSystem.Remove : Nat → FileSystem → Bool → List Char → Option (Bool × FileSystem)
  | 0, _, _, _ => none
  | fuel + 1, fs, recursive, path =>
    match FileSystem.findsubdirectory fs path with
    | none => some (false, fs)
    | some (current_dirfile, targetPath) =>
      if Directory.Find (fs.disk.fetchDirectory current_dirfile) targetPath = -1 then
        some (false, fs)
      else
        match
          (if Directory.IsDir (fs.disk.fetchDirectory current_dirfile) targetPath = true ∧
              recursive = true then
            FileSystem.RemoveEntries (fun fs1 p => FileSystem.Remove fuel fs1 recursive p) path
              (fs.disk.fetchDirectory (OpenFile.mk
                (Directory.Find (fs.disk.fetchDirectory current_dirfile) targetPath).toNat))
              fs
          else some fs)
        with
        | none => none
        | some fs1 =>
          some (true,
            { fs1 with
              disk :=
                Disk.writeDirectory
                  (Disk.writeFreeMap fs1.disk
                    (Bitmap.Clear
                      (FileHeader.Deallocate
                        (fs1.disk.headers
                          (Directory.Find (fs.disk.fetchDirectory current_dirfile)
                            targetPath).toNat)
                        fs1.disk.freeMap)
                      (Directory.Find (fs.disk.fetchDirectory current_dirfile)
                        targetPath).toNat))
                  current_dirfile
                  (Directory.Remove (fs.disk.fetchDirectory current_dirfile) targetPath).2 })

/-! ## Well-formed directory trees -/

/-- The directories form a tree below the root, as in the data model of the spec: `rank`
decreases along every entry in use that names a directory, so that no directory contains
itself, directly or through others. -/
def FileSystem.Ranked (fs : FileSystem) (rank : Nat → Nat) : Prop :=
  ∀ s e, e ∈ fs.disk.directories s → e.inUse = true → e.isDir = true → rank e.sector < rank s

/-- Every name in use has at least one path component, as every name that `Create` adds has. -/
def FileSystem.NamesProper (fs : FileSystem) : Prop :=
  ∀ s e, e ∈ fs.disk.directories s → e.inUse = true → strtokAll [] e.name ≠ []

/-- No two entries in use of a directory table carry the same name, as `Directory::Add`
ensures. -/
def Directory.NamesUnique (d : Directory) : Prop :=
  d.Pairwise (fun a b => a.inUse = true → b.inUse = true → a.name ≠ b.name)

/-- Frame of a removal: `fs2` has the headers, the open-file count and the descriptor table of
`fs`, and every entry in use of one of its directory tables is an entry of the same table of
`fs`. -/
def FileSystem.Within (fs2 fs : FileSystem) : Prop :=
  fs2.disk.headers = fs.disk.headers ∧ fs2.num_openfile = fs.num_openfile ∧
    fs2.fileDescriptorTable = fs.fileDescriptorTable ∧
    ∀ s e, e ∈ fs2.disk.directories s → e.inUse = true → e ∈ fs.disk.directories s

/-! ## Example file systems -/

/-- Small constants for examples: 16 sectors of 128 bytes, 4 directory entries of 20 bytes,
20 descriptors. -/
def exampleParams : FsParams :=
  { NumSectors := 16, SectorSize := 128, NumDirEntries := 4, DirectoryFileSize := 80,
    FreeMapFileSize := 2, MAXFILENUM := 20 }

/-- A zero-filled disk: every header is empty, no bit is recorded, every directory table
reads as `NumDirEntries` entries that are not in use. -/
def Disk.blank (c : FsParams) : Disk :=
  { headers := fun _ => { numBytes := 0, numSectors := 0, dataSectors := [] }
    freeMap := []
    directories := fun _ => Directory.create c.NumDirEntries }

/-- The example file system right after formatting a zero-filled disk. -/
def exampleFs : FileSystem :=
  (FileSystem.construct exampleParams true (Disk.blank exampleParams) (fun _ => none)).getD
    { disk := Disk.blank exampleParams, num_openfile := 0, fileDescriptorTable := fun _ => none }

/-- The example file system after `Create("/a", 120, TRUE)`. -/
def exampleFsA : FileSystem :=
  (FileSystem.Create exampleParams exampleFs "/a".toList 120 true).2

/-- The example file system after `Create("/a", 120, TRUE)` and `Create("/a/b", 200, FALSE)`. -/
def exampleFsAB : FileSystem :=
  (FileSystem.Create exampleParams exampleFsA "/a/b".toList 200 false).2

/-- The example file system after `Create("/f", 100, FALSE)`: a plain file in the root. -/
def exampleFsF : FileSystem :=
  (FileSystem.Create exampleParams exampleFs "/f".toList 100 false).2

/-- A rank for the example tree: the root above the directory at sector 4, above everything
else. -/
def exampleRank (s : Nat) : Nat := if s = 1 then 2 else if s = 4 then 1 else 0

/-- No directory table stored on the disk holds an entry in use, as on a zero-filled disk. -/
def Disk.NoEntryInUse (d : Disk) : Prop :=
  ∀ s e, e ∈ d.directories s → e.inUse = false

/-- A rank for a tree of depth one: the root above everything else. -/
def rootRank (s : Nat) : Nat := if s = DirectorySector then 1 else 0

/-- Shape of a tree that holds one directory `t1` (header sector `s1`) in the root and one plain
file `t2` (header sector `s2`) in that directory, and nothing else. -/
def FileSystem.HoldsOneFile (fs : FileSystem) (t1 t2 : List Char) (s1 s2 : Nat) : Prop :=
  s1 ≠ DirectorySector ∧
  (∃ pre post, fs.disk.directories DirectorySector =
      pre ++ { inUse := true, isDir := true, name := t1, sector := s1 } :: post ∧
    (∀ x ∈ pre, x.inUse = false) ∧ ∀ x ∈ post, x.inUse = false) ∧
  (∃ pre post, fs.disk.directories s1 =
      pre ++ { inUse := true, isDir := false, name := t2, sector := s2 } :: post ∧
    (∀ x ∈ pre, x.inUse = false) ∧ ∀ x ∈ post, x.inUse = false) ∧
  ∀ x, x ≠ DirectorySector → x ≠ s1 → ∀ e ∈ fs.disk.directories x, e.inUse = false

/-! ## Sequences of aging steps -/

/-- Runs of the loop body of `agingCheck`, one after another, each on its queue and thread. -/
def Scheduler.agingSteps (k : Kernel) (steps : List (QueueId × ThreadPtr)) : Kernel :=
  steps.foldl (fun s p => Scheduler.agingCheckItem p.1 s p.2) k

/-- The steps of a whole aging pass: the iterator's elements of L1, then those of L2 as the
pass over L1 leaves it, then those of L3 as the pass over L2 leaves it. -/
def Scheduler.agingPassSteps (k : Kernel) : List (QueueId × ThreadPtr) :=
  (ListIterator.items (k.queue QueueId.L1)).map (fun t => (QueueId.L1, t)) ++
    ((ListIterator.items ((Scheduler.agingCheck QueueId.L1 k).queue QueueId.L2)).map
        (fun t => (QueueId.L2, t)) ++
      (ListIterator.items ((Scheduler.agingCheck QueueId.L2
        (Scheduler.agingCheck QueueId.L1 k)).queue QueueId.L3)).map (fun t => (QueueId.L3, t)))

/-- A priority `p` that aging steps have made of the priority `p0`: above `p0` and at most
149, or the cap 149 below a `p0` that was above it. -/
def raisedFrom (p0 p : Int) : Prop :=
  (p0 < p ∧ p ≤ 149) ∨ (149 < p0 ∧ p = 149)

/-- An example state at tick 0: threads 1 and 2 (priority 10) are linked in L3 in this order;
thread 1 has 1500 ticks of aging count, thread 2 none. -/
def agingWithinBandExample : Kernel :=
  mkKernel (fun p => if p = 1 then mkThread 10 0 1500 else mkThread 10 0 0) 0 [] [] [1, 2]

/-- Whether the loop body of `agingCheck`, run on thread `t` in state `k`, raises the priority
of `t`: after the credit the aging count has reached 1500 and the priority is not 149. -/
def Scheduler.agingRaises (k : Kernel) (t : ThreadPtr) : Bool :=
  agingDue (decide (t = k.currentThread)) k.totalTicks (k.threads t)

/-- The priority of thread `t` after the loop body of `agingCheck` has run on it in state
`k`. -/
def Scheduler.agedPriority (k : Kernel) (t : ThreadPtr) : Int :=
  (agedOnce (decide (t = k.currentThread)) k.totalTicks (k.threads t)).priority

/-! ## Dispatch (`Scheduler::Run`) -/

/-- The `Scheduler` object and the kernel around it: the part the queue operations work on,
the fields `toBeDestroyed` and `comingRun` of the `Scheduler` object, and the thread objects
deleted so far. -/
structure SchedulerState where
  kernel : Kernel
  toBeDestroyed : Option ThreadPtr
  comingRun : Int
  deleted : List ThreadPtr

/-- The checks that abort `Scheduler::Run`: the `ASSERT` on the interrupt level, the `ASSERT`
that `toBeDestroyed` is `NULL`, and the stack check of the old thread. -/
inductive RunAbort where
  | interruptsOn
  | toBeDestroyedSet
  | stackOverflow
deriving DecidableEq, Repr

/-- Assign `kernel->currentThread = nextThread` and call `nextThread->setStatus(RUNNING)`. -/
def Kernel.switchTo (k : Kernel) (nextThread : ThreadPtr) : Kernel :=
  ({ k with currentThread := nextThread }).update nextThread
    (fun t => { t with status := ThreadStatus.RUNNING })

/-- Source `Scheduler::Run`, up to the call of `SWITCH`.  `Thread::CheckOverflow` is not among
the sources: `checkOverflow oldThread = false` stands for a stack check that fails.  Saving the
user registers and the address space touches none of the fields of the state. -/
def Scheduler.RunToSwitch (checkOverflow : ThreadPtr → Bool) (s : SchedulerState)
    (nextThread : ThreadPtr) (finishing : Bool) : Except RunAbort SchedulerState :=
  if s.kernel.interruptLevel ≠ IntStatus.IntOff then Except.error RunAbort.interruptsOn
  else if finishing = true ∧ s.toBeDestroyed ≠ none then
    Except.error RunAbort.toBeDestroyedSet
  else if checkOverflow s.kernel.currentThread = false then
    Except.error RunAbort.stackOverflow
  else
    Except.ok
      { kernel := s.kernel.switchTo nextThread
        toBeDestroyed :=
          if finishing = true then some s.kernel.currentThread else s.toBeDestroyed
        comingRun := s.kernel.totalTicks
        deleted := s.deleted }

/-- Source `Scheduler::CheckToBeDestroyed`. -/
def Scheduler.CheckToBeDestroyed (s : SchedulerState) : SchedulerState :=
  match s.toBeDestroyed with
  | some t => { s with deleted := t :: s.deleted, toBeDestroyed := none }
  | none => s

/-- Source `Scheduler::Run`, from the return of `SWITCH` on, in the state in which the thread is
resumed.  Restoring the user registers and the address space touches none of the fields of the
state. -/
def Scheduler.RunAfterSwitch (s : SchedulerState) : Except RunAbort SchedulerState :=
  if s.kernel.interruptLevel ≠ IntStatus.IntOff then Except.error RunAbort.interruptsOn
  else Except.ok (Scheduler.CheckToBeDestroyed s)

/-- An example state for dispatching: the kernel of `agingExample` (interrupts off, thread 0
running), nothing to destroy. -/
def runExample : SchedulerState :=
  { kernel := agingExample, toBeDestroyed := none, comingRun := 0, deleted := [] }

/-! ## `FileSystem::List` -/

/-- What `FileSystem::List` does, step by step: it opens a file on a sector
(`new OpenFile(sector)`), reads a directory table from the file on a sector
(`FetchFrom`), or prints the table read from the file on a sector (`Directory::List` or
`Directory::ListRecursive`, which are not among the sources). -/
inductive ListEvent where
  | openFile (sector : Int)
  | fetchFrom (sector : Int)
  | list (recursive : Bool) (sector : Int)
deriving DecidableEq, Repr

/-- Source `FileSystem::List` (here `ListPath`, `List` being the type of lists): the steps it
takes, in order.  The handles that `findsubdirectory` opens on its way are not recorded. -/
def FileSystem.ListPath (fs : FileSystem) (recursive : Bool) (dirPath : List Char) :
    List ListEvent :=
  if dirPath = ['/'] then
    [ListEvent.fetchFrom DirectorySector, ListEvent.list recursive DirectorySector]
  else
    match FileSystem.findsubdirectory fs dirPath with
    | none => []
    | some (subdirfile, targetPath) =>
      [ListEvent.fetchFrom subdirfile.sector,
        ListEvent.openFile (Directory.Find (fs.disk.fetchDirectory subdirfile) targetPath),
        ListEvent.fetchFrom (Directory.Find (fs.disk.fetchDirectory subdirfile) targetPath),
        ListEvent.list recursive (Directory.Find (fs.disk.fetchDirectory subdirfile) targetPath)]

/-- The example file system after `Create("/a/b", 120, TRUE)` on the freshly formatted disk,
where no `/a` exists. -/
def exampleFsDeep : FileSystem :=
  (FileSystem.Create exampleParams exampleFs "/a/b".toList 120 true).2

/-! ## Invariant F1, and disks that are not zero-filled -/

/-- Header sectors of the files and directories that can be reached from the root directory
through directory entries in use; the flag tells whether the object is a directory. -/
inductive FileSystem.Reachable (fs : FileSystem) : Nat → Bool → Prop where
  | root : FileSystem.Reachable fs DirectorySector true
  | child (p : Nat) (e : DirectoryEntry) :
      FileSystem.Reachable fs p true → e ∈ fs.disk.directories p → e.inUse = true →
      FileSystem.Reachable fs e.sector e.isDir

/-- Sector `x` is the header sector `h` or one of the data sectors listed in the header at
`h`. -/
def FileSystem.Owns (fs : FileSystem) (h x : Nat) : Prop :=
  x = h ∨ x ∈ (fs.disk.headers h).dataSectors

/-- Header sectors of the objects that exist: the bitmap file and everything reachable from the
root, the root directory included. -/
def FileSystem.Live (fs : FileSystem) (h : Nat) : Prop :=
  h = FreeMapSector ∨ ∃ d, FileSystem.Reachable fs h d

/-- Invariant F1 of the spec: a bit of the persisted bitmap is set if and only if its sector is
the header sector or a data sector of a file or directory reachable from the root, or of the
bitmap file or the root directory file. -/
def FileSystem.F1 (fs : FileSystem) : Prop :=
  ∀ x, Bitmap.Test fs.disk.freeMap x = true ↔
    ∃ h, FileSystem.Live fs h ∧ FileSystem.Owns fs h x

/-- A disk that is zero-filled except for the bytes that the first directory created after
formatting reads as its table (kept here under its header sector, 4): they hold one entry in
use, a directory `x` whose sector field is 4, the sector of that directory itself. -/
def exampleStaleLoopDisk : Disk :=
  Disk.writeDirectory (Disk.blank exampleParams) (OpenFile.mk 4)
    ({ inUse := true, isDir := true, name := "x".toList, sector := 4 } :: Directory.create 3)

/-- The file system after formatting `exampleStaleLoopDisk`. -/
def exampleStaleLoopFs : FileSystem :=
  (FileSystem.construct exampleParams true exampleStaleLoopDisk (fun _ => none)).getD
    { disk := exampleStaleLoopDisk, num_openfile := 0, fileDescriptorTable := fun _ => none }

/-- That file system after `Create("/a", 120, TRUE)` and `Create("/a/b", 200, FALSE)`. -/
def exampleStaleLoopFsAB : FileSystem :=
  (FileSystem.Create exampleParams
    (FileSystem.Create exampleParams exampleStaleLoopFs "/a".toList 120 true).2
    "/a/b".toList 200 false).2

/-- That file system after `Open("/a/b")` as well. -/
def exampleStaleLoopFsOpen : FileSystem :=
  (FileSystem.Open exampleParams exampleStaleLoopFsAB "/a/b".toList).2

/-- The paths `/a`, `/a/x`, `/a/x/x`, ... that `Remove(TRUE, "/a")` builds when `x` is an entry
of the table of `x`. -/
def loopPath : Nat → List Char
  | 0 => "/a".toList
  | n + 1 => loopPath n ++ '/' :: "x".toList

/-- A disk that is zero-filled except for the bytes that the first directory created after
formatting reads as its table (kept here under its header sector, 4): they hold one entry in
use, a plain file `x` whose sector field is 9. -/
def exampleStaleFileDisk : Disk :=
  Disk.writeDirectory (Disk.blank exampleParams) (OpenFile.mk 4)
    ({ inUse := true, isDir := false, name := "x".toList, sector := 9 } :: Directory.create 3)

/-- The file system after formatting `exampleStaleFileDisk`. -/
def exampleStaleFileFs : FileSystem :=
  (FileSystem.construct exampleParams true exampleStaleFileDisk (fun _ => none)).getD
    { disk := exampleStaleFileDisk, num_openfile := 0, fileDescriptorTable := fun _ => none }

/-- That file system after `Create("/a", 120, TRUE)`. -/
def exampleStaleFileFsA : FileSystem :=
  (FileSystem.Create exampleParams exampleStaleFileFs "/a".toList 120 true).2

/-! ## Basic facts about the store and the queues -/

@[simp] theorem update_threads (k : Kernel) (p : ThreadPtr) (f : Thread → Thread) (q : ThreadPtr) :
    (k.update p f).threads q = if q = p then f (k.threads p) else k.threads q := rfl

@[simp] theorem update_L1 (k : Kernel) (p : ThreadPtr) (f : Thread → Thread) :
    (k.update p f).MultiLevelList1 = k.MultiLevelList1 := rfl

@[simp] theorem update_L2 (k : Kernel) (p : ThreadPtr) (f : Thread → Thread) :
    (k.update p f).MultiLevelList2 = k.MultiLevelList2 := rfl

@[simp] theorem update_L3 (k : Kernel) (p : ThreadPtr) (f : Thread → Thread) :
    (k.update p f).MultiLevelList3 = k.MultiLevelList3 := rfl

@[simp] theorem update_currentThread (k : Kernel) (p : ThreadPtr) (f : Thread → Thread) :
    (k.update p f).currentThread = k.currentThread := rfl

@[simp] theorem update_totalTicks (k : Kernel) (p : ThreadPtr) (f : Thread → Thread) :
    (k.update p f).totalTicks = k.totalTicks := rfl

@[simp] theorem update_interruptLevel (k : Kernel) (p : ThreadPtr) (f : Thread → Thread) :
    (k.update p f).interruptLevel = k.interruptLevel := rfl

@[simp] theorem update_roundRobin (k : Kernel) (p : ThreadPtr) (f : Thread → Thread) :
    (k.update p f).roundRobin = k.roundRobin := rfl

@[simp] theorem update_queue (k : Kernel) (p : ThreadPtr) (f : Thread → Thread) (q : QueueId) :
    (k.update p f).queue q = k.queue q := by
  cases q <;> rfl

@[simp] theorem setQueue_threads (k : Kernel) (q : QueueId) (l : List ThreadPtr) :
    (k.setQueue q l).threads = k.threads := by
  cases q <;> rfl

@[simp] theorem setQueue_currentThread (k : Kernel) (q : QueueId) (l : List ThreadPtr) :
    (k.setQueue q l).currentThread = k.currentThread := by
  cases q <;> rfl

@[simp] theorem setQueue_totalTicks (k : Kernel) (q : QueueId) (l : List ThreadPtr) :
    (k.setQueue q l).totalTicks = k.totalTicks := by
  cases q <;> rfl

@[simp] theorem setQueue_interruptLevel (k : Kernel) (q : QueueId) (l : List ThreadPtr) :
    (k.setQueue q l).interruptLevel = k.interruptLevel := by
  cases q <;> rfl

@[simp] theorem setQueue_roundRobin (k : Kernel) (q : QueueId) (l : List ThreadPtr) :
    (k.setQueue q l).roundRobin = k.roundRobin := by
  cases q <;> rfl

theorem setQueue_queue (k : Kernel) (q q2 : QueueId) (l : List ThreadPtr) :
    (k.setQueue q l).queue q2 = if q2 = q then l else k.queue q2 := by
  cases q <;> cases q2 <;> rfl

@[simp] theorem queue_L1 (k : Kernel) : k.queue QueueId.L1 = k.MultiLevelList1 := rfl

@[simp] theorem queue_L2 (k : Kernel) : k.queue QueueId.L2 = k.MultiLevelList2 := rfl

@[simp] theorem queue_L3 (k : Kernel) : k.queue QueueId.L3 = k.MultiLevelList3 := rfl

@[simp] theorem setQueue_L1 (k : Kernel) (q : QueueId) (l : List ThreadPtr) :
    (k.setQueue q l).MultiLevelList1 = if q = QueueId.L1 then l else k.MultiLevelList1 := by
  cases q <;> rfl

@[simp] theorem setQueue_L2 (k : Kernel) (q : QueueId) (l : List ThreadPtr) :
    (k.setQueue q l).MultiLevelList2 = if q = QueueId.L2 then l else k.MultiLevelList2 := by
  cases q <;> rfl

@[simp] theorem setQueue_L3 (k : Kernel) (q : QueueId) (l : List ThreadPtr) :
    (k.setQueue q l).MultiLevelList3 = if q = QueueId.L3 then l else k.MultiLevelList3 := by
  cases q <;> rfl

/-! ## `FindNextToRun` -/

/-- C1: with interrupts off, `FindNextToRun` returns and removes the head of L1 if L1 is
non-empty, otherwise the head of L2 if L2 is non-empty, otherwise the head of L3 if L3 is
non-empty; it returns `NULL` exactly when all three queues are empty; the queues it did not
select from, the tail of the selected queue and the thread objects are unchanged. -/
theorem FindNextToRun_selects_head (k : Kernel) (hint : k.interruptLevel = IntStatus.IntOff) :
    (∀ t rest, k.MultiLevelList1 = t :: rest →
      ∃ k2, Scheduler.FindNextToRun k = some (some t, k2) ∧ k2.MultiLevelList1 = rest ∧
        k2.MultiLevelList2 = k.MultiLevelList2 ∧ k2.MultiLevelList3 = k.MultiLevelList3 ∧
        k2.threads = k.threads) ∧
    (∀ t rest, k.MultiLevelList1 = [] → k.MultiLevelList2 = t :: rest →
      ∃ k2, Scheduler.FindNextToRun k = some (some t, k2) ∧ k2.MultiLevelList2 = rest ∧
        k2.MultiLevelList1 = k.MultiLevelList1 ∧ k2.MultiLevelList3 = k.MultiLevelList3 ∧
        k2.threads = k.threads) ∧
    (∀ t rest, k.MultiLevelList1 = [] → k.MultiLevelList2 = [] → k.MultiLevelList3 = t :: rest →
      ∃ k2, Scheduler.FindNextToRun k = some (some t, k2) ∧ k2.MultiLevelList3 = rest ∧
        k2.MultiLevelList1 = k.MultiLevelList1 ∧ k2.MultiLevelList2 = k.MultiLevelList2 ∧
        k2.threads = k.threads) ∧
    ((∃ k2, Scheduler.FindNextToRun k = some (none, k2)) ↔
      (k.MultiLevelList1 = [] ∧ k.MultiLevelList2 = [] ∧ k.MultiLevelList3 = [])) ∧
    (∀ k2, Scheduler.FindNextToRun k = some (none, k2) → k2 = k) := by
  refine ⟨?_, ?_, ?_, ?_, ?_⟩
  · intro t rest h1
    simp [Scheduler.FindNextToRun, hint, h1, NachosList.IsEmpty, NachosList.RemoveFront]
  · intro t rest h1 h2
    simp [Scheduler.FindNextToRun, hint, h1, h2, NachosList.IsEmpty, NachosList.RemoveFront]
  · intro t rest h1 h2 h3
    simp [Scheduler.FindNextToRun, hint, h1, h2, h3, NachosList.IsEmpty, NachosList.RemoveFront]
  · rcases h1 : k.MultiLevelList1 with _ | ⟨a, l1⟩
    · rcases h2 : k.MultiLevelList2 with _ | ⟨b, l2⟩
      · rcases h3 : k.MultiLevelList3 with _ | ⟨c, l3⟩ <;>
          simp [Scheduler.FindNextToRun, hint, h1, h2, h3, NachosList.IsEmpty,
            NachosList.RemoveFront]
      · simp [Scheduler.FindNextToRun, hint, h1, h2, NachosList.IsEmpty, NachosList.RemoveFront]
    · simp [Scheduler.FindNextToRun, hint, h1, NachosList.IsEmpty, NachosList.RemoveFront]
  · intro k2
    rcases h1 : k.MultiLevelList1 with _ | ⟨a, l1⟩
    · rcases h2 : k.MultiLevelList2 with _ | ⟨b, l2⟩
      · rcases h3 : k.MultiLevelList3 with _ | ⟨c, l3⟩ <;>
          simp [Scheduler.FindNextToRun, hint, h1, h2, h3, NachosList.IsEmpty,
            NachosList.RemoveFront]
        intro h
        exact h.symm
      · simp [Scheduler.FindNextToRun, hint, h1, h2, NachosList.IsEmpty, NachosList.RemoveFront]
    · simp [Scheduler.FindNextToRun, hint, h1, NachosList.IsEmpty, NachosList.RemoveFront]

/-- Witness of C1: threads 1 and 2 in L1, thread 3 in L2, thread 4 in L3. -/
theorem FindNextToRun_selects_head_witness :
    (mkKernel (fun _ => mkThread 120 0 0) 0 [1, 2] [3] [4]).interruptLevel = IntStatus.IntOff ∧
    ∃ k2, Scheduler.FindNextToRun (mkKernel (fun _ => mkThread 120 0 0) 0 [1, 2] [3] [4]) =
        some (some 1, k2) ∧ k2.MultiLevelList1 = [2] ∧
      k2.MultiLevelList2 = [3] ∧ k2.MultiLevelList3 = [4] ∧
      k2.threads = fun _ => mkThread 120 0 0 :=
  ⟨rfl, (FindNextToRun_selects_head (mkKernel (fun _ => mkThread 120 0 0) 0 [1, 2] [3] [4])
    rfl).1 1 [2] rfl⟩

/-! ## `SortedList::Insert` -/

theorem SortedList.Insert_split {α : Type} (cmp : α → α → Int) (x : α) (l : List α) :
    ∃ pre post, l = pre ++ post ∧ SortedList.Insert cmp x l = pre ++ x :: post := by
  induction l with
  | nil => exact ⟨[], [], rfl, rfl⟩
  | cons y ys ih =>
    by_cases h : cmp x y < 0
    · exact ⟨[], y :: ys, rfl, by simp [SortedList.Insert, h]⟩
    · obtain ⟨pre, post, h1, h2⟩ := ih
      refine ⟨y :: pre, post, by simp [h1], ?_⟩
      simp only [SortedList.Insert, h, if_false, h2, List.cons_append]

theorem SortedList.Insert_perm {α : Type} (cmp : α → α → Int) (x : α) (l : List α) :
    (SortedList.Insert cmp x l).Perm (x :: l) := by
  obtain ⟨pre, post, h1, h2⟩ := SortedList.Insert_split cmp x l
  rw [h2, h1]
  exact List.perm_middle

theorem SortedList.mem_Insert {α : Type} (cmp : α → α → Int) (x y : α) (l : List α) :
    y ∈ SortedList.Insert cmp x l ↔ y = x ∨ y ∈ l := by
  rw [(SortedList.Insert_perm cmp x l).mem_iff, List.mem_cons]

/-! ## `ReadyToRun` -/

/-- The shape of `ReadyToRun`: the thread object is marked first (state `k3`), then the pointer is
linked into the queue of its band. -/
theorem ReadyToRun_shape (k : Kernel) (thread : ThreadPtr)
    (hint : k.interruptLevel = IntStatus.IntOff) :
    ∃ k3 : Kernel,
      Scheduler.ReadyToRun k thread =
        some (if 100 ≤ (k.threads thread).priority ∧ (k.threads thread).priority ≤ 149 then
            k3.insertL1 thread
          else if 50 ≤ (k.threads thread).priority ∧ (k.threads thread).priority ≤ 99 then
            k3.insertL2 thread
          else if 0 ≤ (k.threads thread).priority ∧ (k.threads thread).priority ≤ 49 then
            k3.appendL3 thread
          else k3) ∧
      k3.threads thread =
        { k.threads thread with
          status := ThreadStatus.READY
          comeReady := k.totalTicks
          agingCount := if (k.threads thread).status = ThreadStatus.JUST_CREATED then 0
            else (k.threads thread).agingCount } ∧
      (∀ q, q ≠ thread → k3.threads q = k.threads q) ∧
      k3.MultiLevelList1 = k.MultiLevelList1 ∧ k3.MultiLevelList2 = k.MultiLevelList2 ∧
      k3.MultiLevelList3 = k.MultiLevelList3 ∧ k3.currentThread = k.currentThread ∧
      k3.totalTicks = k.totalTicks ∧ k3.interruptLevel = k.interruptLevel ∧
      k3.roundRobin = k.roundRobin := by
  by_cases hs : (k.threads thread).status = ThreadStatus.JUST_CREATED
  · refine ⟨((k.update thread (fun t => { t with agingCount := 0 })).update thread
        (fun t => { t with status := ThreadStatus.READY })).update thread
        (fun t => { t with comeReady := k.totalTicks }), ?_, ?_, ?_, rfl, rfl, rfl, rfl, rfl, rfl,
        rfl⟩
    · simp only [Scheduler.ReadyToRun, hint, hs]
      simp only [update_threads, update_totalTicks, if_true, ne_eq, not_true_eq_false, if_false,
        ge_iff_le]
      split_ifs <;> rfl
    · simp [hs]
    · intro q hq
      simp [hq]
  · refine ⟨(k.update thread (fun t => { t with status := ThreadStatus.READY })).update thread
        (fun t => { t with comeReady := k.totalTicks }), ?_, ?_, ?_, rfl, rfl, rfl, rfl, rfl, rfl,
        rfl⟩
    · simp only [Scheduler.ReadyToRun, hint, hs]
      simp only [update_threads, update_totalTicks, if_true, ne_eq, not_true_eq_false, if_false,
        ge_iff_le]
      split_ifs <;> rfl
    · simp [hs]
    · intro q hq
      simp [hq]

/-- C2: with interrupts off and the priority of the thread in [0,149], `ReadyToRun` sets the
status to READY and `comeReady` to the current tick, resets `agingCount` to 0 exactly when the
status was JUST_CREATED and leaves it alone otherwise, touches no other field and no other thread,
and inserts the thread into the one queue of its band: into L1 for 100..149, into L2 for 50..99,
at the tail of L3 for 0..49; the other two queues are unchanged. -/
theorem ReadyToRun_inserts_by_band (k : Kernel) (thread : ThreadPtr)
    (hint : k.interruptLevel = IntStatus.IntOff)
    (hlo : 0 ≤ (k.threads thread).priority) (hhi : (k.threads thread).priority ≤ 149) :
    ∃ k2, Scheduler.ReadyToRun k thread = some k2 ∧
      (k2.threads thread).status = ThreadStatus.READY ∧
      (k2.threads thread).comeReady = k.totalTicks ∧
      (k2.threads thread).agingCount =
        (if (k.threads thread).status = ThreadStatus.JUST_CREATED then 0
         else (k.threads thread).agingCount) ∧
      (k2.threads thread).priority = (k.threads thread).priority ∧
      (k2.threads thread).predict = (k.threads thread).predict ∧
      (k2.threads thread).lastTime = (k.threads thread).lastTime ∧
      (∀ q, q ≠ thread → k2.threads q = k.threads q) ∧
      (100 ≤ (k.threads thread).priority →
        (∃ pre post, k.MultiLevelList1 = pre ++ post ∧
          k2.MultiLevelList1 = pre ++ thread :: post) ∧
        k2.MultiLevelList2 = k.MultiLevelList2 ∧ k2.MultiLevelList3 = k.MultiLevelList3) ∧
      (50 ≤ (k.threads thread).priority → (k.threads thread).priority ≤ 99 →
        (∃ pre post, k.MultiLevelList2 = pre ++ post ∧
          k2.MultiLevelList2 = pre ++ thread :: post) ∧
        k2.MultiLevelList1 = k.MultiLevelList1 ∧ k2.MultiLevelList3 = k.MultiLevelList3) ∧
      ((k.threads thread).priority ≤ 49 →
        k2.MultiLevelList3 = k.MultiLevelList3 ++ [thread] ∧
        k2.MultiLevelList1 = k.MultiLevelList1 ∧ k2.MultiLevelList2 = k.MultiLevelList2) := by
  obtain ⟨k3, hrun, ht, hoth, h1, h2, h3, -, -, -, -⟩ := ReadyToRun_shape k thread hint
  by_cases hb1 : 100 ≤ (k.threads thread).priority
  · rw [if_pos ⟨hb1, hhi⟩] at hrun
    refine ⟨_, hrun, ?_, ?_, ?_, ?_, ?_, ?_, ?_, ?_, ?_, ?_⟩ <;>
      simp only [Kernel.insertL1, setQueue_threads, ht]
    · exact hoth
    · intro _
      simp only [setQueue_L1, setQueue_L2, setQueue_L3, if_true, h1, h2, h3]
      exact ⟨SortedList.Insert_split _ _ _, by simp, by simp⟩
    · intro _ h99
      omega
    · intro h49
      omega
  · by_cases hb2 : 50 ≤ (k.threads thread).priority
    · rw [if_neg (fun h => hb1 h.1), if_pos ⟨hb2, by omega⟩] at hrun
      refine ⟨_, hrun, ?_, ?_, ?_, ?_, ?_, ?_, ?_, ?_, ?_, ?_⟩ <;>
        simp only [Kernel.insertL2, setQueue_threads, ht]
      · exact hoth
      · intro h100
        omega
      · intro _ _
        simp only [setQueue_L1, setQueue_L2, setQueue_L3, if_true, h1, h2, h3]
        exact ⟨SortedList.Insert_split _ _ _, by simp, by simp⟩
      · intro h49
        omega
    · rw [if_neg (fun h => hb1 h.1), if_neg (fun h => hb2 h.1), if_pos ⟨hlo, by omega⟩] at hrun
      refine ⟨_, hrun, ?_, ?_, ?_, ?_, ?_, ?_, ?_, ?_, ?_, ?_⟩ <;>
        simp only [Kernel.appendL3, setQueue_threads, ht]
      · exact hoth
      · intro h100
        omega
      · intro h50
        omega
      · intro _
        simp [NachosList.Append, h1, h2, h3]

/-- Witness of C2: a just-created thread of priority 70 is linked into L2 behind thread 3 of
the same priority. -/
theorem ReadyToRun_inserts_by_band_witness :
    (mkKernel (fun p => if p = 5 then { mkThread 70 0 9 with status := ThreadStatus.JUST_CREATED }
        else mkThread 70 0 0) 40 [] [3] []).interruptLevel = IntStatus.IntOff ∧
    ∃ k2, Scheduler.ReadyToRun
        (mkKernel (fun p => if p = 5 then
            { mkThread 70 0 9 with status := ThreadStatus.JUST_CREATED }
          else mkThread 70 0 0) 40 [] [3] []) 5 = some k2 ∧
      (k2.threads 5).status = ThreadStatus.READY ∧ (k2.threads 5).comeReady = 40 ∧
      (k2.threads 5).agingCount = 0 ∧ k2.MultiLevelList2 = [3, 5] ∧
      k2.MultiLevelList1 = [] ∧ k2.MultiLevelList3 = [] := by
  refine ⟨rfl, ?_⟩
  obtain ⟨k2, h, hs, hc, ha, -, -, -, -, -, -, -⟩ :=
    ReadyToRun_inserts_by_band
      (mkKernel (fun p => if p = 5 then
          { mkThread 70 0 9 with status := ThreadStatus.JUST_CREATED }
        else mkThread 70 0 0) 40 [] [3] []) 5 rfl (by decide) (by decide)
  refine ⟨k2, h, hs, hc, ha, ?_⟩
  have h2 : Scheduler.ReadyToRun
      (mkKernel (fun p => if p = 5 then
          { mkThread 70 0 9 with status := ThreadStatus.JUST_CREATED }
        else mkThread 70 0 0) 40 [] [3] []) 5 = some k2 := h
  simp [Scheduler.ReadyToRun, mkKernel, mkThread, Kernel.insertL2, Kernel.insertL1,
    Kernel.appendL3, SortedList.Insert, PriorityCompare] at h2
  subst h2
  simp [SortedList.Insert, PriorityCompare, mkThread]

/-! ## The loop body of `agingCheck` in closed form -/

theorem Kernel.eq_of_fields (a b : Kernel) (h1 : a.threads = b.threads)
    (h2 : a.currentThread = b.currentThread) (h3 : a.totalTicks = b.totalTicks)
    (h4 : a.interruptLevel = b.interruptLevel) (h5 : a.roundRobin = b.roundRobin)
    (h6 : a.MultiLevelList1 = b.MultiLevelList1) (h7 : a.MultiLevelList2 = b.MultiLevelList2)
    (h8 : a.MultiLevelList3 = b.MultiLevelList3) : a = b := by
  cases a
  cases b
  simp_all

theorem Kernel.update_update (k : Kernel) (p : ThreadPtr) (f g : Thread → Thread) :
    (k.update p f).update p g = k.update p (fun t => g (f t)) := by
  apply Kernel.eq_of_fields <;> try rfl
  funext q
  by_cases h : q = p <;> simp [h]

theorem Kernel.update_congr (k : Kernel) (p : ThreadPtr) (f g : Thread → Thread)
    (h : f (k.threads p) = g (k.threads p)) : k.update p f = k.update p g := by
  apply Kernel.eq_of_fields <;> try rfl
  funext q
  by_cases hq : q = p <;> simp [hq, h]

theorem Kernel.update_self (k : Kernel) (p : ThreadPtr) (f : Thread → Thread)
    (h : f (k.threads p) = k.threads p) : k.update p f = k := by
  apply Kernel.eq_of_fields <;> try rfl
  funext q
  by_cases hq : q = p <;> simp [hq, h]

/-- The loop body of `agingCheck` in closed form: the thread object behind `now` becomes
`agedOnce` of itself and, when a step is due, the pointer is taken out of the queue under
iteration and linked into the queue of the new priority. -/
theorem agingCheckItem_eq (list : QueueId) (k : Kernel) (now : ThreadPtr) :
    Scheduler.agingCheckItem list k now =
      if agingDue (decide (now = k.currentThread)) k.totalTicks (k.threads now) = true then
        if (agedOnce (decide (now = k.currentThread)) k.totalTicks (k.threads now)).priority > 99
        then
          ((k.update now (agedOnce (decide (now = k.currentThread)) k.totalTicks)).setQueue list
            (NachosList.Remove (k.queue list) now)).insertL1 now
        else if
          (agedOnce (decide (now = k.currentThread)) k.totalTicks (k.threads now)).priority > 49
        then
          ((k.update now (agedOnce (decide (now = k.currentThread)) k.totalTicks)).setQueue list
            (NachosList.Remove (k.queue list) now)).insertL2 now
        else
          ((k.update now (agedOnce (decide (now = k.currentThread)) k.totalTicks)).setQueue list
            (NachosList.Remove (k.queue list) now)).appendL3 now
      else k.update now (agedOnce (decide (now = k.currentThread)) k.totalTicks) := by
  have h1 : (if now ≠ k.currentThread then
        (k.update now (fun t =>
          { t with agingCount := t.agingCount + k.totalTicks - t.comeReady })).update now
            (fun t => { t with comeReady := k.totalTicks })
      else k) = k.update now (credited (decide (now = k.currentThread)) k.totalTicks) := by
    by_cases hc : now = k.currentThread
    · simp only [hc, ne_eq, not_true_eq_false, if_false, decide_True]
      exact (Kernel.update_self _ _ _ (by simp [credited])).symm
    · simp only [hc, ne_eq, not_false_eq_true, if_true, decide_False, Kernel.update_update]
      exact Kernel.update_congr _ _ _ _ (by simp [credited])
  unfold Scheduler.agingCheckItem
  simp only [h1]
  simp only [update_threads, if_true]
  by_cases hd : (credited (decide (now = k.currentThread)) k.totalTicks (k.threads now)).agingCount
      ≥ 1500 ∧
      (credited (decide (now = k.currentThread)) k.totalTicks (k.threads now)).priority ≠ 149
  · have hp : (credited (decide (now = k.currentThread)) k.totalTicks (k.threads now)).priority =
        (k.threads now).priority := by
      unfold credited
      split_ifs <;> rfl
    have hdue : agingDue (decide (now = k.currentThread)) k.totalTicks (k.threads now) = true := by
      simp only [agingDue, decide_eq_true_eq]
      exact ⟨hd.1, hp ▸ hd.2⟩
    have h4 : (if (credited (decide (now = k.currentThread)) k.totalTicks
          (k.threads now)).priority + 10 > 149 then
        (((k.update now (credited (decide (now = k.currentThread)) k.totalTicks)).update now
          (fun t => { t with agingCount := t.agingCount - 1500 })).update now
          (fun t => { t with priority := t.priority + 10 })).update now
          (fun t => { t with priority := 149 })
        else
        ((k.update now (credited (decide (now = k.currentThread)) k.totalTicks)).update now
          (fun t => { t with agingCount := t.agingCount - 1500 })).update now
          (fun t => { t with priority := t.priority + 10 })) =
        k.update now (agedOnce (decide (now = k.currentThread)) k.totalTicks) := by
      split_ifs with h149
      · simp only [Kernel.update_update]
        apply Kernel.update_congr
        simp only [agedOnce, hdue, if_true]
        rw [min_eq_right (by omega)]
      · simp only [Kernel.update_update]
        apply Kernel.update_congr
        simp only [agedOnce, hdue, if_true]
        rw [min_eq_left (by omega), hp]
    rw [if_pos hd]
    simp only [hdue, if_true, h4, setQueue_threads, update_threads, update_queue]
  · have hp : (credited (decide (now = k.currentThread)) k.totalTicks (k.threads now)).priority =
        (k.threads now).priority := by
      unfold credited
      split_ifs <;> rfl
    have hdue : ¬ agingDue (decide (now = k.currentThread)) k.totalTicks (k.threads now) = true := by
      simp only [agingDue, decide_eq_true_eq]
      rw [← hp]
      exact hd
    rw [if_neg hd, if_neg hdue]
    apply Kernel.update_congr
    simp only [agedOnce, hdue, if_false]
    rfl

theorem insertL1_threads (k : Kernel) (t : ThreadPtr) : (k.insertL1 t).threads = k.threads := by
  simp [Kernel.insertL1]

theorem insertL2_threads (k : Kernel) (t : ThreadPtr) : (k.insertL2 t).threads = k.threads := by
  simp [Kernel.insertL2]

theorem appendL3_threads (k : Kernel) (t : ThreadPtr) : (k.appendL3 t).threads = k.threads := by
  simp [Kernel.appendL3]

/-- The loop body of `agingCheck` rewrites the thread object behind `now` and no other. -/
theorem agingCheckItem_threads (list : QueueId) (k : Kernel) (now q : ThreadPtr) :
    (Scheduler.agingCheckItem list k now).threads q =
      if q = now then agedOnce (decide (now = k.currentThread)) k.totalTicks (k.threads now)
      else k.threads q := by
  rw [agingCheckItem_eq]
  split_ifs <;>
    simp_all [insertL1_threads, insertL2_threads, appendL3_threads]

/-- The loop body of `agingCheck` leaves the rest of the kernel alone. -/
theorem agingCheckItem_frame (list : QueueId) (k : Kernel) (now : ThreadPtr) :
    (Scheduler.agingCheckItem list k now).currentThread = k.currentThread ∧
    (Scheduler.agingCheckItem list k now).totalTicks = k.totalTicks ∧
    (Scheduler.agingCheckItem list k now).interruptLevel = k.interruptLevel ∧
    (Scheduler.agingCheckItem list k now).roundRobin = k.roundRobin := by
  rw [agingCheckItem_eq]
  split_ifs <;> simp [Kernel.insertL1, Kernel.insertL2, Kernel.appendL3]

/-- The contents of L1 after the loop body of `agingCheck`. -/
theorem agingCheckItem_L1 (list : QueueId) (k : Kernel) (now : ThreadPtr) :
    (Scheduler.agingCheckItem list k now).MultiLevelList1 =
      if agingDue (decide (now = k.currentThread)) k.totalTicks (k.threads now) = true then
        if (agedOnce (decide (now = k.currentThread)) k.totalTicks (k.threads now)).priority > 99
        then
          SortedList.Insert
            (fun a b => SJFCompare ((Scheduler.agingCheckItem list k now).threads a)
              ((Scheduler.agingCheckItem list k now).threads b)) now
            (if list = QueueId.L1 then NachosList.Remove k.MultiLevelList1 now
             else k.MultiLevelList1)
        else
          (if list = QueueId.L1 then NachosList.Remove k.MultiLevelList1 now
           else k.MultiLevelList1)
      else k.MultiLevelList1 := by
  have ht := agingCheckItem_threads list k now
  rw [agingCheckItem_eq] at ht ⊢
  split_ifs at ht ⊢ <;>
    simp_all [Kernel.insertL1, Kernel.insertL2, Kernel.appendL3]

/-- The contents of L2 after the loop body of `agingCheck`. -/
theorem agingCheckItem_L2 (list : QueueId) (k : Kernel) (now : ThreadPtr) :
    (Scheduler.agingCheckItem list k now).MultiLevelList2 =
      if agingDue (decide (now = k.currentThread)) k.totalTicks (k.threads now) = true then
        if ¬ (agedOnce (decide (now = k.currentThread)) k.totalTicks (k.threads now)).priority > 99
          ∧ (agedOnce (decide (now = k.currentThread)) k.totalTicks (k.threads now)).priority > 49
        then
          SortedList.Insert
            (fun a b => PriorityCompare ((Scheduler.agingCheckItem list k now).threads a)
              ((Scheduler.agingCheckItem list k now).threads b)) now
            (if list = QueueId.L2 then NachosList.Remove k.MultiLevelList2 now
             else k.MultiLevelList2)
        else
          (if list = QueueId.L2 then NachosList.Remove k.MultiLevelList2 now
           else k.MultiLevelList2)
      else k.MultiLevelList2 := by
  have ht := agingCheckItem_threads list k now
  rw [agingCheckItem_eq] at ht ⊢
  split_ifs at ht ⊢ <;>
    simp_all [Kernel.insertL1, Kernel.insertL2, Kernel.appendL3]

/-- The contents of L3 after the loop body of `agingCheck`. -/
theorem agingCheckItem_L3 (list : QueueId) (k : Kernel) (now : ThreadPtr) :
    (Scheduler.agingCheckItem list k now).MultiLevelList3 =
      if agingDue (decide (now = k.currentThread)) k.totalTicks (k.threads now) = true then
        if ¬ (agedOnce (decide (now = k.currentThread)) k.totalTicks (k.threads now)).priority > 49
        then
          (if list = QueueId.L3 then NachosList.Remove k.MultiLevelList3 now
           else k.MultiLevelList3) ++ [now]
        else
          (if list = QueueId.L3 then NachosList.Remove k.MultiLevelList3 now
           else k.MultiLevelList3)
      else k.MultiLevelList3 := by
  rw [agingCheckItem_eq]
  split_ifs <;>
    simp_all [Kernel.insertL1, Kernel.insertL2, Kernel.appendL3, NachosList.Append] <;> omega

/-! ## Loops -/

/-- An invariant that relates the state to the elements still to be visited survives a fold. -/
theorem foldl_invariant_rem {σ α : Type} (f : σ → α → σ) (I : σ → List α → Prop)
    (step : ∀ s x rest, I s (x :: rest) → I (f s x) rest) :
    ∀ (l : List α) (s : σ), I s l → I (l.foldl f s) [] := by
  intro l
  induction l with
  | nil => intro s h; exact h
  | cons x rest ih => intro s h; exact ih (f s x) (step s x rest h)

/-- An invariant of the loop body is an invariant of the loop. -/
theorem foldl_invariant {σ α : Type} (f : σ → α → σ) (P : σ → Prop)
    (step : ∀ s x, P s → P (f s x)) (l : List α) (s : σ) (h : P s) : P (l.foldl f s) :=
  foldl_invariant_rem f (fun s _ => P s) (fun s x _ hs => step s x hs) l s h

theorem agingCheck_frame (list : QueueId) (k : Kernel) :
    (Scheduler.agingCheck list k).currentThread = k.currentThread ∧
    (Scheduler.agingCheck list k).totalTicks = k.totalTicks ∧
    (Scheduler.agingCheck list k).interruptLevel = k.interruptLevel ∧
    (Scheduler.agingCheck list k).roundRobin = k.roundRobin := by
  unfold Scheduler.agingCheck
  refine foldl_invariant (Scheduler.agingCheckItem list)
    (fun s => s.currentThread = k.currentThread ∧ s.totalTicks = k.totalTicks ∧
      s.interruptLevel = k.interruptLevel ∧ s.roundRobin = k.roundRobin) ?_ _ k
    ⟨rfl, rfl, rfl, rfl⟩
  intro s x hs
  obtain ⟨h1, h2, h3, h4⟩ := agingCheckItem_frame list s x
  exact ⟨h1.trans hs.1, h2.trans hs.2.1, h3.trans hs.2.2.1, h4.trans hs.2.2.2⟩

theorem aging_frame (k : Kernel) :
    (Scheduler.aging k).currentThread = k.currentThread ∧
    (Scheduler.aging k).totalTicks = k.totalTicks ∧
    (Scheduler.aging k).interruptLevel = k.interruptLevel ∧
    (Scheduler.aging k).roundRobin = k.roundRobin := by
  unfold Scheduler.aging
  obtain ⟨a1, a2, a3, a4⟩ := agingCheck_frame QueueId.L1 k
  obtain ⟨b1, b2, b3, b4⟩ := agingCheck_frame QueueId.L2 (Scheduler.agingCheck QueueId.L1 k)
  obtain ⟨c1, c2, c3, c4⟩ := agingCheck_frame QueueId.L3
    (Scheduler.agingCheck QueueId.L2 (Scheduler.agingCheck QueueId.L1 k))
  exact ⟨c1.trans (b1.trans a1), c2.trans (b2.trans a2), c3.trans (b3.trans a3),
    c4.trans (b4.trans a4)⟩

theorem ReadyToRun_frame (k k2 : Kernel) (thread : ThreadPtr)
    (h : Scheduler.ReadyToRun k thread = some k2) :
    k2.currentThread = k.currentThread ∧ k2.totalTicks = k.totalTicks ∧
    k2.interruptLevel = k.interruptLevel ∧ k2.roundRobin = k.roundRobin := by
  have hint : k.interruptLevel = IntStatus.IntOff := by
    by_contra hne
    simp [Scheduler.ReadyToRun, hne] at h
  obtain ⟨k3, hrun, -, -, -, -, -, h4, h5, h6, h7⟩ := ReadyToRun_shape k thread hint
  rw [hrun] at h
  injection h with h
  subst h
  split_ifs <;> simp [Kernel.insertL1, Kernel.insertL2, Kernel.appendL3, h4, h5, h6, h7]

theorem ReadyToRun_returns (k : Kernel) (thread : ThreadPtr)
    (hint : k.interruptLevel = IntStatus.IntOff) :
    ∃ k2, Scheduler.ReadyToRun k thread = some k2 := by
  obtain ⟨k3, hrun, -⟩ := ReadyToRun_shape k thread hint
  exact ⟨_, hrun⟩

/-- The result of `FindNextToRun` case by case. -/
theorem FindNextToRun_cases (k : Kernel) (hint : k.interruptLevel = IntStatus.IntOff) :
    (∃ t rest, k.MultiLevelList1 = t :: rest ∧ Scheduler.FindNextToRun k =
      some (some t, { k with roundRobin := false, MultiLevelList1 := rest })) ∨
    (∃ t rest, k.MultiLevelList1 = [] ∧ k.MultiLevelList2 = t :: rest ∧
      Scheduler.FindNextToRun k =
        some (some t, { k with roundRobin := false, MultiLevelList2 := rest })) ∨
    (∃ t rest, k.MultiLevelList1 = [] ∧ k.MultiLevelList2 = [] ∧
      k.MultiLevelList3 = t :: rest ∧ Scheduler.FindNextToRun k =
        some (some t, { k with roundRobin := true, MultiLevelList3 := rest })) ∨
    (k.MultiLevelList1 = [] ∧ k.MultiLevelList2 = [] ∧ k.MultiLevelList3 = [] ∧
      Scheduler.FindNextToRun k = some (none, k)) := by
  rcases h1 : k.MultiLevelList1 with _ | ⟨a, l1⟩
  · rcases h2 : k.MultiLevelList2 with _ | ⟨b, l2⟩
    · rcases h3 : k.MultiLevelList3 with _ | ⟨c, l3⟩
      · right; right; right
        simp [Scheduler.FindNextToRun, hint, h1, h2, h3, NachosList.IsEmpty]
      · right; right; left
        exact ⟨c, l3, rfl, rfl, rfl, by
          simp [Scheduler.FindNextToRun, hint, h1, h2, h3, NachosList.IsEmpty,
            NachosList.RemoveFront]⟩
    · right; left
      exact ⟨b, l2, rfl, rfl, by
        simp [Scheduler.FindNextToRun, hint, h1, h2, NachosList.IsEmpty,
          NachosList.RemoveFront]⟩
  · left
    exact ⟨a, l1, rfl, by
      simp [Scheduler.FindNextToRun, hint, h1, NachosList.IsEmpty, NachosList.RemoveFront]⟩

/-- C3: with interrupts off `FindNextToRun` returns; when it returns a thread, the round-robin
flag afterwards is true if and only if the thread was taken from L3; when it returns `NULL` the
flag is unchanged; hence after any sequence of scheduler calls the flag is true if and only if
the last selection that returned a thread took it from L3 (and the flag is the initial one
when there was no such selection). -/
theorem roundRobin_tracks_last_selection (k : Kernel)
    (hint : k.interruptLevel = IntStatus.IntOff) :
    (∃ r k2, Scheduler.FindNextToRun k = some (r, k2)) ∧
    (∀ t k2, Scheduler.FindNextToRun k = some (some t, k2) →
      (k2.roundRobin = true ↔ Scheduler.takenFromL3 k t k2 = true)) ∧
    (∀ k2, Scheduler.FindNextToRun k = some (none, k2) → k2.roundRobin = k.roundRobin) ∧
    (∀ calls, ∃ k2 last, Scheduler.runCalls k none calls = some (k2, last) ∧
      (last = none → k2.roundRobin = k.roundRobin) ∧
      (∀ fromL3, last = some fromL3 → (k2.roundRobin = true ↔ fromL3 = true))) := by
  have one : ∀ k : Kernel, k.interruptLevel = IntStatus.IntOff →
      (∃ r k2, Scheduler.FindNextToRun k = some (r, k2)) ∧
      (∀ t k2, Scheduler.FindNextToRun k = some (some t, k2) →
        k2.interruptLevel = IntStatus.IntOff ∧
        (k2.roundRobin = Scheduler.takenFromL3 k t k2)) ∧
      (∀ k2, Scheduler.FindNextToRun k = some (none, k2) → k2 = k) := by
    intro k hint
    rcases FindNextToRun_cases k hint with ⟨t, rest, h1, h⟩ | ⟨t, rest, h1, h2, h⟩ |
      ⟨t, rest, h1, h2, h3, h⟩ | ⟨h1, h2, h3, h⟩
    · refine ⟨⟨_, _, h⟩, ?_, ?_⟩
      · intro t2 k2 h'
        rw [h] at h'
        simp only [Option.some.injEq, Prod.mk.injEq] at h'
        obtain ⟨rfl, rfl⟩ := h'
        refine ⟨hint, ?_⟩
        simp [Scheduler.takenFromL3, h1]
      · intro k2 h'
        rw [h] at h'
        simp at h'
    · refine ⟨⟨_, _, h⟩, ?_, ?_⟩
      · intro t2 k2 h'
        rw [h] at h'
        simp only [Option.some.injEq, Prod.mk.injEq] at h'
        obtain ⟨rfl, rfl⟩ := h'
        refine ⟨hint, ?_⟩
        simp [Scheduler.takenFromL3, h1, h2]
      · intro k2 h'
        rw [h] at h'
        simp at h'
    · refine ⟨⟨_, _, h⟩, ?_, ?_⟩
      · intro t2 k2 h'
        rw [h] at h'
        simp only [Option.some.injEq, Prod.mk.injEq] at h'
        obtain ⟨rfl, rfl⟩ := h'
        refine ⟨hint, ?_⟩
        simp [Scheduler.takenFromL3, h1, h2, h3]
      · intro k2 h'
        rw [h] at h'
        simp at h'
    · refine ⟨⟨_, _, h⟩, ?_, ?_⟩
      · intro t2 k2 h'
        rw [h] at h'
        simp at h'
      · intro k2 h'
        rw [h] at h'
        simp only [Option.some.injEq, Prod.mk.injEq, true_and] at h'
        exact h'.symm
  have run : ∀ (calls : List SchedulerCall) (k : Kernel) (last : Option Bool),
      k.interruptLevel = IntStatus.IntOff →
      ∃ k2 last2, Scheduler.runCalls k last calls = some (k2, last2) ∧
        (last2 = none → last = none ∧ k2.roundRobin = k.roundRobin) ∧
        (∀ b, last2 = some b →
          (last = none ∨ last = some k.roundRobin) → k2.roundRobin = b) := by
    intro calls
    induction calls with
    | nil =>
      intro k last _
      refine ⟨k, last, rfl, fun h => ⟨h, rfl⟩, ?_⟩
      intro b hb hl
      rcases hl with hl | hl
      · rw [hl] at hb
        cases hb
      · rw [hl] at hb
        injection hb
    | cons c cs ih =>
      intro k last hint
      cases c with
      | ReadyToRun thread =>
        obtain ⟨k1, hk1⟩ := ReadyToRun_returns k thread hint
        obtain ⟨-, -, f3, f4⟩ := ReadyToRun_frame k k1 thread hk1
        obtain ⟨k2, last2, hr, hn, hs⟩ := ih k1 last (f3.trans hint)
        refine ⟨k2, last2, by simp [Scheduler.runCalls, hk1, hr], ?_, ?_⟩
        · intro h
          exact ⟨(hn h).1, (hn h).2.trans f4⟩
        · intro b hb hl
          exact hs b hb (by rw [f4]; exact hl)
      | FindNextToRun =>
        obtain ⟨⟨r, k1, hk1⟩, hsome, hnone⟩ := one k hint
        cases r with
        | none =>
          have hk : k1 = k := hnone k1 hk1
          subst hk
          obtain ⟨k2, last2, hr, hn, hs⟩ := ih k1 last hint
          exact ⟨k2, last2, by simp [Scheduler.runCalls, hk1, hr], hn, hs⟩
        | some t =>
          obtain ⟨hint1, hrr⟩ := hsome t k1 hk1
          obtain ⟨k2, last2, hr, hn, hs⟩ :=
            ih k1 (some (Scheduler.takenFromL3 k t k1)) hint1
          refine ⟨k2, last2, by simp [Scheduler.runCalls, hk1, hr], ?_, ?_⟩
          · intro h
            have := (hn h).1
            cases this
          · intro b hb _
            exact hs b hb (Or.inr (by rw [hrr]))
      | aging =>
        obtain ⟨-, -, f3, f4⟩ := aging_frame k
        obtain ⟨k2, last2, hr, hn, hs⟩ := ih (Scheduler.aging k) last (f3.trans hint)
        refine ⟨k2, last2, by simp [Scheduler.runCalls, hr], ?_, ?_⟩
        · intro h
          exact ⟨(hn h).1, (hn h).2.trans f4⟩
        · intro b hb hl
          exact hs b hb (by rw [f4]; exact hl)
  obtain ⟨hret, hsome, hnone⟩ := one k hint
  refine ⟨hret, ?_, ?_, ?_⟩
  · intro t k2 h
    rw [(hsome t k2 h).2]
  · intro k2 h
    rw [hnone k2 h]
  · intro calls
    obtain ⟨k2, last2, hr, hn, hs⟩ := run calls k none hint
    refine ⟨k2, last2, hr, fun h => (hn h).2, ?_⟩
    intro b hb
    rw [hs b hb (Or.inl rfl)]

/-- Witness of C3: a selection from L3, then one from L1 after a thread became ready. -/
theorem roundRobin_tracks_last_selection_witness :
    (mkKernel (fun _ => mkThread 120 0 0) 0 [] [] [4]).interruptLevel = IntStatus.IntOff ∧
    ∃ k2 last, Scheduler.runCalls (mkKernel (fun _ => mkThread 120 0 0) 0 [] [] [4]) none
        [SchedulerCall.FindNextToRun, SchedulerCall.ReadyToRun 7, SchedulerCall.FindNextToRun,
          SchedulerCall.FindNextToRun] = some (k2, last) ∧
      (last = none → k2.roundRobin = false) ∧
      (∀ fromL3, last = some fromL3 → (k2.roundRobin = true ↔ fromL3 = true)) :=
  ⟨rfl, (roundRobin_tracks_last_selection
    (mkKernel (fun _ => mkThread 120 0 0) 0 [] [] [4]) rfl).2.2.2 _⟩

/-! ## `Preemtive` -/

/-- C7, as stated, fails: the current thread (priority 120, predict 8) runs while the head of
L1 has predict 10 and last burst 0, hence key 5 < 8, and `Preemtive` still answers false. -/
theorem Preemtive_key_counterexample :
    100 ≤ ((mkKernel (fun p => if p = 0 then mkThread 120 8 0 else mkThread 120 10 0) 0 [1] []
        []).threads 0).priority ∧
    ((mkKernel (fun p => if p = 0 then mkThread 120 8 0 else mkThread 120 10 0) 0 [1] []
        []).threads 0).priority ≤ 149 ∧
    (mkKernel (fun p => if p = 0 then mkThread 120 8 0 else mkThread 120 10 0) 0 [1] []
        []).currentThread = 0 ∧
    (mkKernel (fun p => if p = 0 then mkThread 120 8 0 else mkThread 120 10 0) 0 [1] []
        []).MultiLevelList1 = [1] ∧
    sjfKey ((mkKernel (fun p => if p = 0 then mkThread 120 8 0 else mkThread 120 10 0) 0 [1] []
        []).threads 1) <
      ((mkKernel (fun p => if p = 0 then mkThread 120 8 0 else mkThread 120 10 0) 0 [1] []
        []).threads 0).predict ∧
    Scheduler.Preemtive
      (mkKernel (fun p => if p = 0 then mkThread 120 8 0 else mkThread 120 10 0) 0 [1] [] []) =
        false := by
  refine ⟨by decide, by decide, rfl, rfl, by decide, by decide⟩

/-- C7, amended: when the priority of the current thread is in [100,149] and L1 is non-empty,
`Preemtive` returns true if and only if the `predict` of the head of L1 is strictly smaller
than the `predict` of the current thread; when L1 is empty it returns false. -/
theorem Preemtive_L1_compares_predict (k : Kernel)
    (hlo : 100 ≤ (k.threads k.currentThread).priority)
    (hhi : (k.threads k.currentThread).priority ≤ 149) :
    (∀ first rest, k.MultiLevelList1 = first :: rest →
      (Scheduler.Preemtive k = true ↔
        (k.threads first).predict < (k.threads k.currentThread).predict)) ∧
    (k.MultiLevelList1 = [] → Scheduler.Preemtive k = false) := by
  constructor
  · intro first rest h1
    simp [Scheduler.Preemtive, hlo, hhi, h1, NachosList.IsEmpty, NachosList.Front]
  · intro h1
    simp [Scheduler.Preemtive, hlo, hhi, h1, NachosList.IsEmpty]

/-- Witness of amended C7: the state of the counterexample; head predict 10 is not below 8. -/
theorem Preemtive_L1_compares_predict_witness :
    (Scheduler.Preemtive
      (mkKernel (fun p => if p = 0 then mkThread 120 8 0 else mkThread 120 10 0) 0 [1] [] []) =
        true ↔
      ((mkKernel (fun p => if p = 0 then mkThread 120 8 0 else mkThread 120 10 0) 0 [1] []
        []).threads 1).predict <
      ((mkKernel (fun p => if p = 0 then mkThread 120 8 0 else mkThread 120 10 0) 0 [1] []
        []).threads 0).predict) :=
  (Preemtive_L1_compares_predict
    (mkKernel (fun p => if p = 0 then mkThread 120 8 0 else mkThread 120 10 0) 0 [1] [] [])
    (by decide) (by decide)).1 1 [] rfl

/-- C8: when the priority of the current thread is in [50,99], `Preemtive` returns true if and
only if L1 is non-empty, so it returns true after `ReadyToRun` of a thread with priority in
[100,149]; when the priority of the current thread is in [0,49] it returns false whatever the
queues contain. -/
theorem Preemtive_L2_L3 (k : Kernel) :
    (50 ≤ (k.threads k.currentThread).priority → (k.threads k.currentThread).priority ≤ 99 →
      (Scheduler.Preemtive k = true ↔ k.MultiLevelList1 ≠ [])) ∧
    (0 ≤ (k.threads k.currentThread).priority → (k.threads k.currentThread).priority ≤ 49 →
      Scheduler.Preemtive k = false) ∧
    (∀ thread, k.interruptLevel = IntStatus.IntOff →
      50 ≤ (k.threads k.currentThread).priority → (k.threads k.currentThread).priority ≤ 99 →
      100 ≤ (k.threads thread).priority → (k.threads thread).priority ≤ 149 →
      ∃ k2, Scheduler.ReadyToRun k thread = some k2 ∧ Scheduler.Preemtive k2 = true) := by
  have mid : ∀ k : Kernel, 50 ≤ (k.threads k.currentThread).priority →
      (k.threads k.currentThread).priority ≤ 99 →
      (Scheduler.Preemtive k = true ↔ k.MultiLevelList1 ≠ []) := by
    intro k h50 h99
    have hn : ¬ (100 ≤ (k.threads k.currentThread).priority) := by omega
    rcases h1 : k.MultiLevelList1 with _ | ⟨a, l⟩ <;>
      simp [Scheduler.Preemtive, hn, h50, h99, h1, NachosList.IsEmpty]
  refine ⟨mid k, ?_, ?_⟩
  · intro h0 h49
    have hn : ¬ (100 ≤ (k.threads k.currentThread).priority) := by omega
    have hm : ¬ (50 ≤ (k.threads k.currentThread).priority) := by omega
    simp [Scheduler.Preemtive, hn, hm]
  · intro thread hint h50 h99 h100 h149
    obtain ⟨k3, hrun, -, hoth, -, -, -, hcur, -, -, -⟩ := ReadyToRun_shape k thread hint
    rw [if_pos ⟨h100, h149⟩] at hrun
    refine ⟨_, hrun, ?_⟩
    have hne : k.currentThread ≠ thread := by
      intro h
      rw [h] at h99
      omega
    have hpc : ((k3.insertL1 thread).threads (k3.insertL1 thread).currentThread).priority =
        (k.threads k.currentThread).priority := by
      simp only [Kernel.insertL1, setQueue_threads, setQueue_currentThread, hcur, hoth _ hne]
    rw [mid _ (by rw [hpc]; exact h50) (by rw [hpc]; exact h99)]
    obtain ⟨pre, post, -, he⟩ := SortedList.Insert_split
      (fun a b => SJFCompare (k3.threads a) (k3.threads b)) thread k3.MultiLevelList1
    simp only [Kernel.insertL1, setQueue_L1, if_true, he]
    simp

/-- Witness of C8: the current thread has priority 70 and a thread of priority 110 becomes
ready. -/
theorem Preemtive_L2_L3_witness :
    ∃ k2, Scheduler.ReadyToRun
        (mkKernel (fun p => if p = 0 then mkThread 70 0 0 else mkThread 110 0 0) 0 [] [] []) 1 =
          some k2 ∧ Scheduler.Preemtive k2 = true :=
  (Preemtive_L2_L3
    (mkKernel (fun p => if p = 0 then mkThread 70 0 0 else mkThread 110 0 0) 0 [] [] [])).2.2 1
    rfl (by decide) (by decide) (by decide) (by decide)

/-! ## Sorted insertion keeps a stable order -/

theorem SortedList.Insert_pairwise {α : Type} (cmp : α → α → Int) (f : α → Int)
    (hc : ∀ a b, cmp a b < 0 ↔ f a < f b) (x : α) (l : List α)
    (hl : l.Pairwise (fun a b => f a ≤ f b)) :
    (SortedList.Insert cmp x l).Pairwise (fun a b => f a ≤ f b) := by
  induction l with
  | nil => simp [SortedList.Insert]
  | cons y ys ih =>
    rw [List.pairwise_cons] at hl
    by_cases h : cmp x y < 0
    · simp only [SortedList.Insert, h, if_true]
      have hxy : f x < f y := (hc x y).1 h
      refine List.Pairwise.cons ?_ (List.Pairwise.cons hl.1 hl.2)
      intro z hz
      rcases List.mem_cons.1 hz with rfl | hz
      · exact le_of_lt hxy
      · exact le_trans (le_of_lt hxy) (hl.1 z hz)
    · simp only [SortedList.Insert, h, if_false]
      have hyx : f y ≤ f x := not_lt.1 (fun hlt => h ((hc x y).2 hlt))
      refine List.Pairwise.cons ?_ (ih hl.2)
      intro z hz
      rcases (SortedList.mem_Insert cmp x z ys).1 hz with rfl | hz
      · exact hyx
      · exact hl.1 z hz

theorem SortedList.Insert_filter {α : Type} (cmp : α → α → Int) (f : α → Int)
    (hc : ∀ a b, cmp a b < 0 ↔ f a < f b) (x : α) (l : List α)
    (hl : l.Pairwise (fun a b => f a ≤ f b)) (v : Int) :
    (SortedList.Insert cmp x l).filter (fun a => decide (f a = v)) =
      if f x = v then l.filter (fun a => decide (f a = v)) ++ [x]
      else l.filter (fun a => decide (f a = v)) := by
  induction l with
  | nil =>
    by_cases hv : f x = v <;> simp [SortedList.Insert, hv]
  | cons y ys ih =>
    rw [List.pairwise_cons] at hl
    by_cases h : cmp x y < 0
    · simp only [SortedList.Insert, h, if_true]
      have hxy : f x < f y := (hc x y).1 h
      by_cases hv : f x = v
      · have hnone : (y :: ys).filter (fun a => decide (f a = v)) = [] := by
          rw [List.filter_eq_nil_iff]
          intro z hz
          have hz2 : f y ≤ f z := by
            rcases List.mem_cons.1 hz with rfl | hz
            · exact le_refl _
            · exact hl.1 z hz
          simp only [decide_eq_true_eq]
          omega
        rw [List.filter_cons, hnone]
        simp [hv]
      · rw [List.filter_cons]
        simp [hv]
    · simp only [SortedList.Insert, h, if_false]
      rw [List.filter_cons, ih hl.2, List.filter_cons]
      by_cases hv : f x = v <;> by_cases hy : f y = v <;> simp [hv, hy]

/-- Stability of Mathlib's insertion sort for an integer key, per key value. -/
theorem insertionSort_filter_key {α : Type} (f : α → Int) (v : Int) (l : List α) :
    (l.insertionSort (fun a b => f a ≤ f b)).filter (fun a => decide (f a = v)) =
      l.filter (fun a => decide (f a = v)) := by
  have ins : ∀ (a : α) (s : List α),
      (s.orderedInsert (fun a b => f a ≤ f b) a).filter (fun a => decide (f a = v)) =
        (a :: s).filter (fun a => decide (f a = v)) := by
    intro a s
    induction s with
    | nil => simp
    | cons b s ih =>
      by_cases hab : f a ≤ f b
      · simp only [List.orderedInsert, hab, if_true]
      · simp only [List.orderedInsert, hab, if_false]
        rw [List.filter_cons, ih]
        by_cases hv : f a = v <;> by_cases hb : f b = v <;> simp [List.filter_cons, hv, hb]
        omega
  induction l with
  | nil => simp
  | cons a l ih =>
    rw [List.insertionSort, ins, List.filter_cons, ih, List.filter_cons]

/-- Two lists ordered by an integer key that agree on every class of equal keys are equal. -/
theorem eq_of_pairwise_of_filter_key {α : Type} (f : α → Int) :
    ∀ (l1 l2 : List α), l1.Pairwise (fun a b => f a ≤ f b) →
      l2.Pairwise (fun a b => f a ≤ f b) →
      (∀ v, l1.filter (fun a => decide (f a = v)) = l2.filter (fun a => decide (f a = v))) →
      l1 = l2 := by
  have key_le : ∀ (a b : α) (l1 l2 : List α), (a :: l1).Pairwise (fun a b => f a ≤ f b) →
      (∀ v, (a :: l1).filter (fun a => decide (f a = v)) =
        (b :: l2).filter (fun a => decide (f a = v))) → f a ≤ f b := by
    intro a b l1 l2 hs hf
    have hb : b ∈ (b :: l2).filter (fun a => decide (f a = f b)) := by simp
    rw [← hf] at hb
    have hb2 : b ∈ a :: l1 := (List.mem_filter.1 hb).1
    rcases List.mem_cons.1 hb2 with rfl | hb2
    · exact le_refl _
    · exact (List.pairwise_cons.1 hs).1 b hb2
  intro l1
  induction l1 with
  | nil =>
    intro l2 _ _ hf
    cases l2 with
    | nil => rfl
    | cons b l2 =>
      have := hf (f b)
      simp at this
  | cons a l1 ih =>
    intro l2 hs1 hs2 hf
    cases l2 with
    | nil =>
      have := hf (f a)
      simp at this
    | cons b l2 =>
      have hab : f a = f b :=
        le_antisymm (key_le a b l1 l2 hs1 hf) (key_le b a l2 l1 hs2 (fun v => (hf v).symm))
      have hhead := hf (f a)
      rw [List.filter_cons, List.filter_cons] at hhead
      simp only [decide_True, if_true, hab] at hhead
      injection hhead with h1 h2
      subst h1
      congr 1
      refine ih l2 (List.pairwise_cons.1 hs1).2 (List.pairwise_cons.1 hs2).2 ?_
      intro v
      by_cases hv : f a = v
      · subst hv
        exact h2
      · have := hf v
        rw [List.filter_cons, List.filter_cons] at this
        simpa [hv] using this

/-! ## Dispatch order of L1 -/

theorem SJFCompare_neg_iff (a b : Thread) : SJFCompare a b < 0 ↔ sjfKey a < sjfKey b := by
  unfold SJFCompare sjfKey
  split_ifs <;> omega

theorem PriorityCompare_neg_iff (a b : Thread) :
    PriorityCompare a b < 0 ↔ -a.priority < -b.priority := by
  unfold PriorityCompare
  split_ifs <;> omega

/-- Threads made ready in the L1 band pile up in L1 in stable key order. -/
theorem readyAll_L1_band (ts : List ThreadPtr) :
    ∀ (k : Kernel) (seen : List ThreadPtr), k.interruptLevel = IntStatus.IntOff →
      (∀ t ∈ ts, 100 ≤ (k.threads t).priority ∧ (k.threads t).priority ≤ 149) →
      k.MultiLevelList1.Perm seen →
      k.MultiLevelList1.Pairwise (fun a b => sjfKey (k.threads a) ≤ sjfKey (k.threads b)) →
      (∀ v, k.MultiLevelList1.filter (fun a => decide (sjfKey (k.threads a) = v)) =
        seen.filter (fun a => decide (sjfKey (k.threads a) = v))) →
      ∃ k1, Scheduler.readyAll k ts = some k1 ∧
        k1.interruptLevel = IntStatus.IntOff ∧
        k1.MultiLevelList2 = k.MultiLevelList2 ∧ k1.MultiLevelList3 = k.MultiLevelList3 ∧
        (∀ q, sjfKey (k1.threads q) = sjfKey (k.threads q)) ∧
        k1.MultiLevelList1.Perm (seen ++ ts) ∧
        k1.MultiLevelList1.Pairwise (fun a b => sjfKey (k.threads a) ≤ sjfKey (k.threads b)) ∧
        (∀ v, k1.MultiLevelList1.filter (fun a => decide (sjfKey (k.threads a) = v)) =
          (seen ++ ts).filter (fun a => decide (sjfKey (k.threads a) = v))) := by
  induction ts with
  | nil =>
    intro k seen hint _ hperm hsort hfil
    exact ⟨k, rfl, hint, rfl, rfl, fun _ => rfl, by simpa using hperm, hsort,
      by simpa using hfil⟩
  | cons t ts ih =>
    intro k seen hint hband hperm hsort hfil
    obtain ⟨k3, hrun, ht, hoth, h1, h2, h3, -, -, h6, -⟩ := ReadyToRun_shape k t hint
    rw [if_pos (hband t (List.mem_cons_self t ts))] at hrun
    have hkey : ∀ q, sjfKey (k3.threads q) = sjfKey (k.threads q) := by
      intro q
      by_cases hq : q = t
      · subst hq
        rw [ht]
        rfl
      · rw [hoth q hq]
    have hprio : ∀ q, (k3.threads q).priority = (k.threads q).priority := by
      intro q
      by_cases hq : q = t
      · subst hq
        rw [ht]
      · rw [hoth q hq]
    have hcmp : ∀ a b, SJFCompare (k3.threads a) (k3.threads b) < 0 ↔
        sjfKey (k.threads a) < sjfKey (k.threads b) := by
      intro a b
      rw [SJFCompare_neg_iff, hkey, hkey]
    have hL1 : (k3.insertL1 t).MultiLevelList1 =
        SortedList.Insert (fun a b => SJFCompare (k3.threads a) (k3.threads b)) t
          k.MultiLevelList1 := by
      simp [Kernel.insertL1, h1]
    have hkey2 : ∀ q, sjfKey ((k3.insertL1 t).threads q) = sjfKey (k.threads q) := by
      intro q
      rw [insertL1_threads, hkey]
    obtain ⟨k1, hr, hi, hl2, hl3, hk, hp, hs, hf⟩ := ih (k3.insertL1 t) (seen ++ [t])
      (by simp [Kernel.insertL1, h6, hint])
      (by
        intro u hu
        rw [insertL1_threads, hprio]
        exact hband u (List.mem_cons_of_mem t hu))
      (by
        rw [hL1]
        exact (SortedList.Insert_perm _ _ _).trans
          ((List.Perm.cons t hperm).trans (List.perm_append_singleton t seen).symm))
      (by
        rw [hL1]
        simp only [hkey2]
        exact SortedList.Insert_pairwise _ (fun a => sjfKey (k.threads a)) hcmp t _ hsort)
      (by
        intro v
        rw [hL1]
        simp only [hkey2]
        rw [SortedList.Insert_filter _ (fun a => sjfKey (k.threads a)) hcmp t _ hsort v,
          List.filter_append, hfil v]
        by_cases hv : sjfKey (k.threads t) = v <;> simp [hv])
    refine ⟨k1, by simp [Scheduler.readyAll, hrun, hr], hi, ?_, ?_, ?_, ?_, ?_, ?_⟩
    · rw [hl2]
      simp [Kernel.insertL1, h2]
    · rw [hl3]
      simp [Kernel.insertL1, h3]
    · intro q
      rw [hk, hkey2]
    · simpa using hp
    · simpa only [hkey2] using hs
    · intro v
      have := hf v
      simpa only [hkey2, List.append_assoc, List.singleton_append] using this

/-- With L2 and L3 empty, repeated `FindNextToRun` hands out L1 from head to tail. -/
theorem dispatch_L1_only (l : List ThreadPtr) :
    ∀ (n : Nat) (k : Kernel), k.interruptLevel = IntStatus.IntOff →
      k.MultiLevelList1 = l → k.MultiLevelList2 = [] → k.MultiLevelList3 = [] →
      l.length ≤ n →
      ∃ k2, Scheduler.dispatch n k = some (l, k2) ∧
        k2.interruptLevel = IntStatus.IntOff ∧ k2.MultiLevelList1 = [] ∧
        k2.MultiLevelList2 = [] ∧ k2.MultiLevelList3 = [] := by
  induction l with
  | nil =>
    intro n k hint h1 h2 h3 _
    cases n with
    | zero => exact ⟨k, rfl, hint, h1, h2, h3⟩
    | succ n =>
      refine ⟨k, ?_, hint, h1, h2, h3⟩
      simp [Scheduler.dispatch, Scheduler.FindNextToRun, hint, h1, h2, h3, NachosList.IsEmpty]
  | cons t rest ih =>
    intro n k hint h1 h2 h3 hn
    cases n with
    | zero => simp at hn
    | succ n =>
      obtain ⟨k2, hd, hi, e1, e2, e3⟩ :=
        ih n { k with roundRobin := false, MultiLevelList1 := rest } hint rfl h2 h3
          (by simpa using hn)
      refine ⟨k2, ?_, hi, e1, e2, e3⟩
      have hF : Scheduler.FindNextToRun k =
          some (some t, { k with roundRobin := false, MultiLevelList1 := rest }) := by
        rw [Scheduler.FindNextToRun, if_neg (by simp [hint])]
        simp [h1, NachosList.IsEmpty, NachosList.RemoveFront]
      simp only [Scheduler.dispatch, hF, hd]

/-- C4: threads with priorities in [100,149] made ready one after another on empty queues are
returned by repeated `FindNextToRun` calls in the stable sort of the ready sequence by the key
`predict/2 + last_time/2`: the dispatched sequence is a permutation of the ready sequence,
ascending in the key, and threads of equal key keep their insertion order; after that the
queues are empty. -/
theorem L1_dispatch_is_stable_sort (k : Kernel) (ts : List ThreadPtr) (n : Nat)
    (hint : k.interruptLevel = IntStatus.IntOff)
    (h1 : k.MultiLevelList1 = []) (h2 : k.MultiLevelList2 = []) (h3 : k.MultiLevelList3 = [])
    (hband : ∀ t ∈ ts, 100 ≤ (k.threads t).priority ∧ (k.threads t).priority ≤ 149)
    (hn : ts.length ≤ n) :
    ∃ k1 k2 out, Scheduler.readyAll k ts = some k1 ∧
      Scheduler.dispatch n k1 = some (out, k2) ∧
      out = stableSortByKey (fun t => sjfKey (k.threads t)) ts ∧
      out.Perm ts ∧
      out.Pairwise (fun a b => sjfKey (k.threads a) ≤ sjfKey (k.threads b)) ∧
      (∀ v, out.filter (fun a => decide (sjfKey (k.threads a) = v)) =
        ts.filter (fun a => decide (sjfKey (k.threads a) = v))) ∧
      (∀ q, sjfKey (k1.threads q) = sjfKey (k.threads q)) ∧
      Scheduler.FindNextToRun k2 = some (none, k2) := by
  obtain ⟨k1, hr, hi, hl2, hl3, hk, hp, hs, hf⟩ := readyAll_L1_band ts k [] hint hband
    (by rw [h1]) (by rw [h1]; exact List.Pairwise.nil) (by intro v; rw [h1])
  obtain ⟨k2, hd, hi2, e1, e2, e3⟩ := dispatch_L1_only k1.MultiLevelList1 n k1 hi rfl
    (hl2.trans h2) (hl3.trans h3) (by rw [hp.length_eq]; simpa using hn)
  refine ⟨k1, k2, k1.MultiLevelList1, hr, hd, ?_, by simpa using hp, hs, by simpa using hf, hk,
    ?_⟩
  · haveI : IsTotal ThreadPtr (fun a b => sjfKey (k.threads a) ≤ sjfKey (k.threads b)) :=
      ⟨fun a b => le_total _ _⟩
    haveI : IsTrans ThreadPtr (fun a b => sjfKey (k.threads a) ≤ sjfKey (k.threads b)) :=
      ⟨fun a b c h h2 => le_trans h h2⟩
    refine eq_of_pairwise_of_filter_key (fun t => sjfKey (k.threads t)) _ _ hs
      (List.sorted_insertionSort _ ts) ?_
    intro v
    rw [stableSortByKey, insertionSort_filter_key]
    simpa using hf v
  · simp [Scheduler.FindNextToRun, hi2, e1, e2, e3, NachosList.IsEmpty]

/-- Witness of C4: predicts 10, 4, 7 with equal last burst are dispatched as 4, 7, 10. -/
theorem L1_dispatch_is_stable_sort_witness :
    ∃ k1 k2 out,
      Scheduler.readyAll
        (mkKernel (fun p => if p = 1 then mkThread 120 10 0 else if p = 2 then mkThread 120 4 0
          else mkThread 120 7 0) 0 [] [] []) [1, 2, 3] = some k1 ∧
      Scheduler.dispatch 3 k1 = some (out, k2) ∧ out = [2, 3, 1] := by
  obtain ⟨k1, k2, out, hr, hd, ho, -⟩ := L1_dispatch_is_stable_sort
    (mkKernel (fun p => if p = 1 then mkThread 120 10 0 else if p = 2 then mkThread 120 4 0
      else mkThread 120 7 0) 0 [] [] []) [1, 2, 3] 3 rfl rfl rfl rfl (by decide) (by decide)
  refine ⟨k1, k2, out, hr, hd, ?_⟩
  rw [ho]
  decide

/-! ## Order of L1 -/

theorem credited_fields (c : Bool) (n : Int) (t : Thread) :
    (credited c n t).priority = t.priority ∧ (credited c n t).predict = t.predict ∧
    (credited c n t).lastTime = t.lastTime := by
  unfold credited
  split_ifs <;> exact ⟨rfl, rfl, rfl⟩

theorem agedOnce_sjfKey (c : Bool) (n : Int) (t : Thread) :
    sjfKey (agedOnce c n t) = sjfKey t := by
  obtain ⟨-, h2, h3⟩ := credited_fields c n t
  unfold agedOnce sjfKey
  split_ifs <;> simp only [h2, h3]

theorem agingCheckItem_sjfKey (list : QueueId) (k : Kernel) (now q : ThreadPtr) :
    sjfKey ((Scheduler.agingCheckItem list k now).threads q) = sjfKey (k.threads q) := by
  rw [agingCheckItem_threads]
  split_ifs with h
  · rw [agedOnce_sjfKey, h]
  · rfl

theorem L1Ordered_iff (k : Kernel) :
    L1Ordered k ↔
      k.MultiLevelList1.Pairwise (fun a b => sjfKey (k.threads a) ≤ sjfKey (k.threads b)) := by
  haveI : IsTrans ThreadPtr (fun a b => sjfKey (k.threads a) ≤ sjfKey (k.threads b)) :=
    ⟨fun a b c h h2 => le_trans h h2⟩
  exact List.chain'_iff_pairwise

theorem remove_sublist (list q : QueueId) (l : List ThreadPtr) (now : ThreadPtr) :
    (if list = q then NachosList.Remove l now else l).Sublist l := by
  split_ifs
  · exact List.erase_sublist now l
  · exact List.Sublist.refl l

theorem agingCheckItem_L1Ordered (list : QueueId) (k : Kernel) (now : ThreadPtr)
    (h : L1Ordered k) : L1Ordered (Scheduler.agingCheckItem list k now) := by
  rw [L1Ordered_iff] at h ⊢
  simp only [agingCheckItem_sjfKey]
  rw [agingCheckItem_L1]
  have hbase := h.sublist (remove_sublist list QueueId.L1 k.MultiLevelList1 now)
  generalize (if list = QueueId.L1 then NachosList.Remove k.MultiLevelList1 now
    else k.MultiLevelList1) = base at hbase ⊢
  split_ifs
  · refine SortedList.Insert_pairwise _ (fun a => sjfKey (k.threads a)) ?_ now _ hbase
    intro a b
    rw [SJFCompare_neg_iff, agingCheckItem_sjfKey, agingCheckItem_sjfKey]
  · exact hbase
  · exact h

theorem agingCheck_L1Ordered (list : QueueId) (k : Kernel) (h : L1Ordered k) :
    L1Ordered (Scheduler.agingCheck list k) :=
  foldl_invariant (Scheduler.agingCheckItem list) L1Ordered
    (fun s x hs => agingCheckItem_L1Ordered list s x hs) _ k h

/-- C5: the ordering of L1 is an invariant: if every adjacent pair in L1 has non-decreasing key
`predict/2 + last_time/2`, the same holds after `ReadyToRun` of any thread, after
`FindNextToRun`, after the aging of any one queue and after a whole aging pass. -/
theorem L1_order_invariant (k : Kernel) (h : L1Ordered k) :
    (∀ thread, k.interruptLevel = IntStatus.IntOff →
      ∃ k2, Scheduler.ReadyToRun k thread = some k2 ∧ L1Ordered k2) ∧
    (k.interruptLevel = IntStatus.IntOff →
      ∃ r k2, Scheduler.FindNextToRun k = some (r, k2) ∧ L1Ordered k2) ∧
    (∀ list, L1Ordered (Scheduler.agingCheck list k)) ∧
    L1Ordered (Scheduler.aging k) := by
  refine ⟨?_, ?_, fun list => agingCheck_L1Ordered list k h, ?_⟩
  · intro thread hint
    obtain ⟨k3, hrun, ht, hoth, h1, -, -, -, -, -, -⟩ := ReadyToRun_shape k thread hint
    refine ⟨_, hrun, ?_⟩
    have hkey : ∀ q, sjfKey (k3.threads q) = sjfKey (k.threads q) := by
      intro q
      by_cases hq : q = thread
      · subst hq
        rw [ht]
        rfl
      · rw [hoth q hq]
    rw [L1Ordered_iff] at h ⊢
    split_ifs
    · simp only [insertL1_threads, hkey]
      simp only [Kernel.insertL1, setQueue_L1, if_true, h1]
      refine SortedList.Insert_pairwise _ (fun a => sjfKey (k.threads a)) ?_ thread _ h
      intro a b
      rw [SJFCompare_neg_iff, hkey, hkey]
    · simp only [insertL2_threads, hkey]
      simpa [Kernel.insertL2, h1] using h
    · simp only [appendL3_threads, hkey]
      simpa [Kernel.appendL3, h1] using h
    · simp only [hkey, h1]
      exact h
  · intro hint
    rw [L1Ordered_iff] at h
    rcases FindNextToRun_cases k hint with ⟨t, rest, e1, e⟩ | ⟨t, rest, e1, e2, e⟩ |
      ⟨t, rest, e1, e2, e3, e⟩ | ⟨e1, e2, e3, e⟩
    · refine ⟨_, _, e, ?_⟩
      rw [L1Ordered_iff]
      rw [e1] at h
      exact (List.pairwise_cons.1 h).2
    · refine ⟨_, _, e, ?_⟩
      rw [L1Ordered_iff]
      exact h
    · refine ⟨_, _, e, ?_⟩
      rw [L1Ordered_iff]
      exact h
    · refine ⟨_, _, e, ?_⟩
      rw [L1Ordered_iff]
      exact h
  · unfold Scheduler.aging
    exact agingCheck_L1Ordered _ _ (agingCheck_L1Ordered _ _ (agingCheck_L1Ordered _ _ h))

/-! ## Queue membership under aging -/

theorem SortedList.count_Insert {α : Type} [DecidableEq α] (cmp : α → α → Int) (x a : α)
    (l : List α) :
    (SortedList.Insert cmp x l).count a = l.count a + if a = x then 1 else 0 := by
  rw [(SortedList.Insert_perm cmp x l).count_eq a, List.count_cons]
  by_cases h : a = x
  · subst h
    simp
  · have h2 : ¬ (x = a) := fun e => h e.symm
    simp [h, h2]

theorem count_remove (list q : QueueId) (l : List ThreadPtr) (now a : ThreadPtr) :
    (if list = q then NachosList.Remove l now else l).count a =
      l.count a - if list = q ∧ a = now then 1 else 0 := by
  by_cases hq : list = q
  · by_cases ha : a = now
    · subst ha
      simp [hq, NachosList.Remove]
    · simp [hq, ha, NachosList.Remove, List.count_erase_of_ne ha]
  · simp [hq]

/-- The loop body of `agingCheck` moves no thread but `now`. -/
theorem agingCheckItem_count_other (list : QueueId) (k : Kernel) (now x : ThreadPtr)
    (hx : x ≠ now) (q : QueueId) :
    ((Scheduler.agingCheckItem list k now).queue q).count x = (k.queue q).count x := by
  cases q
  · simp only [queue_L1]
    rw [agingCheckItem_L1]
    have hb := count_remove list QueueId.L1 k.MultiLevelList1 now x
    generalize (if list = QueueId.L1 then NachosList.Remove k.MultiLevelList1 now
      else k.MultiLevelList1) = base at hb ⊢
    simp only [hx, and_false, if_false, Nat.sub_zero] at hb
    split_ifs <;> simp [SortedList.count_Insert, hx, hb]
  · simp only [queue_L2]
    rw [agingCheckItem_L2]
    have hb := count_remove list QueueId.L2 k.MultiLevelList2 now x
    generalize (if list = QueueId.L2 then NachosList.Remove k.MultiLevelList2 now
      else k.MultiLevelList2) = base at hb ⊢
    simp only [hx, and_false, if_false, Nat.sub_zero] at hb
    split_ifs <;> simp [SortedList.count_Insert, hx, hb]
  · simp only [queue_L3]
    rw [agingCheckItem_L3]
    have hb := count_remove list QueueId.L3 k.MultiLevelList3 now x
    generalize (if list = QueueId.L3 then NachosList.Remove k.MultiLevelList3 now
      else k.MultiLevelList3) = base at hb ⊢
    simp only [hx, and_false, if_false, Nat.sub_zero] at hb
    split_ifs <;> simp [List.count_append, hx, hb, List.count_singleton]

/-- Where the loop body of `agingCheck` leaves `now`: when a step is due, one link is taken out
of the queue under iteration and one is added to the queue of the new priority. -/
theorem agingCheckItem_count_self (list : QueueId) (k : Kernel) (now : ThreadPtr) (q : QueueId) :
    ((Scheduler.agingCheckItem list k now).queue q).count now =
      if agingDue (decide (now = k.currentThread)) k.totalTicks (k.threads now) = true then
        ((k.queue q).count now - if list = q then 1 else 0) +
          (if q = (if (agedOnce (decide (now = k.currentThread)) k.totalTicks
                (k.threads now)).priority > 99 then QueueId.L1
              else if (agedOnce (decide (now = k.currentThread)) k.totalTicks
                (k.threads now)).priority > 49 then QueueId.L2
              else QueueId.L3) then 1 else 0)
      else (k.queue q).count now := by
  cases q
  · simp only [queue_L1]
    rw [agingCheckItem_L1]
    have hb := count_remove list QueueId.L1 k.MultiLevelList1 now now
    generalize (if list = QueueId.L1 then NachosList.Remove k.MultiLevelList1 now
      else k.MultiLevelList1) = base at hb ⊢
    simp only [and_true] at hb
    split_ifs <;> simp_all [SortedList.count_Insert]
  · simp only [queue_L2]
    rw [agingCheckItem_L2]
    have hb := count_remove list QueueId.L2 k.MultiLevelList2 now now
    generalize (if list = QueueId.L2 then NachosList.Remove k.MultiLevelList2 now
      else k.MultiLevelList2) = base at hb ⊢
    simp only [and_true] at hb
    split_ifs <;> simp_all [SortedList.count_Insert]
  · simp only [queue_L3]
    rw [agingCheckItem_L3]
    have hb := count_remove list QueueId.L3 k.MultiLevelList3 now now
    generalize (if list = QueueId.L3 then NachosList.Remove k.MultiLevelList3 now
      else k.MultiLevelList3) = base at hb ⊢
    simp only [and_true] at hb
    split_ifs <;> simp_all [List.count_append] <;> omega

/-- The loop body of `agingCheck`, run on a thread that is linked in the queue under iteration,
keeps the threads of the three queues together the same, with multiplicity. -/
theorem agingCheckItem_perm (list : QueueId) (k : Kernel) (now : ThreadPtr)
    (hmem : now ∈ k.queue list) :
    ((Scheduler.agingCheckItem list k now).MultiLevelList1 ++
      (Scheduler.agingCheckItem list k now).MultiLevelList2 ++
      (Scheduler.agingCheckItem list k now).MultiLevelList3).Perm
      (k.MultiLevelList1 ++ k.MultiLevelList2 ++ k.MultiLevelList3) := by
  rw [List.perm_iff_count]
  intro a
  simp only [List.count_append]
  by_cases ha : a = now
  · subst ha
    have c1 := agingCheckItem_count_self list k a QueueId.L1
    have c2 := agingCheckItem_count_self list k a QueueId.L2
    have c3 := agingCheckItem_count_self list k a QueueId.L3
    have hpos : 0 < (k.queue list).count a := List.count_pos_iff.2 hmem
    simp only [queue_L1, queue_L2, queue_L3] at c1 c2 c3
    rw [c1, c2, c3]
    by_cases hdue : agingDue (decide (a = k.currentThread)) k.totalTicks (k.threads a) = true
    · by_cases h99 :
        (agedOnce (decide (a = k.currentThread)) k.totalTicks (k.threads a)).priority > 99
      · cases list <;> simp only [queue_L1, queue_L2, queue_L3] at hpos <;>
          simp only [hdue, h99, if_true, if_false, reduceCtorEq] <;> omega
      · by_cases h49 :
          (agedOnce (decide (a = k.currentThread)) k.totalTicks (k.threads a)).priority > 49
        · cases list <;> simp only [queue_L1, queue_L2, queue_L3] at hpos <;>
            simp only [hdue, h99, h49, if_true, if_false, reduceCtorEq] <;> omega
        · cases list <;> simp only [queue_L1, queue_L2, queue_L3] at hpos <;>
            simp only [hdue, h99, h49, if_true, if_false, reduceCtorEq] <;> omega
    · simp only [hdue, if_false]
      trivial
  · have c1 := agingCheckItem_count_other list k now a ha QueueId.L1
    have c2 := agingCheckItem_count_other list k now a ha QueueId.L2
    have c3 := agingCheckItem_count_other list k now a ha QueueId.L3
    simp only [queue_L1, queue_L2, queue_L3] at c1 c2 c3
    rw [c1, c2, c3]

theorem mem_queue_of_count_eq (k k2 : Kernel) (q : QueueId) (x : ThreadPtr)
    (h : (k2.queue q).count x = (k.queue q).count x) : x ∈ k2.queue q ↔ x ∈ k.queue q := by
  rw [← List.count_pos_iff, ← List.count_pos_iff, h]

theorem agingCheckItem_priority_other (list : QueueId) (k : Kernel) (now x : ThreadPtr)
    (hx : x ≠ now) :
    (Scheduler.agingCheckItem list k now).threads x = k.threads x := by
  rw [agingCheckItem_threads, if_neg hx]

theorem agedOnce_priority_of_not_due (c : Bool) (n : Int) (t : Thread)
    (h : ¬ agingDue c n t = true) : (agedOnce c n t).priority = t.priority := by
  unfold agedOnce
  rw [if_neg h]
  exact (credited_fields c n t).1

theorem L2Ordered_iff (k : Kernel) :
    L2Ordered k ↔
      k.MultiLevelList2.Pairwise
        (fun a b => -(k.threads a).priority ≤ -(k.threads b).priority) := by
  haveI : IsTrans ThreadPtr (fun a b => (k.threads a).priority ≥ (k.threads b).priority) :=
    ⟨fun a b c h h2 => le_trans h2 h⟩
  unfold L2Ordered
  rw [List.chain'_iff_pairwise]
  constructor <;> intro h <;> refine h.imp ?_ <;> intro a b hab <;> omega

theorem pairwise_congr_on {α : Type} (r s : α → α → Prop) (l : List α)
    (h : ∀ a ∈ l, ∀ b ∈ l, r a b → s a b) (hl : l.Pairwise r) : l.Pairwise s := by
  induction l with
  | nil => exact List.Pairwise.nil
  | cons x xs ih =>
    rw [List.pairwise_cons] at hl ⊢
    refine ⟨?_, ih (fun a ha b hb => h a (List.mem_cons_of_mem x ha) b
      (List.mem_cons_of_mem x hb)) hl.2⟩
    intro b hb
    exact h x (List.mem_cons_self x xs) b (List.mem_cons_of_mem x hb) (hl.1 b hb)

/-- The loop body of `agingCheck` keeps L2 ordered when no thread is linked twice and `now` is
linked in the queue under iteration. -/
theorem agingCheckItem_L2Ordered (list : QueueId) (k : Kernel) (now : ThreadPtr)
    (hmem : now ∈ k.queue list) (hlink : LinkedOnce k) (h : L2Ordered k) :
    L2Ordered (Scheduler.agingCheckItem list k now) := by
  rw [L2Ordered_iff] at h ⊢
  by_cases hdue : agingDue (decide (now = k.currentThread)) k.totalTicks (k.threads now) = true
  · rw [agingCheckItem_L2, if_pos hdue]
    have hsub := remove_sublist list QueueId.L2 k.MultiLevelList2 now
    have hnot : now ∉ (if list = QueueId.L2 then NachosList.Remove k.MultiLevelList2 now
        else k.MultiLevelList2) := by
      rw [← List.count_pos_iff, count_remove]
      have hc : (k.MultiLevelList1 ++ k.MultiLevelList2 ++ k.MultiLevelList3).count now ≤ 1 :=
        List.nodup_iff_count_le_one.1 hlink now
      have hpos : 0 < (k.queue list).count now := List.count_pos_iff.2 hmem
      simp only [List.count_append] at hc
      cases list <;> simp only [queue_L1, queue_L2, queue_L3] at hpos <;>
        simp only [and_true, true_and, false_and, if_true, if_false, reduceCtorEq] <;> omega
    generalize (if list = QueueId.L2 then NachosList.Remove k.MultiLevelList2 now
      else k.MultiLevelList2) = base at hsub hnot ⊢
    have hbase : base.Pairwise (fun a b =>
        -((Scheduler.agingCheckItem list k now).threads a).priority ≤
          -((Scheduler.agingCheckItem list k now).threads b).priority) := by
      refine pairwise_congr_on _ _ base ?_ (h.sublist hsub)
      intro a ha b hb hab
      have hane : a ≠ now := fun e => hnot (e ▸ ha)
      have hbne : b ≠ now := fun e => hnot (e ▸ hb)
      rw [agingCheckItem_priority_other list k now a hane,
        agingCheckItem_priority_other list k now b hbne]
      exact hab
    split_ifs
    · refine SortedList.Insert_pairwise _
        (fun a => -((Scheduler.agingCheckItem list k now).threads a).priority) ?_ now _ hbase
      intro a b
      exact PriorityCompare_neg_iff _ _
    · exact hbase
  · rw [agingCheckItem_L2, if_neg hdue]
    refine h.imp ?_
    intro a b hab
    have hp : ∀ x, ((Scheduler.agingCheckItem list k now).threads x).priority =
        (k.threads x).priority := by
      intro x
      rw [agingCheckItem_threads]
      split_ifs with hx
      · rw [agedOnce_priority_of_not_due _ _ _ hdue, hx]
      · rfl
    rw [hp, hp]
    exact hab

/-- A pass of `agingCheck` over one queue keeps every thread linked once and L2 ordered. -/
theorem agingCheck_L2Ordered (list : QueueId) (k : Kernel) (hlink : LinkedOnce k)
    (h : L2Ordered k) :
    LinkedOnce (Scheduler.agingCheck list k) ∧ L2Ordered (Scheduler.agingCheck list k) := by
  have hnd : (k.queue list).Nodup := by
    unfold LinkedOnce at hlink
    cases list
    · exact (List.nodup_append.1 (List.nodup_append.1 hlink).1).1
    · exact (List.nodup_append.1 (List.nodup_append.1 hlink).1).2.1
    · exact (List.nodup_append.1 hlink).2.1
  have := foldl_invariant_rem (Scheduler.agingCheckItem list)
    (fun s rem => LinkedOnce s ∧ L2Ordered s ∧ rem.Nodup ∧ ∀ x ∈ rem, x ∈ s.queue list)
    (by
      intro s x rest ⟨hl, ho, hn, hm⟩
      have hx : x ∈ s.queue list := hm x (List.mem_cons_self x rest)
      rw [List.nodup_cons] at hn
      refine ⟨?_, agingCheckItem_L2Ordered list s x hx hl ho, hn.2, ?_⟩
      · unfold LinkedOnce at hl ⊢
        exact (agingCheckItem_perm list s x hx).nodup_iff.2 hl
      · intro y hy
        have hyx : y ≠ x := fun e => hn.1 (e ▸ hy)
        rw [mem_queue_of_count_eq s _ list y (agingCheckItem_count_other list s x y hyx list)]
        exact hm y (List.mem_cons_of_mem x hy))
    (ListIterator.items (k.queue list)) k ⟨hlink, h, hnd, fun x hx => hx⟩
  exact ⟨this.1, this.2.1⟩

/-! ## Order of L2 -/

/-- C6: the ordering of L2 is an invariant: if every adjacent pair in L2 has non-increasing
priority, the same holds after `ReadyToRun` of any thread and after `FindNextToRun`; and, in a
state in which no thread is linked twice in the ready queues, after the aging of any one queue
and after a whole aging pass, which also leaves every thread linked once. -/
theorem L2_order_invariant (k : Kernel) (h : L2Ordered k) :
    (∀ thread, k.interruptLevel = IntStatus.IntOff →
      ∃ k2, Scheduler.ReadyToRun k thread = some k2 ∧ L2Ordered k2) ∧
    (k.interruptLevel = IntStatus.IntOff →
      ∃ r k2, Scheduler.FindNextToRun k = some (r, k2) ∧ L2Ordered k2) ∧
    (LinkedOnce k →
      (∀ list, L2Ordered (Scheduler.agingCheck list k)) ∧
      L2Ordered (Scheduler.aging k) ∧ LinkedOnce (Scheduler.aging k)) := by
  refine ⟨?_, ?_, ?_⟩
  · intro thread hint
    obtain ⟨k3, hrun, ht, hoth, -, h2, -, -, -, -, -⟩ := ReadyToRun_shape k thread hint
    refine ⟨_, hrun, ?_⟩
    have hprio : ∀ q, (k3.threads q).priority = (k.threads q).priority := by
      intro q
      by_cases hq : q = thread
      · subst hq
        rw [ht]
      · rw [hoth q hq]
    rw [L2Ordered_iff] at h ⊢
    split_ifs
    · simp only [insertL1_threads, hprio]
      simpa [Kernel.insertL1, h2] using h
    · simp only [insertL2_threads, hprio]
      simp only [Kernel.insertL2, setQueue_L2, if_true, h2]
      refine SortedList.Insert_pairwise _ (fun a => -(k.threads a).priority) ?_ thread _ h
      intro a b
      rw [PriorityCompare_neg_iff, hprio, hprio]
    · simp only [appendL3_threads, hprio]
      simpa [Kernel.appendL3, h2] using h
    · simp only [hprio, h2]
      exact h
  · intro hint
    rw [L2Ordered_iff] at h
    rcases FindNextToRun_cases k hint with ⟨t, rest, e1, e⟩ | ⟨t, rest, e1, e2, e⟩ |
      ⟨t, rest, e1, e2, e3, e⟩ | ⟨e1, e2, e3, e⟩
    · refine ⟨_, _, e, ?_⟩
      rw [L2Ordered_iff]
      exact h
    · refine ⟨_, _, e, ?_⟩
      rw [L2Ordered_iff]
      rw [e2] at h
      exact (List.pairwise_cons.1 h).2
    · refine ⟨_, _, e, ?_⟩
      rw [L2Ordered_iff]
      exact h
    · refine ⟨_, _, e, ?_⟩
      rw [L2Ordered_iff]
      exact h
  · intro hlink
    refine ⟨fun list => (agingCheck_L2Ordered list k hlink h).2, ?_⟩
    unfold Scheduler.aging
    obtain ⟨a1, a2⟩ := agingCheck_L2Ordered QueueId.L1 k hlink h
    obtain ⟨b1, b2⟩ := agingCheck_L2Ordered QueueId.L2 _ a1 a2
    obtain ⟨c1, c2⟩ := agingCheck_L2Ordered QueueId.L3 _ b1 b2
    exact ⟨c2, c1⟩

/-- Witness of C6: in the example state the pass raises thread 2 from 95 to 105 while it is
linked in L2 and moves it to L1, and promotes thread 4 from L3 into L2 behind thread 3. -/
theorem L2_order_invariant_witness :
    L2Ordered agingExample ∧ LinkedOnce agingExample ∧
    L2Ordered (Scheduler.aging agingExample) ∧
    (Scheduler.aging agingExample).MultiLevelList1 = [2, 1] ∧
    (Scheduler.aging agingExample).MultiLevelList2 = [3, 4] ∧
    (Scheduler.aging agingExample).MultiLevelList3 = [] ∧
    ((Scheduler.aging agingExample).threads 2).priority = 105 ∧
    ((Scheduler.aging agingExample).threads 4).priority = 55 := by
  have h1 : L2Ordered agingExample := by
    rw [L2Ordered_iff]
    decide
  have h2 : LinkedOnce agingExample := by
    unfold LinkedOnce
    decide
  exact ⟨h1, h2, ((L2_order_invariant agingExample h1).2.2 h2).2.1, by decide, by decide,
    by decide, by decide, by decide⟩

/-- Witness of C5: in the example state the pass promotes thread 2 (key 2) from L2 into L1 in
front of thread 1 (key 5). -/
theorem L1_order_invariant_witness :
    L1Ordered agingExample ∧ L1Ordered (Scheduler.aging agingExample) ∧
    (Scheduler.aging agingExample).MultiLevelList1 = [2, 1] :=
  ⟨by rw [L1Ordered_iff]; decide,
    (L1_order_invariant agingExample (by rw [L1Ordered_iff]; decide)).2.2.2, by decide⟩

/-! ## Priorities under aging -/

theorem agedOnce_priority_range (c : Bool) (n : Int) (t : Thread) (hhi : t.priority ≤ 149) :
    t.priority ≤ (agedOnce c n t).priority ∧ (agedOnce c n t).priority ≤ 149 := by
  unfold agedOnce
  split_ifs
  · simp only
    constructor
    · exact le_min (by omega) hhi
    · exact min_le_right _ _
  · rw [(credited_fields c n t).1]
    exact ⟨le_refl _, hhi⟩

theorem mem_queues_iff (k : Kernel) (x : ThreadPtr) :
    x ∈ k.MultiLevelList1 ++ k.MultiLevelList2 ++ k.MultiLevelList3 ↔ ∃ q, x ∈ k.queue q := by
  simp only [List.mem_append]
  constructor
  · rintro ((h | h) | h)
    · exact ⟨QueueId.L1, h⟩
    · exact ⟨QueueId.L2, h⟩
    · exact ⟨QueueId.L3, h⟩
  · rintro ⟨q, h⟩
    cases q
    · exact Or.inl (Or.inl h)
    · exact Or.inl (Or.inr h)
    · exact Or.inr h

/-- A pass of `agingCheck` over one queue, started in a state whose queued threads all belong to
a set `S` of threads with priorities in [0,149], raises no priority above 149, lowers none, and
links no thread from outside `S`. -/
theorem agingCheck_priority_range (S : ThreadPtr → Prop) (k0 : Kernel) (list : QueueId)
    (k : Kernel)
    (hS : ∀ x, S x → 0 ≤ (k.threads x).priority ∧ (k.threads x).priority ≤ 149)
    (hq : ∀ x q, x ∈ k.queue q → S x)
    (hmono : ∀ x, (k0.threads x).priority ≤ (k.threads x).priority) :
    (∀ x, S x → 0 ≤ ((Scheduler.agingCheck list k).threads x).priority ∧
      ((Scheduler.agingCheck list k).threads x).priority ≤ 149) ∧
    (∀ x q, x ∈ (Scheduler.agingCheck list k).queue q → S x) ∧
    (∀ x, (k0.threads x).priority ≤ ((Scheduler.agingCheck list k).threads x).priority) := by
  have := foldl_invariant_rem (Scheduler.agingCheckItem list)
    (fun s rem => (∀ x, S x → 0 ≤ (s.threads x).priority ∧ (s.threads x).priority ≤ 149) ∧
      (∀ x q, x ∈ s.queue q → S x) ∧
      (∀ x, (k0.threads x).priority ≤ (s.threads x).priority) ∧ ∀ x ∈ rem, S x)
    (by
      intro s now rest ⟨h1, h2, h3, h4⟩
      have hnow : S now := h4 now (List.mem_cons_self now rest)
      have hr := agedOnce_priority_range (decide (now = s.currentThread)) s.totalTicks
        (s.threads now) (h1 now hnow).2
      refine ⟨?_, ?_, ?_, fun x hx => h4 x (List.mem_cons_of_mem now hx)⟩
      · intro x hx
        rw [agingCheckItem_threads]
        split_ifs with e
        · exact ⟨le_trans (h1 now hnow).1 hr.1, hr.2⟩
        · exact h1 x hx
      · intro x q hxq
        by_cases e : x = now
        · rw [e]
          exact hnow
        · rw [mem_queue_of_count_eq s _ q x (agingCheckItem_count_other list s now x e q)] at hxq
          exact h2 x q hxq
      · intro x
        rw [agingCheckItem_threads]
        split_ifs with e
        · rw [e]
          exact le_trans (h3 now) hr.1
        · exact h3 x)
    (ListIterator.items (k.queue list)) k ⟨hS, hq, hmono, fun x hx => hq x list hx⟩
  exact ⟨this.1, this.2.1, this.2.2.1⟩

/-- C10: in a state in which all queued threads have priority in [0,149], an aging pass lowers
the priority of no thread, leaves the priority of every thread that was queued before the pass
in [0,149], and every thread queued after the pass has priority at most 149. -/
theorem aging_priority_monotone_capped (k : Kernel)
    (hrange : ∀ x ∈ k.MultiLevelList1 ++ k.MultiLevelList2 ++ k.MultiLevelList3,
      0 ≤ (k.threads x).priority ∧ (k.threads x).priority ≤ 149) :
    (∀ x, (k.threads x).priority ≤ ((Scheduler.aging k).threads x).priority) ∧
    (∀ x ∈ k.MultiLevelList1 ++ k.MultiLevelList2 ++ k.MultiLevelList3,
      0 ≤ ((Scheduler.aging k).threads x).priority ∧
        ((Scheduler.aging k).threads x).priority ≤ 149) ∧
    (∀ x ∈ (Scheduler.aging k).MultiLevelList1 ++ (Scheduler.aging k).MultiLevelList2 ++
        (Scheduler.aging k).MultiLevelList3,
      ((Scheduler.aging k).threads x).priority ≤ 149) := by
  obtain ⟨a1, a2, a3⟩ := agingCheck_priority_range
    (fun x => x ∈ k.MultiLevelList1 ++ k.MultiLevelList2 ++ k.MultiLevelList3) k QueueId.L1 k
    hrange (fun x q hx => (mem_queues_iff k x).2 ⟨q, hx⟩) (fun x => le_refl _)
  obtain ⟨b1, b2, b3⟩ := agingCheck_priority_range _ k QueueId.L2 _ a1 a2 a3
  obtain ⟨c1, c2, c3⟩ := agingCheck_priority_range _ k QueueId.L3 _ b1 b2 b3
  refine ⟨c3, c1, ?_⟩
  intro x hx
  obtain ⟨q, hq⟩ := (mem_queues_iff _ x).1 hx
  exact (c1 x (c2 x q hq)).2

/-- Witness of C10: a thread at priority 145 that has waited 1500 ticks becomes 149, not 155,
and a further 1500 ticks leave it at 149. -/
theorem aging_priority_monotone_capped_witness :
    145 ≤ ((Scheduler.aging (mkKernel (fun _ => mkThread 145 0 0) 1500 [1] [] [])).threads
      1).priority ∧
    ((Scheduler.aging (mkKernel (fun _ => mkThread 145 0 0) 1500 [1] [] [])).threads
      1).priority = 149 ∧
    ((Scheduler.aging { Scheduler.aging (mkKernel (fun _ => mkThread 145 0 0) 1500 [1] [] [])
      with totalTicks := 3000 }).threads 1).priority = 149 :=
  ⟨(aging_priority_monotone_capped (mkKernel (fun _ => mkThread 145 0 0) 1500 [1] [] [])
    (by decide)).1 1, by decide, by decide⟩

/-! ## One round of aging per pass -/

/-- A pass of `agingCheck` over a queue in which `t` is not linked leaves the thread object of
`t` and its links alone. -/
theorem agingCheck_untouched (list : QueueId) (k : Kernel) (t : ThreadPtr)
    (ht : t ∉ k.queue list) :
    (Scheduler.agingCheck list k).threads t = k.threads t ∧
    ∀ q, ((Scheduler.agingCheck list k).queue q).count t = (k.queue q).count t := by
  have := foldl_invariant_rem (Scheduler.agingCheckItem list)
    (fun s rem => t ∉ rem ∧ s.threads t = k.threads t ∧
      ∀ q, (s.queue q).count t = (k.queue q).count t)
    (by
      intro s x rest ⟨h1, h2, h3⟩
      have hne : t ≠ x := fun e => h1 (e ▸ List.mem_cons_self t rest)
      refine ⟨fun h => h1 (List.mem_cons_of_mem x h), ?_, ?_⟩
      · rw [agingCheckItem_priority_other list s x t hne, h2]
      · intro q
        rw [agingCheckItem_count_other list s x t hne q, h3 q])
    (ListIterator.items (k.queue list)) k ⟨ht, rfl, fun _ => rfl⟩
  exact this.2

/-- A pass of `agingCheck` over a queue in which `t` is linked exactly once runs the loop body
on `t` exactly once. -/
theorem agingCheck_once (list : QueueId) (k : Kernel) (t : ThreadPtr)
    (ht : (k.queue list).count t = 1) :
    (Scheduler.agingCheck list k).threads t =
      agedOnce (decide (t = k.currentThread)) k.totalTicks (k.threads t) ∧
    ∀ q, ((Scheduler.agingCheck list k).queue q).count t =
      ((Scheduler.agingCheckItem list k t).queue q).count t := by
  have := foldl_invariant_rem (Scheduler.agingCheckItem list)
    (fun s rem => s.currentThread = k.currentThread ∧ s.totalTicks = k.totalTicks ∧
      ((rem.count t = 1 ∧ s.threads t = k.threads t ∧
          ∀ q, (s.queue q).count t = (k.queue q).count t) ∨
        (rem.count t = 0 ∧
          s.threads t = agedOnce (decide (t = k.currentThread)) k.totalTicks (k.threads t) ∧
          ∀ q, (s.queue q).count t = ((Scheduler.agingCheckItem list k t).queue q).count t)))
    (by
      intro s x rest ⟨hc, hn, hcase⟩
      obtain ⟨f1, f2, -, -⟩ := agingCheckItem_frame list s x
      refine ⟨f1.trans hc, f2.trans hn, ?_⟩
      by_cases hx : t = x
      · subst hx
        rcases hcase with ⟨h1, h2, h3⟩ | ⟨h1, -, -⟩
        · right
          rw [List.count_cons_self] at h1
          refine ⟨by omega, ?_, ?_⟩
          · rw [agingCheckItem_threads, if_pos rfl, hc, hn, h2]
          · intro q
            rw [agingCheckItem_count_self, agingCheckItem_count_self, hc, hn, h2, h3 q]
        · rw [List.count_cons_self] at h1
          omega
      · rcases hcase with ⟨h1, h2, h3⟩ | ⟨h1, h2, h3⟩
        · left
          rw [List.count_cons_of_ne hx] at h1
          refine ⟨h1, ?_, ?_⟩
          · rw [agingCheckItem_priority_other list s x t hx, h2]
          · intro q
            rw [agingCheckItem_count_other list s x t hx q, h3 q]
        · right
          rw [List.count_cons_of_ne hx] at h1
          refine ⟨h1, ?_, ?_⟩
          · rw [agingCheckItem_priority_other list s x t hx, h2]
          · intro q
            rw [agingCheckItem_count_other list s x t hx q, h3 q])
    (ListIterator.items (k.queue list)) k ⟨rfl, rfl, Or.inl ⟨ht, rfl, fun _ => rfl⟩⟩
  rcases this.2.2 with ⟨h1, -, -⟩ | ⟨-, h2, h3⟩
  · simp at h1
  · exact ⟨h2, h3⟩

theorem agedOnce_priority (c : Bool) (n : Int) (t : Thread) :
    (agedOnce c n t).priority =
      if agingDue c n t = true then min (t.priority + 10) 149 else t.priority := by
  unfold agedOnce
  split_ifs
  · rfl
  · exact (credited_fields c n t).1

theorem agedOnce_priority_lower (c : Bool) (n : Int) (t : Thread) (b : Int) (hb : b ≤ 149)
    (h : b ≤ t.priority) : b ≤ (agedOnce c n t).priority := by
  rw [agedOnce_priority]
  split_ifs
  · exact le_min (by omega) hb
  · exact h

/-- The loop body of `agingCheck` links `now` into no queue other than the one under iteration
and the one of its new priority. -/
theorem agingCheckItem_count_unlinked (list : QueueId) (k : Kernel) (now : ThreadPtr)
    (q : QueueId) (h0 : (k.queue q).count now = 0)
    (htarget : q ≠ (if (agedOnce (decide (now = k.currentThread)) k.totalTicks
          (k.threads now)).priority > 99 then QueueId.L1
        else if (agedOnce (decide (now = k.currentThread)) k.totalTicks
          (k.threads now)).priority > 49 then QueueId.L2
        else QueueId.L3)) :
    ((Scheduler.agingCheckItem list k now).queue q).count now = 0 := by
  rw [agingCheckItem_count_self, if_neg htarget, h0]
  split_ifs <;> rfl

/-- In a whole aging pass the loop body runs exactly once on a thread that is linked once, in
the queue of its band. -/
theorem aging_threads_once (k : Kernel) (t : ThreadPtr)
    (honce : (k.MultiLevelList1 ++ k.MultiLevelList2 ++ k.MultiLevelList3).count t = 1)
    (hb1 : t ∈ k.MultiLevelList1 → 100 ≤ (k.threads t).priority)
    (hb2 : t ∈ k.MultiLevelList2 → 50 ≤ (k.threads t).priority) :
    (Scheduler.aging k).threads t =
      agedOnce (decide (t = k.currentThread)) k.totalTicks (k.threads t) := by
  simp only [List.count_append] at honce
  unfold Scheduler.aging
  by_cases h1 : t ∈ k.MultiLevelList1
  · have c1 : 0 < k.MultiLevelList1.count t := List.count_pos_iff.2 h1
    have hp := agedOnce_priority_lower (decide (t = k.currentThread)) k.totalTicks
      (k.threads t) 100 (by decide) (hb1 h1)
    obtain ⟨a1, a2⟩ := agingCheck_once QueueId.L1 k t (by simp only [queue_L1]; omega)
    have n2 : t ∉ (Scheduler.agingCheck QueueId.L1 k).queue QueueId.L2 := by
      rw [← List.count_eq_zero, a2 QueueId.L2]
      refine agingCheckItem_count_unlinked QueueId.L1 k t QueueId.L2
        (by simp only [queue_L2]; omega) ?_
      rw [if_pos (by omega)]
      decide
    obtain ⟨b1, b2⟩ := agingCheck_untouched QueueId.L2 _ t n2
    have n3 : t ∉ (Scheduler.agingCheck QueueId.L2
        (Scheduler.agingCheck QueueId.L1 k)).queue QueueId.L3 := by
      rw [← List.count_eq_zero, b2 QueueId.L3, a2 QueueId.L3]
      refine agingCheckItem_count_unlinked QueueId.L1 k t QueueId.L3
        (by simp only [queue_L3]; omega) ?_
      rw [if_pos (by omega)]
      decide
    obtain ⟨c1, -⟩ := agingCheck_untouched QueueId.L3 _ t n3
    rw [c1, b1, a1]
  · have c1 : k.MultiLevelList1.count t = 0 := List.count_eq_zero.2 h1
    obtain ⟨a1, a2⟩ := agingCheck_untouched QueueId.L1 k t h1
    obtain ⟨f1, f2, -, -⟩ := agingCheck_frame QueueId.L1 k
    by_cases h2 : t ∈ k.MultiLevelList2
    · have c2 : 0 < k.MultiLevelList2.count t := List.count_pos_iff.2 h2
      have hp := agedOnce_priority_lower (decide (t = k.currentThread)) k.totalTicks
        (k.threads t) 50 (by decide) (hb2 h2)
      obtain ⟨b1, b2⟩ := agingCheck_once QueueId.L2 (Scheduler.agingCheck QueueId.L1 k) t
        (by rw [a2 QueueId.L2]; simp only [queue_L2]; omega)
      rw [f1, f2, a1] at b1
      have n3 : t ∉ (Scheduler.agingCheck QueueId.L2
          (Scheduler.agingCheck QueueId.L1 k)).queue QueueId.L3 := by
        rw [← List.count_eq_zero, b2 QueueId.L3]
        refine agingCheckItem_count_unlinked QueueId.L2 _ t QueueId.L3
          (by rw [a2 QueueId.L3]; simp only [queue_L3]; omega) ?_
        rw [f1, f2, a1]
        split_ifs
        · decide
        · decide
        · omega
      obtain ⟨c1, -⟩ := agingCheck_untouched QueueId.L3 _ t n3
      rw [c1, b1]
    · have c2 : k.MultiLevelList2.count t = 0 := List.count_eq_zero.2 h2
      have n2 : t ∉ (Scheduler.agingCheck QueueId.L1 k).queue QueueId.L2 := by
        rw [← List.count_eq_zero, a2 QueueId.L2]
        exact c2
      obtain ⟨b1, b2⟩ := agingCheck_untouched QueueId.L2 _ t n2
      obtain ⟨g1, g2, -, -⟩ := agingCheck_frame QueueId.L2 (Scheduler.agingCheck QueueId.L1 k)
      obtain ⟨c1, -⟩ := agingCheck_once QueueId.L3
        (Scheduler.agingCheck QueueId.L2 (Scheduler.agingCheck QueueId.L1 k)) t
        (by rw [b2 QueueId.L3, a2 QueueId.L3]; simp only [queue_L3]; omega)
      rw [c1, g1, g2, f1, f2, b1, a1]

/-- C9, as stated, fails: thread 1 of the example is queued in L2 at priority 60 with 3000
accumulated ticks and is not the current thread; the rule of the claim takes it to priority 80
with count 0, but one aging pass leaves it at priority 70 with count 1500, so that neither
`aging_count < 1500` nor `priority = 149` holds after the pass. -/
theorem aging_loop_counterexample :
    1 ∈ agingBacklogExample.MultiLevelList2 ∧ 1 ≠ agingBacklogExample.currentThread ∧
    (agedSpecLoop 2 (credited false agingBacklogExample.totalTicks
      (agingBacklogExample.threads 1))).priority = 80 ∧
    (agedSpecLoop 2 (credited false agingBacklogExample.totalTicks
      (agingBacklogExample.threads 1))).agingCount = 0 ∧
    ((Scheduler.aging agingBacklogExample).threads 1).priority = 70 ∧
    ((Scheduler.aging agingBacklogExample).threads 1).agingCount = 1500 ∧
    ¬ (((Scheduler.aging agingBacklogExample).threads 1).agingCount < 1500 ∨
      ((Scheduler.aging agingBacklogExample).threads 1).priority = 149) := by
  refine ⟨by decide, by decide, by decide, by decide, by decide, by decide, by decide⟩

/-- C9, amended: for a thread that is linked exactly once in the ready queues, in the queue of
its band, and is not the current thread, an aging pass adds `now - comeReady` to the aging
count and sets `comeReady` to `now`; then, once and only if the count has reached 1500 and the
priority is not 149, it takes 1500 off the count and raises the priority by 10, capped at 149.
Nothing else of the thread object changes. -/
theorem aging_one_round_per_pass (k : Kernel) (t : ThreadPtr) (hcur : t ≠ k.currentThread)
    (honce : (k.MultiLevelList1 ++ k.MultiLevelList2 ++ k.MultiLevelList3).count t = 1)
    (hb1 : t ∈ k.MultiLevelList1 → 100 ≤ (k.threads t).priority)
    (hb2 : t ∈ k.MultiLevelList2 → 50 ≤ (k.threads t).priority) :
    ((Scheduler.aging k).threads t).comeReady = k.totalTicks ∧
    ((Scheduler.aging k).threads t).agingCount =
      (if 1500 ≤ (k.threads t).agingCount + k.totalTicks - (k.threads t).comeReady ∧
          (k.threads t).priority ≠ 149 then
        (k.threads t).agingCount + k.totalTicks - (k.threads t).comeReady - 1500
      else (k.threads t).agingCount + k.totalTicks - (k.threads t).comeReady) ∧
    ((Scheduler.aging k).threads t).priority =
      (if 1500 ≤ (k.threads t).agingCount + k.totalTicks - (k.threads t).comeReady ∧
          (k.threads t).priority ≠ 149 then
        min ((k.threads t).priority + 10) 149
      else (k.threads t).priority) ∧
    ((Scheduler.aging k).threads t).predict = (k.threads t).predict ∧
    ((Scheduler.aging k).threads t).lastTime = (k.threads t).lastTime ∧
    ((Scheduler.aging k).threads t).status = (k.threads t).status ∧
    ((Scheduler.aging k).threads t).ID = (k.threads t).ID ∧
    ((Scheduler.aging k).threads t).accumExec = (k.threads t).accumExec := by
  rw [aging_threads_once k t honce hb1 hb2]
  have hd : decide (t = k.currentThread) = false := by simp [hcur]
  rw [hd]
  by_cases hdue : 1500 ≤ (k.threads t).agingCount + k.totalTicks - (k.threads t).comeReady ∧
      (k.threads t).priority ≠ 149
  · have h : agingDue false k.totalTicks (k.threads t) = true := by
      simpa [agingDue, credited] using hdue
    simp only [agedOnce, h, if_true, if_pos hdue]
    simp [credited]
  · have h : ¬ agingDue false k.totalTicks (k.threads t) = true := by
      simpa [agingDue, credited] using hdue
    simp only [agedOnce, h, if_false, if_neg hdue]
    simp [credited]

/-- Witness of amended C9: the thread of the counterexample goes from 60 to 70 and keeps 1500
ticks. -/
theorem aging_one_round_per_pass_witness :
    ((Scheduler.aging agingBacklogExample).threads 1).comeReady = 0 ∧
    ((Scheduler.aging agingBacklogExample).threads 1).agingCount = 1500 ∧
    ((Scheduler.aging agingBacklogExample).threads 1).priority = 70 := by
  obtain ⟨h1, h2, h3, -⟩ := aging_one_round_per_pass agingBacklogExample 1 (by decide)
    (by decide) (by decide) (by decide)
  refine ⟨h1, ?_, ?_⟩
  · rw [h2]
    decide
  · rw [h3]
    decide

/-! ## Bands under aging -/

/-- A property that the loop body of `agingCheck` keeps, on states in which no thread is linked
twice and for a thread linked in the queue under iteration, survives a pass over that queue,
as does the absence of double links. -/
theorem agingCheck_linked_invariant (P : Kernel → Prop)
    (step : ∀ list s now, now ∈ s.queue list → LinkedOnce s → P s →
      P (Scheduler.agingCheckItem list s now))
    (list : QueueId) (k : Kernel) (hlink : LinkedOnce k) (h : P k) :
    LinkedOnce (Scheduler.agingCheck list k) ∧ P (Scheduler.agingCheck list k) := by
  have hnd : (k.queue list).Nodup := by
    unfold LinkedOnce at hlink
    cases list
    · exact (List.nodup_append.1 (List.nodup_append.1 hlink).1).1
    · exact (List.nodup_append.1 (List.nodup_append.1 hlink).1).2.1
    · exact (List.nodup_append.1 hlink).2.1
  have := foldl_invariant_rem (Scheduler.agingCheckItem list)
    (fun s rem => LinkedOnce s ∧ P s ∧ rem.Nodup ∧ ∀ x ∈ rem, x ∈ s.queue list)
    (by
      intro s x rest ⟨hl, ho, hn, hm⟩
      have hx : x ∈ s.queue list := hm x (List.mem_cons_self x rest)
      rw [List.nodup_cons] at hn
      refine ⟨?_, step list s x hx hl ho, hn.2, ?_⟩
      · unfold LinkedOnce at hl ⊢
        exact (agingCheckItem_perm list s x hx).nodup_iff.2 hl
      · intro y hy
        have hyx : y ≠ x := fun e => hn.1 (e ▸ hy)
        rw [mem_queue_of_count_eq s _ list y (agingCheckItem_count_other list s x y hyx list)]
        exact hm y (List.mem_cons_of_mem x hy))
    (ListIterator.items (k.queue list)) k ⟨hlink, h, hnd, fun x hx => hx⟩
  exact ⟨this.1, this.2.1⟩

theorem LinkedOnce_count (k : Kernel) (h : LinkedOnce k) (t : ThreadPtr) :
    (k.queue QueueId.L1).count t + (k.queue QueueId.L2).count t +
      (k.queue QueueId.L3).count t ≤ 1 := by
  have := List.nodup_iff_count_le_one.1 h t
  simpa only [List.count_append, queue_L1, queue_L2, queue_L3] using this

/-- The loop body of `agingCheck` keeps every linked thread in the queue of its band. -/
theorem agingCheckItem_InBand (list : QueueId) (k : Kernel) (now : ThreadPtr)
    (hmem : now ∈ k.queue list) (hlink : LinkedOnce k) (h : InBand k) :
    InBand (Scheduler.agingCheckItem list k now) := by
  intro q t ht
  by_cases e : t = now
  · subst e
    have hc := agingCheckItem_count_self list k t q
    have hpos : 0 < ((Scheduler.agingCheckItem list k t).queue q).count t :=
      List.count_pos_iff.2 ht
    have hone := LinkedOnce_count k hlink t
    have hlist : 0 < (k.queue list).count t := List.count_pos_iff.2 hmem
    have hp := h list t hmem
    rw [agingCheckItem_threads, if_pos rfl]
    by_cases hdue : agingDue (decide (t = k.currentThread)) k.totalTicks (k.threads t) = true
    · rw [if_pos hdue] at hc
      have hpr := agedOnce_priority (decide (t = k.currentThread)) k.totalTicks (k.threads t)
      rw [if_pos hdue] at hpr
      have hlo : 0 ≤ (k.threads t).priority := by
        have := hp.1
        cases list <;> simp only [QueueId.bandLo] at this <;> omega
      have h0 : 0 ≤ (agedOnce (decide (t = k.currentThread)) k.totalTicks
          (k.threads t)).priority := by
        rw [hpr]
        exact le_min (by omega) (by decide)
      have h149 : (agedOnce (decide (t = k.currentThread)) k.totalTicks
          (k.threads t)).priority ≤ 149 := by
        rw [hpr]
        exact min_le_right _ _
      have hq : q = (if (agedOnce (decide (t = k.currentThread)) k.totalTicks
            (k.threads t)).priority > 99 then QueueId.L1
          else if (agedOnce (decide (t = k.currentThread)) k.totalTicks
            (k.threads t)).priority > 49 then QueueId.L2
          else QueueId.L3) := by
        by_contra hne
        rw [if_neg hne] at hc
        cases list <;> cases q <;> simp only [queue_L1, queue_L2, queue_L3, if_true, if_false,
          reduceCtorEq] at hc hpos hone hlist <;> omega
      rw [hq]
      split_ifs with h99 h49
      · exact ⟨by simp only [QueueId.bandLo]; omega, by simp only [QueueId.bandHi]; omega⟩
      · exact ⟨by simp only [QueueId.bandLo]; omega, by simp only [QueueId.bandHi]; omega⟩
      · exact ⟨by simp only [QueueId.bandLo]; omega, by simp only [QueueId.bandHi]; omega⟩
    · rw [if_neg hdue] at hc
      rw [agedOnce_priority_of_not_due _ _ _ hdue]
      exact h q t (List.count_pos_iff.1 (hc ▸ hpos))
  · rw [agingCheckItem_priority_other list k now t e]
    exact h q t ((mem_queue_of_count_eq k _ q t
      (agingCheckItem_count_other list k now t e q)).1 ht)

/-- C11: if before an aging pass every queued thread is in the queue of its priority band, in a
state in which no thread is linked twice, then after the pass every queued thread is again in
the queue of its (possibly raised) priority band, linked once, and in no other queue. -/
theorem aging_keeps_bands (k : Kernel) (hband : InBand k) (hlink : LinkedOnce k) :
    InBand (Scheduler.aging k) ∧ LinkedOnce (Scheduler.aging k) ∧
    (∀ t q1 q2, t ∈ (Scheduler.aging k).queue q1 → t ∈ (Scheduler.aging k).queue q2 →
      q1 = q2) := by
  have hpass : InBand (Scheduler.aging k) ∧ LinkedOnce (Scheduler.aging k) := by
    unfold Scheduler.aging
    obtain ⟨a1, a2⟩ := agingCheck_linked_invariant InBand agingCheckItem_InBand QueueId.L1 k
      hlink hband
    obtain ⟨b1, b2⟩ := agingCheck_linked_invariant InBand agingCheckItem_InBand QueueId.L2 _
      a1 a2
    obtain ⟨c1, c2⟩ := agingCheck_linked_invariant InBand agingCheckItem_InBand QueueId.L3 _
      b1 b2
    exact ⟨c2, c1⟩
  refine ⟨hpass.1, hpass.2, ?_⟩
  intro t q1 q2 h1 h2
  have hone := LinkedOnce_count _ hpass.2 t
  have p1 : 0 < ((Scheduler.aging k).queue q1).count t := List.count_pos_iff.2 h1
  have p2 : 0 < ((Scheduler.aging k).queue q2).count t := List.count_pos_iff.2 h2
  cases q1 <;> cases q2 <;> first | rfl | omega

/-- Witness of C11: a thread at priority 45 in L3 that has waited 1500 ticks ends at priority
55, is linked in L2 and no longer in L3. -/
theorem aging_keeps_bands_witness :
    InBand (Scheduler.aging agingPromotionExample) ∧
    ((Scheduler.aging agingPromotionExample).threads 1).priority = 55 ∧
    (Scheduler.aging agingPromotionExample).MultiLevelList2 = [1] ∧
    (Scheduler.aging agingPromotionExample).MultiLevelList3 = [] := by
  refine ⟨(aging_keeps_bands agingPromotionExample ?_ ?_).1, by decide, by decide, by decide⟩
  · intro q t ht
    cases q
    · simp [agingPromotionExample, mkKernel] at ht
    · simp [agingPromotionExample, mkKernel] at ht
    · have : t = 1 := by simpa [agingPromotionExample, mkKernel] using ht
      subst this
      decide
  · unfold LinkedOnce
    decide

/-! ## The current thread under aging -/

theorem agedOnce_current_comeReady (n : Int) (t : Thread) :
    (agedOnce true n t).comeReady = t.comeReady := by
  have hc : credited true n t = t := by simp [credited]
  unfold agedOnce
  rw [hc]
  split_ifs <;> rfl

theorem agedOnce_current_of_not_due (n : Int) (t : Thread)
    (h : t.agingCount < 1500 ∨ t.priority = 149) : agedOnce true n t = t := by
  have hd : ¬ agingDue true n t = true := by
    simp only [agingDue, credited, if_true, decide_eq_true_eq]
    omega
  unfold agedOnce
  rw [if_neg hd]
  simp [credited]

theorem agingDue_current_of_not_due (n : Int) (t : Thread)
    (h : t.agingCount < 1500 ∨ t.priority = 149) : ¬ agingDue true n t = true := by
  simp only [agingDue, credited, if_true, decide_eq_true_eq]
  omega

/-- A pass of `agingCheck` never changes `comeReady` of the current thread. -/
theorem agingCheck_current_comeReady (list : QueueId) (k : Kernel) :
    ((Scheduler.agingCheck list k).threads k.currentThread).comeReady =
      (k.threads k.currentThread).comeReady := by
  have := foldl_invariant (Scheduler.agingCheckItem list)
    (fun s => s.currentThread = k.currentThread ∧
      (s.threads k.currentThread).comeReady = (k.threads k.currentThread).comeReady)
    (by
      intro s x ⟨hc, hr⟩
      obtain ⟨f1, -, -, -⟩ := agingCheckItem_frame list s x
      refine ⟨f1.trans hc, ?_⟩
      rw [agingCheckItem_threads]
      split_ifs with e
      · have hd : decide (x = s.currentThread) = true := by
          rw [hc, ← e]
          simp
        rw [hd, agedOnce_current_comeReady, ← e, hr]
      · exact hr)
    (ListIterator.items (k.queue list)) k ⟨rfl, rfl⟩
  exact this.2

/-- A pass of `agingCheck` leaves alone a current thread whose aging count is below 1500 or
whose priority is 149. -/
theorem agingCheck_current_not_due (list : QueueId) (k : Kernel)
    (h : (k.threads k.currentThread).agingCount < 1500 ∨
      (k.threads k.currentThread).priority = 149) :
    (Scheduler.agingCheck list k).threads k.currentThread = k.threads k.currentThread ∧
    ∀ q, ((Scheduler.agingCheck list k).queue q).count k.currentThread =
      (k.queue q).count k.currentThread := by
  have := foldl_invariant (Scheduler.agingCheckItem list)
    (fun s => s.currentThread = k.currentThread ∧
      s.threads k.currentThread = k.threads k.currentThread ∧
      ∀ q, (s.queue q).count k.currentThread = (k.queue q).count k.currentThread)
    (by
      intro s x ⟨hc, ht, hq⟩
      obtain ⟨f1, -, -, -⟩ := agingCheckItem_frame list s x
      refine ⟨f1.trans hc, ?_, ?_⟩
      · rw [agingCheckItem_threads]
        split_ifs with e
        · have hd : decide (x = s.currentThread) = true := by
            rw [hc, ← e]
            simp
          rw [hd, ← e, ht]
          exact agedOnce_current_of_not_due _ _ h
        · exact ht
      · intro q
        by_cases e : k.currentThread = x
        · have hd : decide (x = s.currentThread) = true := by
            rw [hc, ← e]
            simp
          rw [e, agingCheckItem_count_self, hd, ← e, ht,
            if_neg (agingDue_current_of_not_due _ _ h)]
          exact hq q
        · rw [agingCheckItem_count_other list s x _ e q]
          exact hq q)
    (ListIterator.items (k.queue list)) k ⟨rfl, rfl, fun _ => rfl⟩
  exact this.2

/-- C12, as stated, fails: in the example the current thread 0 is linked in L2 at priority 95
with aging count 1500; the aging pass takes the count to 0, raises the priority to 105 and moves
the thread from L2 to L1. -/
theorem aging_current_thread_counterexample :
    agingCurrentExample.currentThread = 0 ∧
    agingCurrentExample.MultiLevelList2 = [0] ∧
    (agingCurrentExample.threads 0).priority = 95 ∧
    (agingCurrentExample.threads 0).agingCount = 1500 ∧
    ((Scheduler.aging agingCurrentExample).threads 0).priority = 105 ∧
    ((Scheduler.aging agingCurrentExample).threads 0).agingCount = 0 ∧
    (Scheduler.aging agingCurrentExample).MultiLevelList1 = [0] ∧
    (Scheduler.aging agingCurrentExample).MultiLevelList2 = [] := by
  refine ⟨rfl, rfl, by decide, by decide, by decide, by decide, by decide, by decide⟩

/-- C12, amended: for every scheduler state, an aging pass leaves `comeReady` of the current
thread unchanged (its waiting time is never credited); and it leaves the whole thread object
and the number of its links in every ready queue unchanged when the current thread is not
linked in a ready queue, or its aging count is below 1500, or its priority is 149. -/
theorem aging_current_thread (k : Kernel) :
    ((Scheduler.aging k).threads k.currentThread).comeReady =
      (k.threads k.currentThread).comeReady ∧
    (((∀ q, k.currentThread ∉ k.queue q) ∨
        (k.threads k.currentThread).agingCount < 1500 ∨
        (k.threads k.currentThread).priority = 149) →
      (Scheduler.aging k).threads k.currentThread = k.threads k.currentThread ∧
      ∀ q, ((Scheduler.aging k).queue q).count k.currentThread =
        (k.queue q).count k.currentThread) := by
  obtain ⟨f1, -, -, -⟩ := agingCheck_frame QueueId.L1 k
  obtain ⟨g1, -, -, -⟩ := agingCheck_frame QueueId.L2 (Scheduler.agingCheck QueueId.L1 k)
  constructor
  · unfold Scheduler.aging
    have a := agingCheck_current_comeReady QueueId.L1 k
    have b := agingCheck_current_comeReady QueueId.L2 (Scheduler.agingCheck QueueId.L1 k)
    have c := agingCheck_current_comeReady QueueId.L3
      (Scheduler.agingCheck QueueId.L2 (Scheduler.agingCheck QueueId.L1 k))
    rw [g1, f1] at c
    rw [f1] at b
    rw [c, b, a]
  · intro h
    unfold Scheduler.aging
    rcases h with h | h
    · obtain ⟨a1, a2⟩ := agingCheck_untouched QueueId.L1 k k.currentThread (h QueueId.L1)
      have n2 : k.currentThread ∉ (Scheduler.agingCheck QueueId.L1 k).queue QueueId.L2 := by
        rw [← List.count_eq_zero, a2 QueueId.L2, List.count_eq_zero]
        exact h QueueId.L2
      obtain ⟨b1, b2⟩ := agingCheck_untouched QueueId.L2 _ k.currentThread n2
      have n3 : k.currentThread ∉ (Scheduler.agingCheck QueueId.L2
          (Scheduler.agingCheck QueueId.L1 k)).queue QueueId.L3 := by
        rw [← List.count_eq_zero, b2 QueueId.L3, a2 QueueId.L3, List.count_eq_zero]
        exact h QueueId.L3
      obtain ⟨c1, c2⟩ := agingCheck_untouched QueueId.L3 _ k.currentThread n3
      refine ⟨by rw [c1, b1, a1], ?_⟩
      intro q
      rw [c2 q, b2 q, a2 q]
    · obtain ⟨a1, a2⟩ := agingCheck_current_not_due QueueId.L1 k h
      have b := agingCheck_current_not_due QueueId.L2 (Scheduler.agingCheck QueueId.L1 k)
        (by rw [f1, a1]; exact h)
      rw [f1] at b
      obtain ⟨b1, b2⟩ := b
      have c := agingCheck_current_not_due QueueId.L3
        (Scheduler.agingCheck QueueId.L2 (Scheduler.agingCheck QueueId.L1 k))
        (by rw [g1, f1, b1, a1]; exact h)
      rw [g1, f1] at c
      obtain ⟨c1, c2⟩ := c
      refine ⟨by rw [c1, b1, a1], ?_⟩
      intro q
      rw [c2 q, b2 q, a2 q]

/-- Witness of amended C12: in the example state of C11 the current thread 0 is not linked in a
ready queue and the pass leaves it alone. -/
theorem aging_current_thread_witness :
    (Scheduler.aging agingPromotionExample).threads agingPromotionExample.currentThread =
      agingPromotionExample.threads agingPromotionExample.currentThread :=
  ((aging_current_thread agingPromotionExample).2 (Or.inl (by
    intro q
    cases q <;> decide))).1

/-! ## The ready threads under aging -/

/-- A pass of `agingCheck` keeps the threads of the three queues together the same, with
multiplicity: whenever the loop body runs on a thread, the thread is still linked in the queue
under iteration. -/
theorem agingCheck_perm (list : QueueId) (k : Kernel) :
    ((Scheduler.agingCheck list k).MultiLevelList1 ++
      (Scheduler.agingCheck list k).MultiLevelList2 ++
      (Scheduler.agingCheck list k).MultiLevelList3).Perm
      (k.MultiLevelList1 ++ k.MultiLevelList2 ++ k.MultiLevelList3) := by
  have := foldl_invariant_rem (Scheduler.agingCheckItem list)
    (fun s rem => (∀ x, rem.count x ≤ (s.queue list).count x) ∧
      (s.MultiLevelList1 ++ s.MultiLevelList2 ++ s.MultiLevelList3).Perm
        (k.MultiLevelList1 ++ k.MultiLevelList2 ++ k.MultiLevelList3))
    (by
      intro s x rest ⟨hc, hp⟩
      have hx : x ∈ s.queue list := by
        rw [← List.count_pos_iff]
        have := hc x
        simp only [List.count_cons_self] at this
        omega
      refine ⟨?_, (agingCheckItem_perm list s x hx).trans hp⟩
      intro y
      by_cases hy : y = x
      · subst hy
        have h1 := hc y
        simp only [List.count_cons_self] at h1
        rw [agingCheckItem_count_self]
        split_ifs <;> simp <;> omega
      · have h1 := hc y
        rw [List.count_cons_of_ne hy] at h1
        rw [agingCheckItem_count_other list s x y hy]
        exact h1)
    (ListIterator.items (k.queue list)) k
    ⟨fun x => le_refl _, List.Perm.refl _⟩
  exact this.2

/-- C25: for every scheduler state, the multiset of the threads linked in L1, L2 and L3 together
is the same before and after `aging()`: no thread is dropped or duplicated, whatever the
priorities (and the links) are. -/
theorem aging_conserves_ready_threads (k : Kernel) :
    ((Scheduler.aging k).MultiLevelList1 : Multiset ThreadPtr) +
        ((Scheduler.aging k).MultiLevelList2 : Multiset ThreadPtr) +
        ((Scheduler.aging k).MultiLevelList3 : Multiset ThreadPtr) =
      (k.MultiLevelList1 : Multiset ThreadPtr) + (k.MultiLevelList2 : Multiset ThreadPtr) +
        (k.MultiLevelList3 : Multiset ThreadPtr) := by
  have h : ((Scheduler.aging k).MultiLevelList1 ++ (Scheduler.aging k).MultiLevelList2 ++
      (Scheduler.aging k).MultiLevelList3).Perm
      (k.MultiLevelList1 ++ k.MultiLevelList2 ++ k.MultiLevelList3) := by
    unfold Scheduler.aging
    exact ((agingCheck_perm QueueId.L3 _).trans (agingCheck_perm QueueId.L2 _)).trans
      (agingCheck_perm QueueId.L1 k)
  simp only [Multiset.coe_add, Multiset.coe_eq_coe]
  exact h

/-! ## Positions under aging -/

theorem aging_eq_agingSteps (k : Kernel) :
    Scheduler.aging k = Scheduler.agingSteps k (Scheduler.agingPassSteps k) := by
  unfold Scheduler.aging Scheduler.agingSteps Scheduler.agingPassSteps Scheduler.agingCheck
  rw [List.foldl_append, List.foldl_append, List.foldl_map, List.foldl_map, List.foldl_map]

theorem raisedFrom_ne {p0 p : Int} (h : raisedFrom p0 p) : p ≠ p0 := by
  unfold raisedFrom at h
  omega

theorem agedOnce_raisedFrom (c : Bool) (n : Int) (t : Thread) (p0 : Int)
    (h : raisedFrom p0 t.priority) : raisedFrom p0 (agedOnce c n t).priority := by
  rw [agedOnce_priority]
  split_ifs with hd
  · have h149 : t.priority ≠ 149 := by
      simp only [agingDue, decide_eq_true_eq] at hd
      exact hd.2
    unfold raisedFrom at h ⊢
    rcases h with h | h
    · left
      exact ⟨lt_min (by omega) (by omega), min_le_right _ _⟩
    · omega
  · exact h

theorem agedOnce_raisedFrom_of_due (c : Bool) (n : Int) (t : Thread)
    (hd : agingDue c n t = true) : raisedFrom t.priority (agedOnce c n t).priority := by
  rw [agedOnce_priority, if_pos hd]
  have h149 : t.priority ≠ 149 := by
    simp only [agingDue, decide_eq_true_eq] at hd
    exact hd.2
  unfold raisedFrom
  by_cases h : t.priority < 149
  · left
    exact ⟨lt_min (by omega) h, min_le_right _ _⟩
  · right
    exact ⟨by omega, min_eq_right (by omega)⟩

theorem agingSteps_raisedFrom (t : ThreadPtr) (p0 : Int) :
    ∀ (steps : List (QueueId × ThreadPtr)) (s : Kernel),
      raisedFrom p0 (s.threads t).priority →
      raisedFrom p0 ((Scheduler.agingSteps s steps).threads t).priority := by
  intro steps
  induction steps with
  | nil => intro s h; exact h
  | cons p rest ih =>
    intro s h
    refine ih (Scheduler.agingCheckItem p.1 s p.2) ?_
    rw [agingCheckItem_threads]
    split_ifs with hx
    · subst hx
      exact agedOnce_raisedFrom _ _ _ _ h
    · exact h

theorem SortedList.filter_Insert_of_false {α : Type} (cmp : α → α → Int) (S : α → Bool)
    (x : α) (l : List α) (hx : S x = false) :
    (SortedList.Insert cmp x l).filter S = l.filter S := by
  induction l with
  | nil => simp [SortedList.Insert, hx]
  | cons y ys ih =>
    unfold SortedList.Insert
    split_ifs
    · rw [List.filter_cons_of_neg (by simp [hx])]
    · rw [List.filter_cons, List.filter_cons, ih]

theorem filter_erase_of_false (S : ThreadPtr → Bool) (x : ThreadPtr) (l : List ThreadPtr)
    (hx : S x = false) : (l.erase x).filter S = l.filter S := by
  induction l with
  | nil => rfl
  | cons y ys ih =>
    by_cases hy : y = x
    · subst hy
      rw [List.erase_cons_head, List.filter_cons_of_neg (by simp [hx])]
    · rw [List.erase_cons_tail (by simpa using hy), List.filter_cons, List.filter_cons, ih]

theorem remove_filter (list q : QueueId) (l : List ThreadPtr) (now : ThreadPtr)
    (S : ThreadPtr → Bool) (hx : S now = false) :
    (if list = q then NachosList.Remove l now else l).filter S = l.filter S := by
  split_ifs
  · exact filter_erase_of_false S now l hx
  · rfl

/-- The loop body of `agingCheck` moves no thread but `now`: what a filter that leaves `now` out
sees of a queue is the same before and after. -/
theorem agingCheckItem_filter (list : QueueId) (k : Kernel) (now : ThreadPtr)
    (S : ThreadPtr → Bool) (hx : S now = false) (q : QueueId) :
    ((Scheduler.agingCheckItem list k now).queue q).filter S = (k.queue q).filter S := by
  cases q
  · simp only [queue_L1]
    rw [agingCheckItem_L1]
    have hb := remove_filter list QueueId.L1 k.MultiLevelList1 now S hx
    generalize (if list = QueueId.L1 then NachosList.Remove k.MultiLevelList1 now
      else k.MultiLevelList1) = base at hb ⊢
    split_ifs
    · rw [SortedList.filter_Insert_of_false _ S now base hx, hb]
    · exact hb
    · rfl
  · simp only [queue_L2]
    rw [agingCheckItem_L2]
    have hb := remove_filter list QueueId.L2 k.MultiLevelList2 now S hx
    generalize (if list = QueueId.L2 then NachosList.Remove k.MultiLevelList2 now
      else k.MultiLevelList2) = base at hb ⊢
    split_ifs
    · rw [SortedList.filter_Insert_of_false _ S now base hx, hb]
    · exact hb
    · rfl
  · simp only [queue_L3]
    rw [agingCheckItem_L3]
    have hb := remove_filter list QueueId.L3 k.MultiLevelList3 now S hx
    generalize (if list = QueueId.L3 then NachosList.Remove k.MultiLevelList3 now
      else k.MultiLevelList3) = base at hb ⊢
    split_ifs
    · exact hb
    · rw [List.filter_append, hb]
      simp [hx]
    · rfl

theorem agingCheckItem_queue_of_not_due (list : QueueId) (k : Kernel) (now : ThreadPtr)
    (h : ¬ agingDue (decide (now = k.currentThread)) k.totalTicks (k.threads now) = true)
    (q : QueueId) : (Scheduler.agingCheckItem list k now).queue q = k.queue q := by
  cases q
  · simp only [queue_L1]
    rw [agingCheckItem_L1, if_neg h]
  · simp only [queue_L2]
    rw [agingCheckItem_L2, if_neg h]
  · simp only [queue_L3]
    rw [agingCheckItem_L3, if_neg h]

/-- Threads whose priority a sequence of aging steps leaves as it was keep their queue and
their order in it. -/
theorem agingSteps_filter (S : ThreadPtr → Bool) :
    ∀ (steps : List (QueueId × ThreadPtr)) (s : Kernel),
      (∀ t, S t = true →
        ((Scheduler.agingSteps s steps).threads t).priority = (s.threads t).priority) →
      ∀ q, ((Scheduler.agingSteps s steps).queue q).filter S = (s.queue q).filter S := by
  intro steps
  induction steps with
  | nil => intro s _ q; rfl
  | cons p rest ih =>
    intro s hS q
    have hfold : Scheduler.agingSteps s (p :: rest) =
        Scheduler.agingSteps (Scheduler.agingCheckItem p.1 s p.2) rest := rfl
    rw [hfold] at hS ⊢
    by_cases hd : agingDue (decide (p.2 = s.currentThread)) s.totalTicks (s.threads p.2) = true
    · have hx : S p.2 = false := by
        by_contra hc
        have hc2 : S p.2 = true := by simpa using hc
        have h1 := hS p.2 hc2
        have h2 : raisedFrom (s.threads p.2).priority
            ((Scheduler.agingCheckItem p.1 s p.2).threads p.2).priority := by
          rw [agingCheckItem_threads, if_pos rfl]
          exact agedOnce_raisedFrom_of_due _ _ _ hd
        exact raisedFrom_ne (agingSteps_raisedFrom p.2 _ rest _ h2) h1
      rw [ih (Scheduler.agingCheckItem p.1 s p.2) ?_ q, agingCheckItem_filter p.1 s p.2 S hx q]
      intro t ht
      rw [hS t ht, agingCheckItem_threads]
      have hne : t ≠ p.2 := fun e => by rw [e, hx] at ht; cases ht
      rw [if_neg hne]
    · rw [ih (Scheduler.agingCheckItem p.1 s p.2) ?_ q, agingCheckItem_queue_of_not_due p.1 s p.2 hd q]
      intro t ht
      rw [hS t ht, agingCheckItem_threads]
      split_ifs with hx
      · subst hx
        rw [agedOnce_priority_of_not_due _ _ _ hd]
      · rfl

/-- A pass of `agingCheck` over L1 or L2, in a state with every thread in the queue of its band
and none linked twice, leaves L3 alone. -/
theorem agingCheck_upper_keeps_L3 (list : QueueId) (hl : list ≠ QueueId.L3) (k : Kernel)
    (hb : InBand k) (hlink : LinkedOnce k) :
    InBand (Scheduler.agingCheck list k) ∧ LinkedOnce (Scheduler.agingCheck list k) ∧
      (Scheduler.agingCheck list k).MultiLevelList3 = k.MultiLevelList3 := by
  have hnd : (k.queue list).Nodup := by
    unfold LinkedOnce at hlink
    cases list
    · exact (List.nodup_append.1 (List.nodup_append.1 hlink).1).1
    · exact (List.nodup_append.1 (List.nodup_append.1 hlink).1).2.1
    · exact (List.nodup_append.1 hlink).2.1
  have := foldl_invariant_rem (Scheduler.agingCheckItem list)
    (fun s rem => LinkedOnce s ∧ InBand s ∧ s.MultiLevelList3 = k.MultiLevelList3 ∧
      rem.Nodup ∧ ∀ x ∈ rem, x ∈ s.queue list)
    (by
      intro s x rest ⟨hlk, hband, h3, hn, hm⟩
      have hx : x ∈ s.queue list := hm x (List.mem_cons_self x rest)
      rw [List.nodup_cons] at hn
      refine ⟨?_, agingCheckItem_InBand list s x hx hlk hband, ?_, hn.2, ?_⟩
      · unfold LinkedOnce at hlk ⊢
        exact (agingCheckItem_perm list s x hx).nodup_iff.2 hlk
      · rw [agingCheckItem_L3, ← h3]
        have hp : 50 ≤ (s.threads x).priority := by
          have := (hband list x hx).1
          cases list
          · simp only [QueueId.bandLo] at this
            omega
          · simp only [QueueId.bandLo] at this
            omega
          · exact absurd rfl hl
        have hnew := agedOnce_priority_lower (decide (x = s.currentThread)) s.totalTicks
          (s.threads x) 50 (by decide) hp
        by_cases hd : agingDue (decide (x = s.currentThread)) s.totalTicks (s.threads x) = true
        · rw [if_pos hd, if_neg (not_not.2 (by omega)), if_neg hl]
        · rw [if_neg hd]
      · intro y hy
        have hyx : y ≠ x := fun e => hn.1 (e ▸ hy)
        rw [mem_queue_of_count_eq s _ list y (agingCheckItem_count_other list s x y hyx list)]
        exact hm y (List.mem_cons_of_mem x hy))
    (ListIterator.items (k.queue list)) k ⟨hlink, hb, rfl, hnd, fun x hx => hx⟩
  exact ⟨this.2.1, this.1, this.2.2.1⟩

/-- The contents of L3 after a pass of `agingCheck` over it: the threads that are not raised, in
their order, then the raised threads that stay in L3, in their order. -/
theorem agingCheck_L3_contents (k : Kernel) (hnd : k.MultiLevelList3.Nodup) :
    (Scheduler.agingCheck QueueId.L3 k).MultiLevelList3 =
      k.MultiLevelList3.filter (fun t => !Scheduler.agingRaises k t) ++
        k.MultiLevelList3.filter
          (fun t => Scheduler.agingRaises k t && decide (Scheduler.agedPriority k t ≤ 49)) := by
  have := foldl_invariant_rem (Scheduler.agingCheckItem QueueId.L3)
    (fun s rem => s.currentThread = k.currentThread ∧ s.totalTicks = k.totalTicks ∧
      (∀ t ∈ rem, s.threads t = k.threads t) ∧
      ∃ done, k.MultiLevelList3 = done ++ rem ∧
        s.MultiLevelList3 = done.filter (fun t => !Scheduler.agingRaises k t) ++ rem ++
          done.filter
            (fun t => Scheduler.agingRaises k t && decide (Scheduler.agedPriority k t ≤ 49)))
    (by
      intro s x rest ⟨hc, hn, hth, done, hsplit, hL3⟩
      obtain ⟨f1, f2, -, -⟩ := agingCheckItem_frame QueueId.L3 s x
      have hnd2 : (done ++ x :: rest).Nodup := hsplit ▸ hnd
      have hxd : x ∉ done := fun h =>
        (List.nodup_append.1 hnd2).2.2 h (List.mem_cons_self x rest)
      have hxr : x ∉ rest := (List.nodup_cons.1 (List.nodup_append.1 hnd2).2.1).1
      have hthx : s.threads x = k.threads x := hth x (List.mem_cons_self x rest)
      refine ⟨f1.trans hc, f2.trans hn, ?_, done ++ [x], by rw [hsplit]; simp, ?_⟩
      · intro t ht
        have hne : t ≠ x := fun e => hxr (e ▸ ht)
        rw [agingCheckItem_priority_other QueueId.L3 s x t hne]
        exact hth t (List.mem_cons_of_mem x ht)
      · rw [agingCheckItem_L3, hc, hn, hthx]
        have hxA : x ∉ done.filter (fun t => !Scheduler.agingRaises k t) :=
          fun h => hxd (List.mem_filter.1 h).1
        have herase : NachosList.Remove s.MultiLevelList3 x =
            done.filter (fun t => !Scheduler.agingRaises k t) ++ rest ++
              done.filter (fun t => Scheduler.agingRaises k t &&
                decide (Scheduler.agedPriority k t ≤ 49)) := by
          rw [hL3]
          unfold NachosList.Remove
          rw [List.append_assoc, List.erase_append_right _ hxA, List.cons_append,
            List.erase_cons_head, List.append_assoc]
        by_cases hd : agingDue (decide (x = k.currentThread)) k.totalTicks (k.threads x) = true
        · have hr : Scheduler.agingRaises k x = true := hd
          rw [if_pos hd, if_pos rfl, herase]
          by_cases h49 : (agedOnce (decide (x = k.currentThread)) k.totalTicks
              (k.threads x)).priority > 49
          · have hp : ¬ Scheduler.agedPriority k x ≤ 49 := by
              unfold Scheduler.agedPriority
              omega
            rw [if_neg (not_not.2 h49)]
            simp [List.filter_append, hr, hp]
          · have hp : Scheduler.agedPriority k x ≤ 49 := by
              unfold Scheduler.agedPriority
              omega
            rw [if_pos h49]
            simp [List.filter_append, hr, hp]
        · have hr : Scheduler.agingRaises k x = false := by
            unfold Scheduler.agingRaises
            simpa using hd
          rw [if_neg hd, hL3]
          simp [List.filter_append, hr])
    (ListIterator.items (k.queue QueueId.L3)) k
    ⟨rfl, rfl, fun _ _ => rfl, [], rfl, by simp [ListIterator.items]⟩
  obtain ⟨-, -, -, done, hsplit, hL3⟩ := this
  rw [List.append_nil] at hsplit
  rw [← hsplit] at hL3
  simpa using hL3

theorem aging_L3_contents (k : Kernel) (hb : InBand k) (hlink : LinkedOnce k) :
    (Scheduler.aging k).MultiLevelList3 =
      k.MultiLevelList3.filter (fun t => !Scheduler.agingRaises k t) ++
        k.MultiLevelList3.filter
          (fun t => Scheduler.agingRaises k t && decide (Scheduler.agedPriority k t ≤ 49)) := by
  obtain ⟨b1, l1, e1⟩ := agingCheck_upper_keeps_L3 QueueId.L1 (by decide) k hb hlink
  obtain ⟨b2, l2, e2⟩ := agingCheck_upper_keeps_L3 QueueId.L2 (by decide) _ b1 l1
  obtain ⟨f1, f2, -, -⟩ := agingCheck_frame QueueId.L1 k
  obtain ⟨g1, g2, -, -⟩ := agingCheck_frame QueueId.L2 (Scheduler.agingCheck QueueId.L1 k)
  have hnd : (Scheduler.agingCheck QueueId.L2
      (Scheduler.agingCheck QueueId.L1 k)).MultiLevelList3.Nodup := by
    unfold LinkedOnce at l2
    exact (List.nodup_append.1 l2).2.1
  have hth : ∀ t ∈ k.MultiLevelList3,
      (Scheduler.agingCheck QueueId.L2 (Scheduler.agingCheck QueueId.L1 k)).threads t =
        k.threads t := by
    intro t ht
    have hone := LinkedOnce_count k hlink t
    have h3 : 0 < (k.queue QueueId.L3).count t := List.count_pos_iff.2 ht
    have n1 : t ∉ k.queue QueueId.L1 := by
      rw [← List.count_eq_zero]
      omega
    obtain ⟨a1, a2⟩ := agingCheck_untouched QueueId.L1 k t n1
    have n2 : t ∉ (Scheduler.agingCheck QueueId.L1 k).queue QueueId.L2 := by
      rw [← List.count_eq_zero, a2 QueueId.L2]
      omega
    obtain ⟨c1, -⟩ := agingCheck_untouched QueueId.L2 _ t n2
    rw [c1, a1]
  unfold Scheduler.aging
  rw [agingCheck_L3_contents _ hnd, e2, e1]
  congr 1
  · apply List.filter_congr
    intro t ht
    simp only [Scheduler.agingRaises, g1, g2, f1, f2, hth t ht]
  · apply List.filter_congr
    intro t ht
    simp only [Scheduler.agingRaises, Scheduler.agedPriority, g1, g2, f1, f2, hth t ht]

/-- C24, as stated, fails: in the example threads 1 and 2 are linked in L3 in this order at
priority 10; the aging pass raises thread 1 to 20, within the band of L3, and leaves thread 2
at 10; afterwards thread 1 is behind thread 2. -/
theorem aging_within_band_counterexample :
    agingWithinBandExample.MultiLevelList3 = [1, 2] ∧
    (agingWithinBandExample.threads 1).priority = 10 ∧
    ((Scheduler.aging agingWithinBandExample).threads 1).priority = 20 ∧
    ((Scheduler.aging agingWithinBandExample).threads 2).priority = 10 ∧
    (Scheduler.aging agingWithinBandExample).MultiLevelList3 = [2, 1] := by
  refine ⟨rfl, by decide, by decide, by decide, by decide⟩

/-- C24, amended: an aging pass moves a thread only when it raises its priority.  In every
state, the threads whose priority the pass leaves as it was form the same sequence in each queue
before and after the pass.  In a state with every thread in the queue of its band and none
linked twice, L3 holds after the pass the threads that were not raised, in their old order,
followed by the raised threads that stay in L3, in their old order. -/
theorem aging_moves_raised_threads (k : Kernel) :
    (∀ q, ((Scheduler.aging k).queue q).filter
        (fun t => decide (((Scheduler.aging k).threads t).priority = (k.threads t).priority)) =
      (k.queue q).filter
        (fun t => decide (((Scheduler.aging k).threads t).priority =
          (k.threads t).priority))) ∧
    (InBand k → LinkedOnce k →
      (Scheduler.aging k).MultiLevelList3 =
        k.MultiLevelList3.filter (fun t => !Scheduler.agingRaises k t) ++
          k.MultiLevelList3.filter
            (fun t => Scheduler.agingRaises k t &&
              decide (Scheduler.agedPriority k t ≤ 49))) := by
  refine ⟨?_, aging_L3_contents k⟩
  intro q
  have h := agingSteps_filter
    (fun t => decide (((Scheduler.aging k).threads t).priority = (k.threads t).priority))
    (Scheduler.agingPassSteps k) k
    (by
      intro t ht
      rw [← aging_eq_agingSteps]
      simpa using ht) q
  rw [← aging_eq_agingSteps] at h
  exact h

theorem aging_moves_raised_threads_witness :
    agingWithinBandExample.MultiLevelList3.filter
        (fun t => !Scheduler.agingRaises agingWithinBandExample t) = [2] ∧
    agingWithinBandExample.MultiLevelList3.filter
        (fun t => Scheduler.agingRaises agingWithinBandExample t &&
          decide (Scheduler.agedPriority agingWithinBandExample t ≤ 49)) = [1] ∧
    (Scheduler.aging agingWithinBandExample).MultiLevelList3 =
      agingWithinBandExample.MultiLevelList3.filter
          (fun t => !Scheduler.agingRaises agingWithinBandExample t) ++
        agingWithinBandExample.MultiLevelList3.filter
          (fun t => Scheduler.agingRaises agingWithinBandExample t &&
            decide (Scheduler.agedPriority agingWithinBandExample t ≤ 49)) := by
  refine ⟨by decide, by decide, (aging_moves_raised_threads agingWithinBandExample).2 ?_ ?_⟩
  · intro q t ht
    cases q
    · simp [agingWithinBandExample, mkKernel] at ht
    · simp [agingWithinBandExample, mkKernel] at ht
    · have h : t = 1 ∨ t = 2 := by simpa [agingWithinBandExample, mkKernel] using ht
      rcases h with h | h
      · subst h
        decide
      · subst h
        decide
  · unfold LinkedOnce
    decide

/-! ## Directory tables -/

theorem Directory.FindEntry_some {d : Directory} {name : List Char} {e : DirectoryEntry}
    (h : Directory.FindEntry d name = some e) :
    e.inUse = true ∧ e.name = name ∧
      ∃ pre post, d = pre ++ e :: post ∧ ∀ x ∈ pre, ¬ (x.inUse = true ∧ x.name = name) := by
  unfold Directory.FindEntry at h
  rw [List.find?_eq_some] at h
  obtain ⟨hp, pre, post, hd, hpre⟩ := h
  simp only [Bool.and_eq_true, decide_eq_true_eq] at hp
  refine ⟨hp.1, hp.2, pre, post, hd, ?_⟩
  intro x hx hc
  have := hpre x hx
  simp [hc.1, hc.2] at this

theorem Directory.FindEntry_none {d : Directory} {name : List Char} :
    Directory.FindEntry d name = none ↔ ∀ e ∈ d, e.inUse = true → e.name ≠ name := by
  unfold Directory.FindEntry
  rw [List.find?_eq_none]
  constructor
  · intro h e he hu hn
    exact h e he (by simp [hu, hn])
  · intro h e he hp
    simp only [Bool.and_eq_true, decide_eq_true_eq] at hp
    exact h e he hp.1 hp.2

theorem Directory.Find_eq_neg_one {d : Directory} {name : List Char} :
    Directory.Find d name = -1 ↔ Directory.FindEntry d name = none := by
  unfold Directory.Find
  cases h : Directory.FindEntry d name with
  | none => simp
  | some e =>
    constructor
    · intro h2
      have h3 : (e.sector : Int) = -1 := h2
      have := Int.natCast_nonneg e.sector
      omega
    · intro h2
      cases h2

theorem Directory.Find_of_some {d : Directory} {name : List Char} {e : DirectoryEntry}
    (h : Directory.FindEntry d name = some e) : Directory.Find d name = (e.sector : Int) := by
  simp [Directory.Find, h]

theorem Directory.Find_nonneg_iff {d : Directory} {name : List Char} :
    Directory.Find d name ≥ 0 ↔ Directory.Find d name ≠ -1 := by
  unfold Directory.Find
  cases Directory.FindEntry d name with
  | none => simp
  | some e =>
    simp only [ge_iff_le, Int.natCast_nonneg, ne_eq, true_iff]
    omega

theorem Directory.IsDir_true {d : Directory} {name : List Char}
    (h : Directory.IsDir d name = true) :
    ∃ e, Directory.FindEntry d name = some e ∧ e.isDir = true := by
  unfold Directory.IsDir at h
  cases h2 : Directory.FindEntry d name with
  | none => simp [h2] at h
  | some e => exact ⟨e, rfl, by simpa [h2] using h⟩

theorem Directory.IsDir_of_some {d : Directory} {name : List Char} {e : DirectoryEntry}
    (h : Directory.FindEntry d name = some e) : Directory.IsDir d name = e.isDir := by
  simp [Directory.IsDir, h]

theorem Directory.fill_none {e : DirectoryEntry} {d : Directory} :
    Directory.fill e d = none ↔ ∀ x ∈ d, x.inUse = true := by
  induction d with
  | nil => simp [Directory.fill]
  | cons x xs ih =>
    by_cases hx : x.inUse = true
    · simp [Directory.fill, hx, ih]
    · simp [Directory.fill, hx]

theorem Directory.fill_some {e : DirectoryEntry} {d r : Directory}
    (h : Directory.fill e d = some r) :
    ∃ pre old post, d = pre ++ old :: post ∧ (∀ x ∈ pre, x.inUse = true) ∧
      old.inUse = false ∧ r = pre ++ e :: post := by
  induction d generalizing r with
  | nil => simp [Directory.fill] at h
  | cons x xs ih =>
    by_cases hx : x.inUse = true
    · simp only [Directory.fill, hx, if_true, Option.map_eq_some'] at h
      obtain ⟨r2, h2, rfl⟩ := h
      obtain ⟨pre, old, post, hd, hpre, hold, hr⟩ := ih h2
      refine ⟨x :: pre, old, post, by simp [hd], ?_, hold, by simp [hr]⟩
      intro y hy
      rcases List.mem_cons.1 hy with rfl | hy
      · exact hx
      · exact hpre y hy
    · have hx2 : x.inUse = false := by simpa using hx
      simp only [Directory.fill, hx2, Bool.false_eq_true, if_false, Option.some.injEq] at h
      exact ⟨[], x, xs, rfl, by simp, hx2, by simp [h]⟩

theorem Directory.FindEntry_append_of_none {pre post : Directory} {name : List Char}
    (h : ∀ x ∈ pre, ¬ (x.inUse = true ∧ x.name = name)) :
    Directory.FindEntry (pre ++ post) name = Directory.FindEntry post name := by
  unfold Directory.FindEntry
  induction pre with
  | nil => rfl
  | cons x xs ih =>
    have hx := h x (List.mem_cons_self x xs)
    have : (x.inUse && decide (x.name = name)) = false := by
      simpa using hx
    simp only [List.cons_append, List.find?_cons, this]
    exact ih (fun y hy => h y (List.mem_cons_of_mem x hy))

theorem Directory.release_eq {d : Directory} {name : List Char} {e : DirectoryEntry}
    {pre post : Directory} (hd : d = pre ++ e :: post) (he : e.inUse = true ∧ e.name = name)
    (hpre : ∀ x ∈ pre, ¬ (x.inUse = true ∧ x.name = name)) :
    Directory.release name d = pre ++ { e with inUse := false } :: post := by
  subst hd
  induction pre with
  | nil => simp [Directory.release, he.1, he.2]
  | cons x xs ih =>
    have hx := hpre x (List.mem_cons_self x xs)
    have : ¬ ((x.inUse && decide (x.name = name)) = true) := by
      simpa using hx
    have ih2 := ih (fun y hy => hpre y (List.mem_cons_of_mem x hy))
    simp only [List.cons_append, Directory.release]
    rw [if_neg this]
    exact congrArg (fun r => x :: r) ih2

/-! ## Path resolution -/

/-- The loop of `findsubdirectory` never gives up: a component that is not a directory of the
directory at hand ends the walk and becomes the leaf. -/
theorem findsubdirectoryLoop_returns (fs : FileSystem) (more : List (List Char)) :
    ∀ (current_dirfile : OpenFile) (token : List Char),
      ∃ r, FileSystem.findsubdirectoryLoop fs current_dirfile token more = some r := by
  induction more with
  | nil =>
    intro cur token
    exact ⟨_, rfl⟩
  | cons nextToken more ih =>
    intro cur token
    by_cases hd : Directory.IsDir (fs.disk.fetchDirectory cur) token = true
    · obtain ⟨e, he, -⟩ := Directory.IsDir_true hd
      have hf : Directory.Find (fs.disk.fetchDirectory cur) token ≠ -1 := by
        rw [ne_eq, Directory.Find_eq_neg_one, he]
        simp
      obtain ⟨r, hr⟩ := ih (OpenFile.mk (Directory.Find (fs.disk.fetchDirectory cur) token).toNat)
        nextToken
      exact ⟨r, by simp only [FileSystem.findsubdirectoryLoop, hd, hf, if_true, ne_eq,
        not_false_eq_true, hr]⟩
    · exact ⟨_, by simp only [FileSystem.findsubdirectoryLoop, hd, if_false]; rfl⟩

/-- Path resolution returns `NULL` exactly for the paths without a component. -/
theorem findsubdirectory_eq_none_iff (fs : FileSystem) (path : List Char) :
    FileSystem.findsubdirectory fs path = none ↔ strtokAll [] path = [] := by
  unfold FileSystem.findsubdirectory
  cases h : strtokAll [] path with
  | nil => simp
  | cons token more =>
    obtain ⟨r, hr⟩ := findsubdirectoryLoop_returns fs more (OpenFile.mk DirectorySector) token
    simp [hr]

/-- C13, evaluated where it fails: in the example file system whose root holds the plain file
`f`, resolving `/f/g` does not fail but returns the root directory with leaf `f`; on the freshly
formatted file system, resolving `/x/y/z` returns the root with leaf `x`.  Paths without a
component are refused. -/
theorem findsubdirectory_intermediate_not_directory :
    Directory.FindEntry (exampleFsF.disk.fetchDirectory (OpenFile.mk DirectorySector))
        "f".toList =
      some { inUse := true, isDir := false, name := "f".toList, sector := 4 } ∧
    FileSystem.findsubdirectory exampleFsF "/f/g".toList =
      some (OpenFile.mk DirectorySector, "f".toList) ∧
    Directory.FindEntry (exampleFs.disk.fetchDirectory (OpenFile.mk DirectorySector))
        "x".toList = none ∧
    FileSystem.findsubdirectory exampleFs "/x/y/z".toList =
      some (OpenFile.mk DirectorySector, "x".toList) ∧
    FileSystem.findsubdirectory exampleFs "".toList = none ∧
    FileSystem.findsubdirectory exampleFs "/".toList = none := by
  refine ⟨by decide, by decide, by decide, by decide, by decide, by decide⟩

/-! ## `Open` -/

theorem firstFreeSlot_none (c : FsParams) (fs : FileSystem) :
    FileSystem.firstFreeSlot c fs = none ↔
      ∀ i, 1 ≤ i → i ≤ c.MAXFILENUM → fs.fileDescriptorTable i ≠ none := by
  unfold FileSystem.firstFreeSlot
  rw [List.find?_eq_none]
  constructor
  · intro h i h1 h2
    have := h i (by rw [List.mem_range']; exact ⟨i - 1, by omega, by omega⟩)
    simpa using this
  · intro h i hi
    rw [List.mem_range'] at hi
    obtain ⟨j, hj, rfl⟩ := hi
    have := h (1 + 1 * j) (by omega) (by omega)
    simpa using this

theorem firstFreeSlot_some (c : FsParams) (fs : FileSystem) (i : Nat)
    (h : FileSystem.firstFreeSlot c fs = some i) :
    1 ≤ i ∧ i ≤ c.MAXFILENUM ∧ fs.fileDescriptorTable i = none ∧
      ∀ j, 1 ≤ j → j < i → fs.fileDescriptorTable j ≠ none := by
  unfold FileSystem.firstFreeSlot at h
  rw [List.find?_eq_some] at h
  obtain ⟨hp, pre, post, hd, hpre⟩ := h
  have hmem : i ∈ List.range' 1 c.MAXFILENUM := by
    rw [hd]
    simp
  rw [List.mem_range'] at hmem
  obtain ⟨k, hk, rfl⟩ := hmem
  refine ⟨by omega, by omega, by simpa using hp, ?_⟩
  intro j hj1 hj2
  have hjm : j ∈ List.range' 1 c.MAXFILENUM := by
    rw [List.mem_range']
    exact ⟨j - 1, by omega, by omega⟩
  rw [hd] at hjm
  have hsorted : (List.range' 1 c.MAXFILENUM).Pairwise (fun a b => a < b) :=
    List.pairwise_lt_range' 1 c.MAXFILENUM
  rw [hd] at hsorted
  rcases List.mem_append.1 hjm with hin | hin
  · have := hpre j hin
    intro hnone
    simp [hnone] at this
  · rw [List.pairwise_append] at hsorted
    have := (List.pairwise_cons.1 hsorted.2.1).1
    rcases List.mem_cons.1 hin with e | hin2
    · omega
    · have := this j hin2
      omega

/-- The result of `Open`, case by case. -/
theorem Open_cases (c : FsParams) (fs : FileSystem) (path : List Char) :
    (FileSystem.Open c fs path = ((none, -1), fs) ∧
      (fs.num_openfile = c.MAXFILENUM ∨ FileSystem.findsubdirectory fs path = none ∨
        (∃ parent leaf, FileSystem.findsubdirectory fs path = some (parent, leaf) ∧
          Directory.FindEntry (fs.disk.fetchDirectory parent) leaf = none) ∨
        FileSystem.firstFreeSlot c fs = none)) ∨
    (∃ parent leaf e i, fs.num_openfile ≠ c.MAXFILENUM ∧
      FileSystem.findsubdirectory fs path = some (parent, leaf) ∧
      Directory.FindEntry (fs.disk.fetchDirectory parent) leaf = some e ∧
      FileSystem.firstFreeSlot c fs = some i ∧
      FileSystem.Open c fs path =
        ((some (OpenFile.mk e.sector), (i : Int)),
          { fs with
            num_openfile := fs.num_openfile + 1
            fileDescriptorTable := fun j =>
              if j = i then some (OpenFile.mk e.sector) else fs.fileDescriptorTable j })) := by
  by_cases hn : fs.num_openfile = c.MAXFILENUM
  · left
    exact ⟨by simp [FileSystem.Open, hn], Or.inl hn⟩
  · cases hres : FileSystem.findsubdirectory fs path with
    | none =>
      left
      exact ⟨by simp [FileSystem.Open, hn, hres], Or.inr (Or.inl rfl)⟩
    | some r =>
      obtain ⟨parent, leaf⟩ := r
      cases hfind : Directory.FindEntry (fs.disk.fetchDirectory parent) leaf with
      | none =>
        left
        have hneg : ¬ Directory.Find (fs.disk.fetchDirectory parent) leaf ≥ 0 := by
          rw [Directory.Find_nonneg_iff, ne_eq, not_not, Directory.Find_eq_neg_one]
          exact hfind
        refine ⟨?_, Or.inr (Or.inr (Or.inl ⟨parent, leaf, rfl, hfind⟩))⟩
        simp only [FileSystem.Open, hn, if_false, hres, hneg]
      | some e =>
        have hpos : Directory.Find (fs.disk.fetchDirectory parent) leaf ≥ 0 := by
          rw [Directory.Find_of_some hfind]
          exact Int.natCast_nonneg _
        have hsec : (Directory.Find (fs.disk.fetchDirectory parent) leaf).toNat = e.sector := by
          rw [Directory.Find_of_some hfind]
          exact Int.toNat_natCast _
        cases hslot : FileSystem.firstFreeSlot c fs with
        | none =>
          left
          refine ⟨?_, Or.inr (Or.inr (Or.inr rfl))⟩
          simp only [FileSystem.Open, hn, if_false, hres, hpos, if_true, hslot]
        | some i =>
          right
          refine ⟨parent, leaf, e, i, hn, rfl, hfind, rfl, ?_⟩
          simp only [FileSystem.Open, hn, if_false, hres, hpos, if_true, hslot, hsec]

/-- C14: `Open(path)` returns `(NULL, -1)` if and only if `num_openfile == MAXFILENUM`, or path
resolution fails, or the leaf is absent from the resolved parent directory, or no slot in
1..MAXFILENUM is free; in each of these cases the whole state of the file system, the
descriptor table and `num_openfile` included, is unchanged; and a result is never half a
failure. -/
theorem Open_fails_iff (c : FsParams) (fs : FileSystem) (path : List Char) :
    ((FileSystem.Open c fs path).1 = (none, -1) ↔
      (fs.num_openfile = c.MAXFILENUM ∨ FileSystem.findsubdirectory fs path = none ∨
        (∃ parent leaf, FileSystem.findsubdirectory fs path = some (parent, leaf) ∧
          ∀ e ∈ fs.disk.fetchDirectory parent, e.inUse = true → e.name ≠ leaf) ∨
        (∀ i, 1 ≤ i → i ≤ c.MAXFILENUM → fs.fileDescriptorTable i ≠ none))) ∧
    ((FileSystem.Open c fs path).1 = (none, -1) → (FileSystem.Open c fs path).2 = fs) ∧
    ((FileSystem.Open c fs path).1.1 = none ↔ (FileSystem.Open c fs path).1.2 = -1) := by
  rcases Open_cases c fs path with ⟨h, hc⟩ | ⟨parent, leaf, e, i, hn, hres, hfind, hslot, h⟩
  · refine ⟨?_, fun _ => by rw [h], by rw [h]; simp⟩
    rw [h]
    simp only [true_iff]
    rcases hc with hc | hc | ⟨parent, leaf, hres, hfind⟩ | hc
    · exact Or.inl hc
    · exact Or.inr (Or.inl hc)
    · exact Or.inr (Or.inr (Or.inl ⟨parent, leaf, hres, Directory.FindEntry_none.1 hfind⟩))
    · exact Or.inr (Or.inr (Or.inr ((firstFreeSlot_none c fs).1 hc)))
  · have hi := firstFreeSlot_some c fs i hslot
    have hid : ((i : Nat) : Int) ≠ -1 := by
      have := Int.natCast_nonneg i
      omega
    refine ⟨?_, ?_, ?_⟩
    · rw [h]
      simp only [Prod.mk.injEq, reduceCtorEq, false_and, false_iff, not_or]
      refine ⟨hn, by rw [hres]; simp, ?_, ?_⟩
      · rintro ⟨p2, l2, hres2, habs⟩
        rw [hres] at hres2
        simp only [Option.some.injEq, Prod.mk.injEq] at hres2
        obtain ⟨rfl, rfl⟩ := hres2
        rw [Directory.FindEntry_none.2 habs] at hfind
        cases hfind
      · intro hall
        exact hall i hi.1 hi.2.1 hi.2.2.1
    · rw [h]
      intro hcontra
      simp at hcontra
    · rw [h]
      constructor
      · intro hcontra
        cases hcontra
      · intro hcontra
        exact absurd hcontra hid

/-- C15: whenever `Open(path)` succeeds, the returned id is the smallest `i` in
[1, MAXFILENUM] whose slot was empty before the call (never 0), slot `i` now holds the returned
handle, which is opened on the sector that the parent directory records for the leaf, every
other slot is unchanged, `num_openfile` has increased by exactly one and the disk is
untouched. -/
theorem Open_success (c : FsParams) (fs : FileSystem) (path : List Char) (f : OpenFile)
    (id : Int) (h : (FileSystem.Open c fs path).1 = (some f, id)) :
    ∃ (i : Nat) (parent : OpenFile) (leaf : List Char) (e : DirectoryEntry), id = (i : Int) ∧ 1 ≤ i ∧ i ≤ c.MAXFILENUM ∧
      fs.fileDescriptorTable i = none ∧
      (∀ j, 1 ≤ j → j < i → fs.fileDescriptorTable j ≠ none) ∧
      FileSystem.findsubdirectory fs path = some (parent, leaf) ∧
      Directory.FindEntry (fs.disk.fetchDirectory parent) leaf = some e ∧
      f = OpenFile.mk e.sector ∧
      (FileSystem.Open c fs path).2.fileDescriptorTable i = some f ∧
      (∀ j, j ≠ i → (FileSystem.Open c fs path).2.fileDescriptorTable j =
        fs.fileDescriptorTable j) ∧
      (FileSystem.Open c fs path).2.num_openfile = fs.num_openfile + 1 ∧
      (FileSystem.Open c fs path).2.disk = fs.disk := by
  rcases Open_cases c fs path with ⟨h2, -⟩ | ⟨parent, leaf, e, i, hn, hres, hfind, hslot, h2⟩
  · rw [h2] at h
    simp at h
  · have hi := firstFreeSlot_some c fs i hslot
    rw [h2] at h ⊢
    simp only [Prod.mk.injEq, Option.some.injEq] at h
    obtain ⟨hf, hid⟩ := h
    refine ⟨i, parent, leaf, e, hid.symm, hi.1, hi.2.1, hi.2.2.1, hi.2.2.2, hres, hfind,
      hf.symm, by simp [hf], ?_, rfl, rfl⟩
    intro j hj
    simp [hj]

/-- Witness of C15: on the example file system holding `/a/b`, `Open("/a/b")` returns id 1 and
a handle on sector 6, the sector the directory `/a` records for `b`. -/
theorem Open_success_witness :
    (FileSystem.Open exampleParams exampleFsAB "/a/b".toList).1 =
      (some (OpenFile.mk 6), 1) ∧
    ∃ (i : Nat) (parent : OpenFile) (leaf : List Char) (e : DirectoryEntry), (1 : Int) = (i : Int) ∧ 1 ≤ i ∧ i ≤ exampleParams.MAXFILENUM ∧
      exampleFsAB.fileDescriptorTable i = none ∧
      (∀ j, 1 ≤ j → j < i → exampleFsAB.fileDescriptorTable j ≠ none) ∧
      FileSystem.findsubdirectory exampleFsAB "/a/b".toList = some (parent, leaf) ∧
      Directory.FindEntry (exampleFsAB.disk.fetchDirectory parent) leaf = some e ∧
      OpenFile.mk 6 = OpenFile.mk e.sector ∧
      (FileSystem.Open exampleParams exampleFsAB "/a/b".toList).2.fileDescriptorTable i =
        some (OpenFile.mk 6) ∧
      (∀ j, j ≠ i →
        (FileSystem.Open exampleParams exampleFsAB "/a/b".toList).2.fileDescriptorTable j =
          exampleFsAB.fileDescriptorTable j) ∧
      (FileSystem.Open exampleParams exampleFsAB "/a/b".toList).2.num_openfile =
        exampleFsAB.num_openfile + 1 ∧
      (FileSystem.Open exampleParams exampleFsAB "/a/b".toList).2.disk = exampleFsAB.disk :=
  ⟨by decide, Open_success exampleParams exampleFsAB "/a/b".toList (OpenFile.mk 6) 1
    (by decide)⟩

/-! ## The bitmap -/

theorem Bitmap.Test_set (b : Bitmap) (i j : Nat) (v : Bool) :
    Bitmap.Test (b.set i v) j = if i = j ∧ i < b.length then v else Bitmap.Test b j := by
  unfold Bitmap.Test
  simp only [List.getD_eq_getElem?_getD, List.getElem?_set]
  by_cases hij : i = j
  · subst hij
    by_cases hl : i < b.length
    · simp [hl]
    · simp [hl, List.getElem?_eq_none (Nat.le_of_not_lt hl)]
  · simp [hij]

theorem Bitmap.Test_Mark_self (b : Bitmap) (i : Nat) (h : i < b.length) :
    Bitmap.Test (Bitmap.Mark b i) i = true := by
  simp [Bitmap.Mark, Bitmap.Test_set, h]

theorem Bitmap.Test_Mark_of_true (b : Bitmap) (i j : Nat) (h : Bitmap.Test b j = true) :
    Bitmap.Test (Bitmap.Mark b i) j = true := by
  rw [Bitmap.Mark, Bitmap.Test_set]
  split_ifs
  · rfl
  · exact h

theorem Bitmap.Test_Clear_self (b : Bitmap) (i : Nat) :
    Bitmap.Test (Bitmap.Clear b i) i = false := by
  rw [Bitmap.Clear, Bitmap.Test_set]
  split_ifs with h
  · rfl
  · unfold Bitmap.Test
    have hl : b.length ≤ i := by
      by_contra hc
      exact h ⟨rfl, by omega⟩
    simp [List.getElem?_eq_none hl]

theorem Bitmap.Test_Clear_of_false (b : Bitmap) (i j : Nat) (h : Bitmap.Test b j = false) :
    Bitmap.Test (Bitmap.Clear b i) j = false := by
  rw [Bitmap.Clear, Bitmap.Test_set]
  split_ifs
  · rfl
  · exact h

theorem Bitmap.FindAndSet_eq_neg_one (b : Bitmap) :
    (Bitmap.FindAndSet b).1 = -1 ↔ ∀ x ∈ b, x = true := by
  unfold Bitmap.FindAndSet
  by_cases h : b.findIdx (fun bit => !bit) < b.length
  · rw [if_pos h]
    have h2 := h
    rw [List.findIdx_lt_length] at h2
    obtain ⟨x, hx, hp⟩ := h2
    constructor
    · intro hc
      have hc2 : ((b.findIdx (fun bit => !bit) : Nat) : Int) = -1 := hc
      have := Int.natCast_nonneg (b.findIdx (fun bit => !bit))
      omega
    · intro hall
      have := hall x hx
      simp [this] at hp
  · rw [if_neg h]
    rw [List.findIdx_lt_length] at h
    simp only [true_iff]
    intro x hx
    by_contra hc
    exact h ⟨x, hx, by simpa using hc⟩

theorem Bitmap.FindAndSet_found (b : Bitmap) (h : (Bitmap.FindAndSet b).1 ≠ -1) :
    ∃ s : Nat, (Bitmap.FindAndSet b).1 = (s : Int) ∧ s < b.length ∧
      Bitmap.Test b s = false ∧ (∀ j, j < s → Bitmap.Test b j = true) ∧
      (Bitmap.FindAndSet b).2 = Bitmap.Mark b s := by
  unfold Bitmap.FindAndSet at h ⊢
  by_cases hl : b.findIdx (fun bit => !bit) < b.length
  · rw [if_pos hl]
    refine ⟨b.findIdx (fun bit => !bit), rfl, hl, ?_, ?_, rfl⟩
    · have := List.findIdx_getElem (w := hl)
      unfold Bitmap.Test
      rw [List.getD_eq_getElem _ _ hl]
      simpa using this
    · intro j hj
      have := List.not_of_lt_findIdx hj
      unfold Bitmap.Test
      rw [List.getD_eq_getElem _ _ (by omega)]
      simpa using this
  · rw [if_neg hl] at h
    exact absurd rfl h

theorem Bitmap.FindAndSet_keeps (b : Bitmap) (j : Nat) (h : Bitmap.Test b j = true) :
    Bitmap.Test (Bitmap.FindAndSet b).2 j = true := by
  unfold Bitmap.FindAndSet
  split_ifs
  · exact Bitmap.Test_Mark_of_true _ _ _ h
  · exact h

theorem Bitmap.FindAndSetMany_keeps (n : Nat) :
    ∀ (b : Bitmap) (j : Nat), Bitmap.Test b j = true →
      Bitmap.Test (Bitmap.FindAndSetMany n b).2 j = true := by
  induction n with
  | zero => intro b j h; exact h
  | succ n ih =>
    intro b j h
    exact ih _ j (Bitmap.FindAndSet_keeps b j h)

theorem FileHeader.Allocate_eq_zero (c : FsParams) (hs : 0 < c.SectorSize) (b : Bitmap)
    (n : Nat) :
    (FileHeader.Allocate c b n).1 = 0 ↔ Bitmap.NumClear b < divRoundUp n c.SectorSize := by
  unfold FileHeader.Allocate
  split_ifs with h
  · simp [h]
  · simp only [h, iff_false]
    have : (0 : Int) < (c.SectorSize : Int) := by exact_mod_cast hs
    omega

theorem FileHeader.Allocate_ok (c : FsParams) (b : Bitmap) (n : Nat)
    (h : (FileHeader.Allocate c b n).1 ≠ 0) :
    (FileHeader.Allocate c b n).2.1 = (Bitmap.FindAndSetMany (divRoundUp n c.SectorSize) b).2 ∧
    (FileHeader.Allocate c b n).2.2.numBytes = n ∧
    (FileHeader.Allocate c b n).2.2.dataSectors =
      (Bitmap.FindAndSetMany (divRoundUp n c.SectorSize) b).1 := by
  unfold FileHeader.Allocate at h ⊢
  split_ifs with h2
  · rw [if_pos h2] at h
    exact absurd rfl h
  · exact ⟨rfl, rfl, rfl⟩

/-! ## `Create` -/

theorem Directory.Add_of_absent (d : Directory) (name : List Char) (s : Nat) (isDir : Bool)
    (h : Directory.FindEntry d name = none) :
    Directory.Add d name s isDir =
      match Directory.fill { inUse := true, isDir := isDir, name := name, sector := s } d with
      | some r => (true, r)
      | none => (false, d) := by
  unfold Directory.Add
  rw [if_neg (by rw [ne_eq, not_not, Directory.Find_eq_neg_one]; exact h)]

/-- The result of `Create`, case by case, in the order of the checks of the source. -/
theorem Create_cases (c : FsParams) (fs : FileSystem) (path : List Char) (initialSize : Nat)
    (Dir : Bool) :
    (FileSystem.Create c fs path initialSize Dir = (false, fs) ∧
      (FileSystem.findsubdirectory fs path = none ∨
        ∃ parent leaf, FileSystem.findsubdirectory fs path = some (parent, leaf) ∧
          ((∃ e, Directory.FindEntry (fs.disk.fetchDirectory parent) leaf = some e) ∨
            (Directory.FindEntry (fs.disk.fetchDirectory parent) leaf = none ∧
              (Bitmap.FindAndSet fs.disk.freeMap).1 = -1) ∨
            (Directory.FindEntry (fs.disk.fetchDirectory parent) leaf = none ∧
              (Bitmap.FindAndSet fs.disk.freeMap).1 ≠ -1 ∧
              ∀ x ∈ fs.disk.fetchDirectory parent, x.inUse = true) ∨
            (Directory.FindEntry (fs.disk.fetchDirectory parent) leaf = none ∧
              (Bitmap.FindAndSet fs.disk.freeMap).1 ≠ -1 ∧
              (∃ x ∈ fs.disk.fetchDirectory parent, x.inUse = false) ∧
              (FileHeader.Allocate c (Bitmap.FindAndSet fs.disk.freeMap).2
                (if Dir = true then c.DirectoryFileSize else initialSize)).1 = 0)))) ∨
    (∃ (parent : OpenFile) (leaf : List Char) (s : Nat) (pre : Directory)
        (old : DirectoryEntry) (post : Directory),
      FileSystem.findsubdirectory fs path = some (parent, leaf) ∧
      Directory.FindEntry (fs.disk.fetchDirectory parent) leaf = none ∧
      (Bitmap.FindAndSet fs.disk.freeMap).1 = (s : Int) ∧
      fs.disk.fetchDirectory parent = pre ++ old :: post ∧
      (∀ x ∈ pre, x.inUse = true) ∧ old.inUse = false ∧
      (FileHeader.Allocate c (Bitmap.FindAndSet fs.disk.freeMap).2
        (if Dir = true then c.DirectoryFileSize else initialSize)).1 ≠ 0 ∧
      FileSystem.Create c fs path initialSize Dir =
        (true,
          { fs with
            disk :=
              Disk.writeFreeMap
                (Disk.writeDirectory
                  (Disk.writeHeader fs.disk s
                    (FileHeader.Allocate c (Bitmap.FindAndSet fs.disk.freeMap).2
                      (if Dir = true then c.DirectoryFileSize else initialSize)).2.2)
                  parent
                  (pre ++ { inUse := true, isDir := Dir, name := leaf, sector := s } :: post))
                (FileHeader.Allocate c (Bitmap.FindAndSet fs.disk.freeMap).2
                  (if Dir = true then c.DirectoryFileSize else initialSize)).2.1 })) := by
  cases hres : FileSystem.findsubdirectory fs path with
  | none =>
    left
    exact ⟨by simp [FileSystem.Create, hres], Or.inl rfl⟩
  | some r =>
    obtain ⟨parent, leaf⟩ := r
    cases hfind : Directory.FindEntry (fs.disk.fetchDirectory parent) leaf with
    | some e =>
      left
      have hne : Directory.Find (fs.disk.fetchDirectory parent) leaf ≠ -1 := by
        rw [ne_eq, Directory.Find_eq_neg_one, hfind]
        simp
      exact ⟨by simp only [FileSystem.Create, hres, hne, ne_eq, not_false_eq_true, if_true],
        Or.inr ⟨parent, leaf, rfl, Or.inl ⟨e, hfind⟩⟩⟩
    | none =>
      have heq : ¬ Directory.Find (fs.disk.fetchDirectory parent) leaf ≠ -1 := by
        rw [ne_eq, not_not, Directory.Find_eq_neg_one]
        exact hfind
      by_cases hbit : (Bitmap.FindAndSet fs.disk.freeMap).1 = -1
      · left
        exact ⟨by simp only [FileSystem.Create, hres, heq, if_false, hbit, if_true],
          Or.inr ⟨parent, leaf, rfl, Or.inr (Or.inl ⟨hfind, hbit⟩)⟩⟩
      · obtain ⟨s, hs, -⟩ := Bitmap.FindAndSet_found fs.disk.freeMap hbit
        have hsn : (Bitmap.FindAndSet fs.disk.freeMap).1.toNat = s := by
          rw [hs]
          exact Int.toNat_natCast _
        have hadd := Directory.Add_of_absent (fs.disk.fetchDirectory parent) leaf s Dir hfind
        cases hfill : Directory.fill
            { inUse := true, isDir := Dir, name := leaf, sector := s }
            (fs.disk.fetchDirectory parent) with
        | none =>
          left
          rw [hfill] at hadd
          refine ⟨?_, Or.inr ⟨parent, leaf, rfl, Or.inr (Or.inr (Or.inl
            ⟨hfind, hbit, Directory.fill_none.1 hfill⟩))⟩⟩
          simp only [FileSystem.Create, hres, heq, if_false, hbit, hsn, hadd, if_true]
        | some r =>
          rw [hfill] at hadd
          obtain ⟨pre, old, post, hd, hpre, hold, hr⟩ := Directory.fill_some hfill
          by_cases halloc : (FileHeader.Allocate c (Bitmap.FindAndSet fs.disk.freeMap).2
              (if Dir = true then c.DirectoryFileSize else initialSize)).1 = 0
          · left
            refine ⟨?_, Or.inr ⟨parent, leaf, rfl, Or.inr (Or.inr (Or.inr
              ⟨hfind, hbit, ⟨old, by rw [hd]; simp, hold⟩, halloc⟩))⟩⟩
            simp only [FileSystem.Create, hres, heq, if_false, hbit, hsn, hadd, halloc, if_true,
              Bool.true_eq_false]
          · right
            refine ⟨parent, leaf, s, pre, old, post, rfl, hfind, hs, hd, hpre, hold, halloc, ?_⟩
            simp only [FileSystem.Create, hres, heq, if_false, hbit, hsn, hadd, halloc,
              Bool.true_eq_false, hr]

/-- C16: `Create(path, initial_size, is_dir)` returns false if and only if one of the following
holds, checked in this order: path resolution fails; the resolved parent already contains the
leaf name; the bitmap has no clear bit for the header; the parent directory has no free entry;
the bitmap, after the header sector is taken, has fewer clear bits than the data needs
(`DirectoryFileSize` bytes for a directory, `initial_size` otherwise).  In every other case it
returns true. -/
theorem Create_false_iff (c : FsParams) (fs : FileSystem) (path : List Char)
    (initialSize : Nat) (Dir : Bool) (hs : 0 < c.SectorSize) :
    (FileSystem.Create c fs path initialSize Dir).1 = false ↔
      (FileSystem.findsubdirectory fs path = none ∨
        ∃ parent leaf, FileSystem.findsubdirectory fs path = some (parent, leaf) ∧
          ((∃ e ∈ fs.disk.fetchDirectory parent, e.inUse = true ∧ e.name = leaf) ∨
            ((∀ e ∈ fs.disk.fetchDirectory parent, e.inUse = true → e.name ≠ leaf) ∧
              ∀ bit ∈ fs.disk.freeMap, bit = true) ∨
            ((∀ e ∈ fs.disk.fetchDirectory parent, e.inUse = true → e.name ≠ leaf) ∧
              (∃ bit ∈ fs.disk.freeMap, bit = false) ∧
              ∀ x ∈ fs.disk.fetchDirectory parent, x.inUse = true) ∨
            ((∀ e ∈ fs.disk.fetchDirectory parent, e.inUse = true → e.name ≠ leaf) ∧
              (∃ bit ∈ fs.disk.freeMap, bit = false) ∧
              (∃ x ∈ fs.disk.fetchDirectory parent, x.inUse = false) ∧
              Bitmap.NumClear (Bitmap.FindAndSet fs.disk.freeMap).2 <
                divRoundUp (if Dir = true then c.DirectoryFileSize else initialSize)
                  c.SectorSize))) := by
  have hbits : ∀ b : Bitmap, (Bitmap.FindAndSet b).1 ≠ -1 ↔ ∃ bit ∈ b, bit = false := by
    intro b
    rw [ne_eq, Bitmap.FindAndSet_eq_neg_one]
    constructor
    · intro h
      by_contra hc
      apply h
      intro x hx
      by_contra hx2
      exact hc ⟨x, hx, by simpa using hx2⟩
    · rintro ⟨bit, hb, hf⟩ hall
      have := hall bit hb
      rw [hf] at this
      cases this
  rcases Create_cases c fs path initialSize Dir with ⟨h, hc⟩ |
    ⟨parent, leaf, s, pre, old, post, hres, hfind, hs2, hd, hpre, hold, halloc, h⟩
  · rw [h]
    simp only [true_iff]
    rcases hc with hc | ⟨parent, leaf, hres, hc⟩
    · exact Or.inl hc
    · refine Or.inr ⟨parent, leaf, hres, ?_⟩
      rcases hc with ⟨e, he⟩ | ⟨hf, hb⟩ | ⟨hf, hb, hfull⟩ | ⟨hf, hb, hfree, ha⟩
      · obtain ⟨h1, h2, pre, post, hd, -⟩ := Directory.FindEntry_some he
        exact Or.inl ⟨e, by rw [hd]; simp, h1, h2⟩
      · exact Or.inr (Or.inl ⟨Directory.FindEntry_none.1 hf,
          (Bitmap.FindAndSet_eq_neg_one _).1 hb⟩)
      · exact Or.inr (Or.inr (Or.inl ⟨Directory.FindEntry_none.1 hf, (hbits _).1 hb, hfull⟩))
      · exact Or.inr (Or.inr (Or.inr ⟨Directory.FindEntry_none.1 hf, (hbits _).1 hb, hfree,
          (FileHeader.Allocate_eq_zero c hs _ _).1 ha⟩))
  · rw [h]
    simp only [Bool.true_eq_false, false_iff, not_or, not_exists, not_and]
    refine ⟨by rw [hres]; simp, ?_⟩
    intro p2 l2 hres2
    rw [hres] at hres2
    simp only [Option.some.injEq, Prod.mk.injEq] at hres2
    obtain ⟨rfl, rfl⟩ := hres2
    have habs := Directory.FindEntry_none.1 hfind
    have hfound : (Bitmap.FindAndSet fs.disk.freeMap).1 ≠ -1 := by
      rw [hs2]
      have := Int.natCast_nonneg s
      omega
    refine ⟨?_, ?_, ?_, ?_⟩
    · intro e he hu hn
      exact habs e he hu hn
    · intro _ hall
      exact hfound ((Bitmap.FindAndSet_eq_neg_one _).2 hall)
    · intro _ _ hfull
      have := hfull old (by rw [hd]; simp)
      rw [hold] at this
      cases this
    · intro _ _ _ hlt
      exact halloc ((FileHeader.Allocate_eq_zero c hs _ _).2 hlt)

/-- Witness of C16: on the freshly formatted example file system `Create("/", 10, FALSE)`
returns false, since the path has no component. -/
theorem Create_false_iff_witness :
    (FileSystem.Create exampleParams exampleFs "/".toList 10 false).1 = false :=
  (Create_false_iff exampleParams exampleFs "/".toList 10 false (by decide)).2
    (Or.inl (by decide))

/-- C17: every `Create` call that returns false leaves the whole state of the file system as it
was: the persisted bitmap, every persisted directory and every header are those from before
the call. -/
theorem Create_failure_atomic (c : FsParams) (fs : FileSystem) (path : List Char)
    (initialSize : Nat) (Dir : Bool)
    (h : (FileSystem.Create c fs path initialSize Dir).1 = false) :
    (FileSystem.Create c fs path initialSize Dir).2 = fs ∧
    (FileSystem.Create c fs path initialSize Dir).2.disk.freeMap = fs.disk.freeMap ∧
    (∀ s, (FileSystem.Create c fs path initialSize Dir).2.disk.directories s =
      fs.disk.directories s) ∧
    (∀ s, (FileSystem.Create c fs path initialSize Dir).2.disk.headers s =
      fs.disk.headers s) := by
  rcases Create_cases c fs path initialSize Dir with ⟨h2, -⟩ |
    ⟨parent, leaf, s, pre, old, post, -, -, -, -, -, -, -, h2⟩
  · rw [h2]
    exact ⟨rfl, rfl, fun _ => rfl, fun _ => rfl⟩
  · rw [h2] at h
    cases h

/-- Witness of C17: `Create("/a", 50, FALSE)` on the example file system that already holds
`/a` fails on the name conflict and changes nothing. -/
theorem Create_failure_atomic_witness :
    (FileSystem.Create exampleParams exampleFsA "/a".toList 50 false).1 = false ∧
    (FileSystem.Create exampleParams exampleFsA "/a".toList 50 false).2 = exampleFsA :=
  ⟨by decide,
    (Create_failure_atomic exampleParams exampleFsA "/a".toList 50 false (by decide)).1⟩

/-- C18: whenever `Create(path, initial_size, is_dir)` returns true, the persisted parent
directory holds, in its first slot that was free, an entry in use for the leaf name with the
given `is_dir` flag, and that entry is the one found under the name; its sector is the lowest
sector that was clear in the bitmap before the call; that sector is marked in the persisted
bitmap; the header written to it gives `DirectoryFileSize` bytes for a directory and
`initial_size` bytes otherwise; all other entries of the parent, all other directories and the
descriptor table are unchanged. -/
theorem Create_success (c : FsParams) (fs : FileSystem) (path : List Char)
    (initialSize : Nat) (Dir : Bool)
    (h : (FileSystem.Create c fs path initialSize Dir).1 = true) :
    ∃ (parent : OpenFile) (leaf : List Char) (s : Nat) (pre : Directory)
        (old : DirectoryEntry) (post : Directory),
      FileSystem.findsubdirectory fs path = some (parent, leaf) ∧
      s < fs.disk.freeMap.length ∧ Bitmap.Test fs.disk.freeMap s = false ∧
      (∀ j, j < s → Bitmap.Test fs.disk.freeMap j = true) ∧
      fs.disk.fetchDirectory parent = pre ++ old :: post ∧
      (∀ x ∈ pre, x.inUse = true) ∧ old.inUse = false ∧
      (FileSystem.Create c fs path initialSize Dir).2.disk.fetchDirectory parent =
        pre ++ { inUse := true, isDir := Dir, name := leaf, sector := s } :: post ∧
      Directory.FindEntry
          ((FileSystem.Create c fs path initialSize Dir).2.disk.fetchDirectory parent) leaf =
        some { inUse := true, isDir := Dir, name := leaf, sector := s } ∧
      Bitmap.Test (FileSystem.Create c fs path initialSize Dir).2.disk.freeMap s = true ∧
      ((FileSystem.Create c fs path initialSize Dir).2.disk.headers s).numBytes =
        (if Dir = true then c.DirectoryFileSize else initialSize) ∧
      (∀ t, t ≠ parent.sector →
        (FileSystem.Create c fs path initialSize Dir).2.disk.directories t =
          fs.disk.directories t) ∧
      (FileSystem.Create c fs path initialSize Dir).2.fileDescriptorTable =
        fs.fileDescriptorTable ∧
      (FileSystem.Create c fs path initialSize Dir).2.num_openfile = fs.num_openfile := by
  rcases Create_cases c fs path initialSize Dir with ⟨h2, -⟩ |
    ⟨parent, leaf, s, pre, old, post, hres, hfind, hs, hd, hpre, hold, halloc, h2⟩
  · rw [h2] at h
    cases h
  · have hfound : (Bitmap.FindAndSet fs.disk.freeMap).1 ≠ -1 := by
      rw [hs]
      have := Int.natCast_nonneg s
      omega
    obtain ⟨s2, hs2, hlt, hclear, hlow, hmark⟩ := Bitmap.FindAndSet_found fs.disk.freeMap hfound
    have hss : s2 = s := by
      rw [hs] at hs2
      exact_mod_cast hs2.symm
    subst hss
    obtain ⟨a1, a2, -⟩ := FileHeader.Allocate_ok c _ _ halloc
    rw [h2]
    refine ⟨parent, leaf, s2, pre, old, post, hres, hlt, hclear, hlow, hd, hpre, hold, ?_, ?_,
      ?_, ?_, ?_, rfl, rfl⟩
    · simp [Disk.writeFreeMap, Disk.writeDirectory, Disk.fetchDirectory]
    · have habs := Directory.FindEntry_none.1 hfind
      have hpre2 : ∀ x ∈ pre, ¬ (x.inUse = true ∧ x.name = leaf) := by
        intro x hx hc
        exact habs x (by rw [hd]; simp [hx]) hc.1 hc.2
      simp only [Disk.writeFreeMap, Disk.writeDirectory, Disk.fetchDirectory, if_true]
      rw [Directory.FindEntry_append_of_none hpre2]
      simp [Directory.FindEntry]
    · simp only [Disk.writeFreeMap]
      rw [a1]
      apply Bitmap.FindAndSetMany_keeps
      rw [hmark]
      exact Bitmap.Test_Mark_self _ _ hlt
    · simp only [Disk.writeFreeMap, Disk.writeDirectory, Disk.writeHeader, if_true]
      exact a2
    · intro t ht
      simp [Disk.writeFreeMap, Disk.writeDirectory, Disk.writeHeader, ht]

/-- Witness of C18: `Create("/a", 120, TRUE)` on the freshly formatted example file system
puts the directory `a` into the root with header sector 4, the lowest clear bit, and the header
gives the 80 bytes of a directory table, not 120. -/
theorem Create_success_witness :
    Directory.FindEntry (exampleFsA.disk.fetchDirectory (OpenFile.mk DirectorySector))
        "a".toList =
      some { inUse := true, isDir := true, name := "a".toList, sector := 4 } ∧
    (exampleFsA.disk.headers 4).numBytes = 80 ∧
    ∃ (parent : OpenFile) (leaf : List Char) (s : Nat),
      FileSystem.findsubdirectory exampleFs "/a".toList = some (parent, leaf) ∧
      Bitmap.Test exampleFs.disk.freeMap s = false ∧
      Bitmap.Test exampleFsA.disk.freeMap s = true := by
  refine ⟨by decide, by decide, ?_⟩
  obtain ⟨parent, leaf, s, pre, old, post, h1, -, h3, -, -, -, -, -, -, h10, -⟩ :=
    Create_success exampleParams exampleFs "/a".toList 120 true (by decide)
  exact ⟨parent, leaf, s, h1, h3, h10⟩

/-! ## Removal -/

theorem strtokAll_append (a b : List Char) :
    ∀ cur, strtokAll cur (a ++ '/' :: b) = strtokAll cur a ++ strtokAll [] b := by
  induction a with
  | nil =>
    intro cur
    simp only [List.nil_append, strtokAll]
    split_ifs <;> simp
  | cons ch a ih =>
    intro cur
    simp only [List.cons_append, strtokAll]
    split_ifs <;> simp [ih]

theorem Remove_of_unresolved {fs : FileSystem} {path : List Char} (fuel : Nat) (r : Bool)
    (h : FileSystem.findsubdirectory fs path = none) :
    FileSystem.Remove (fuel + 1) fs r path = some (false, fs) := by
  simp only [FileSystem.Remove, h]

theorem Remove_of_absent {fs : FileSystem} {path : List Char} {parent : OpenFile}
    {leaf : List Char} (fuel : Nat) (r : Bool)
    (h : FileSystem.findsubdirectory fs path = some (parent, leaf))
    (hf : Directory.Find (fs.disk.fetchDirectory parent) leaf = -1) :
    FileSystem.Remove (fuel + 1) fs r path = some (false, fs) := by
  simp only [FileSystem.Remove, h, hf, if_true]

theorem Remove_of_present {fs : FileSystem} {path : List Char} {parent : OpenFile}
    {leaf : List Char} (fuel : Nat) (r : Bool)
    (h : FileSystem.findsubdirectory fs path = some (parent, leaf))
    (hf : Directory.Find (fs.disk.fetchDirectory parent) leaf ≠ -1) :
    FileSystem.Remove (fuel + 1) fs r path =
      (if Directory.IsDir (fs.disk.fetchDirectory parent) leaf = true ∧ r = true then
          FileSystem.RemoveEntries (fun fs1 p => FileSystem.Remove fuel fs1 r p) path
            (fs.disk.fetchDirectory (OpenFile.mk
              (Directory.Find (fs.disk.fetchDirectory parent) leaf).toNat)) fs
        else some fs).map
        (fun fs1 => (true,
          { fs1 with
            disk :=
              Disk.writeDirectory
                (Disk.writeFreeMap fs1.disk
                  (Bitmap.Clear
                    (FileHeader.Deallocate
                      (fs1.disk.headers (Directory.Find (fs.disk.fetchDirectory parent) leaf).toNat)
                      fs1.disk.freeMap)
                    (Directory.Find (fs.disk.fetchDirectory parent) leaf).toNat))
                parent (Directory.Remove (fs.disk.fetchDirectory parent) leaf).2 })) := by
  simp only [FileSystem.Remove, h, if_neg hf]
  cases (if Directory.IsDir (fs.disk.fetchDirectory parent) leaf = true ∧ r = true then
          FileSystem.RemoveEntries (fun fs1 p => FileSystem.Remove fuel fs1 r p) path
            (fs.disk.fetchDirectory (OpenFile.mk
              (Directory.Find (fs.disk.fetchDirectory parent) leaf).toNat)) fs
        else some fs) <;> rfl

theorem FileSystem.Within.refl (fs : FileSystem) : FileSystem.Within fs fs :=
  ⟨rfl, rfl, rfl, fun _ _ h _ => h⟩

theorem FileSystem.Within.trans {a b c : FileSystem} (h1 : FileSystem.Within a b)
    (h2 : FileSystem.Within b c) : FileSystem.Within a c :=
  ⟨h1.1.trans h2.1, h1.2.1.trans h2.2.1, h1.2.2.1.trans h2.2.2.1,
    fun s e he hu => h2.2.2.2 s e (h1.2.2.2 s e he hu) hu⟩

theorem FileSystem.Ranked.of_within {a b : FileSystem} {rank : Nat → Nat}
    (h : FileSystem.Ranked b rank) (hw : FileSystem.Within a b) : FileSystem.Ranked a rank :=
  fun s e he hu hd => h s e (hw.2.2.2 s e he hu) hu hd

theorem FileSystem.NamesProper.restrict {a b : FileSystem}
    (h : FileSystem.NamesProper b) (hw : FileSystem.Within a b) : FileSystem.NamesProper a :=
  fun s e he hu => h s e (hw.2.2.2 s e he hu) hu

theorem Directory.release_mem (name : List Char) :
    ∀ (d : Directory) (e : DirectoryEntry), e ∈ Directory.release name d → e.inUse = true →
      e ∈ d := by
  intro d
  induction d with
  | nil => intro e he; simp [Directory.release] at he
  | cons x xs ih =>
    intro e he hu
    unfold Directory.release at he
    split_ifs at he with hx
    · rcases List.mem_cons.1 he with h1 | h1
      · subst h1
        simp at hu
      · exact List.mem_cons_of_mem _ h1
    · rcases List.mem_cons.1 he with h1 | h1
      · subst h1
        exact List.mem_cons_self _ _
      · exact List.mem_cons_of_mem _ (ih e h1 hu)

theorem RemoveEntries_within
    {remove : FileSystem → List Char → Option (Bool × FileSystem)} (path : List Char)
    (hrem : ∀ fs1 p r, remove fs1 p = some r → FileSystem.Within r.2 fs1) :
    ∀ (table : List DirectoryEntry) (fs fs2 : FileSystem),
      FileSystem.RemoveEntries remove path table fs = some fs2 → FileSystem.Within fs2 fs := by
  intro table
  induction table with
  | nil =>
    intro fs fs2 h
    simp only [FileSystem.RemoveEntries, Option.some.injEq] at h
    subst h
    exact FileSystem.Within.refl _
  | cons x xs ih =>
    intro fs fs2 h
    unfold FileSystem.RemoveEntries at h
    split_ifs at h with hx
    · cases hr : remove fs (path ++ '/' :: x.name) with
      | none => simp [hr] at h
      | some r =>
        simp only [hr] at h
        exact (ih _ _ h).trans (hrem _ _ _ hr)
    · exact ih _ _ h

theorem Remove_within :
    ∀ (fuel : Nat) (fs : FileSystem) (r : Bool) (path : List Char) (b : Bool)
      (fs2 : FileSystem), FileSystem.Remove fuel fs r path = some (b, fs2) →
      FileSystem.Within fs2 fs := by
  intro fuel
  induction fuel with
  | zero => intro fs r path b fs2 h; simp [FileSystem.Remove] at h
  | succ fuel ih =>
    intro fs r path b fs2 h
    cases hres : FileSystem.findsubdirectory fs path with
    | none =>
      rw [Remove_of_unresolved fuel r hres] at h
      simp only [Option.some.injEq, Prod.mk.injEq] at h
      rw [← h.2]
      exact FileSystem.Within.refl _
    | some pl =>
      obtain ⟨parent, leaf⟩ := pl
      by_cases hf : Directory.Find (fs.disk.fetchDirectory parent) leaf = -1
      · rw [Remove_of_absent fuel r hres hf] at h
        simp only [Option.some.injEq, Prod.mk.injEq] at h
        rw [← h.2]
        exact FileSystem.Within.refl _
      · rw [Remove_of_present fuel r hres hf] at h
        have hinner : ∀ fs1, (if Directory.IsDir (fs.disk.fetchDirectory parent) leaf = true ∧
            r = true then
          FileSystem.RemoveEntries (fun fs1 p => FileSystem.Remove fuel fs1 r p) path
            (fs.disk.fetchDirectory (OpenFile.mk
              (Directory.Find (fs.disk.fetchDirectory parent) leaf).toNat)) fs
          else some fs) = some fs1 → FileSystem.Within fs1 fs := by
          intro fs1 h1
          split_ifs at h1
          · exact RemoveEntries_within path (fun a p q hq => ih a r p q.1 q.2 hq) _ _ _ h1
          · simp only [Option.some.injEq] at h1
            rw [← h1]
            exact FileSystem.Within.refl _
        cases h1 : (if Directory.IsDir (fs.disk.fetchDirectory parent) leaf = true ∧
            r = true then
          FileSystem.RemoveEntries (fun fs1 p => FileSystem.Remove fuel fs1 r p) path
            (fs.disk.fetchDirectory (OpenFile.mk
              (Directory.Find (fs.disk.fetchDirectory parent) leaf).toNat)) fs
          else some fs) with
        | none => simp [h1] at h
        | some fs1 =>
          have hw := hinner fs1 h1
          rw [h1] at h
          simp only [Option.map_some', Option.some.injEq, Prod.mk.injEq] at h
          rw [← h.2]
          refine ⟨hw.1, hw.2.1, hw.2.2.1, ?_⟩
          intro s e he hu
          simp only [Disk.writeDirectory, Disk.writeFreeMap] at he
          split_ifs at he with hs
          · rw [hs]
            exact Directory.release_mem leaf _ e
              (by simpa [Directory.Remove, hf] using he) hu
          · exact hw.2.2.2 s e he hu

theorem Directory.entry_of_IsDir {fs : FileSystem} {cur : OpenFile} {token : List Char}
    (h : Directory.IsDir (fs.disk.fetchDirectory cur) token = true) :
    ∃ e, e ∈ fs.disk.directories cur.sector ∧ e.inUse = true ∧ e.isDir = true ∧
      e.name = token ∧ Directory.Find (fs.disk.fetchDirectory cur) token = (e.sector : Int) := by
  obtain ⟨e, he, hed⟩ := Directory.IsDir_true h
  obtain ⟨hu, hn, pre, post, hdec, _⟩ := Directory.FindEntry_some he
  refine ⟨e, ?_, hu, hed, hn, Directory.Find_of_some he⟩
  have h2 : fs.disk.directories cur.sector = pre ++ e :: post := hdec
  rw [h2]
  simp

theorem findsubdirectoryLoop_depth {fs : FileSystem} {rank : Nat → Nat}
    (hr : FileSystem.Ranked fs rank) :
    ∀ (more : List (List Char)) (cur : OpenFile) (token : List Char) (p : OpenFile)
      (l : List Char), FileSystem.findsubdirectoryLoop fs cur token more = some (p, l) →
      Directory.IsDir (fs.disk.fetchDirectory p) l = true →
      more.length + 1 ≤ rank cur.sector := by
  intro more
  induction more with
  | nil =>
    intro cur token p l h hd
    simp only [FileSystem.findsubdirectoryLoop, Option.some.injEq, Prod.mk.injEq] at h
    obtain ⟨rfl, rfl⟩ := h
    obtain ⟨e, hmem, hu, hed, _, _⟩ := Directory.entry_of_IsDir hd
    have := hr _ _ hmem hu hed
    simp only [List.length_nil]
    omega
  | cons next more ih =>
    intro cur token p l h hd
    by_cases h1 : Directory.IsDir (fs.disk.fetchDirectory cur) token = true
    · obtain ⟨e, hmem, hu, hed, _, hF⟩ := Directory.entry_of_IsDir h1
      have hne : Directory.Find (fs.disk.fetchDirectory cur) token ≠ -1 := by
        rw [hF]
        have := Int.natCast_nonneg e.sector
        omega
      simp only [FileSystem.findsubdirectoryLoop, h1, if_true, if_pos hne] at h
      rw [hF, Int.toNat_natCast] at h
      have h3 := ih _ _ _ _ h hd
      have h4 := hr _ _ hmem hu hed
      simp only [List.length_cons]
      simp only at h3
      omega
    · simp only [FileSystem.findsubdirectoryLoop, if_neg h1, Option.some.injEq,
        Prod.mk.injEq] at h
      obtain ⟨rfl, rfl⟩ := h
      exact absurd hd h1

theorem findsubdirectory_depth {fs : FileSystem} {rank : Nat → Nat}
    (hr : FileSystem.Ranked fs rank) {path : List Char} {p : OpenFile} {l : List Char}
    (h : FileSystem.findsubdirectory fs path = some (p, l))
    (hd : Directory.IsDir (fs.disk.fetchDirectory p) l = true) :
    1 ≤ (strtokAll [] path).length ∧ (strtokAll [] path).length ≤ rank DirectorySector := by
  unfold FileSystem.findsubdirectory at h
  cases htok : strtokAll [] path with
  | nil => simp [htok] at h
  | cons token more =>
    simp only [htok] at h
    have := findsubdirectoryLoop_depth hr more _ token p l h hd
    simp only [List.length_cons]
    simp only at this
    omega

theorem RemoveEntries_returns
    {remove : FileSystem → List Char → Option (Bool × FileSystem)} (path : List Char)
    (P : FileSystem → Prop) :
    ∀ (table : List DirectoryEntry),
      (∀ fs1 e, P fs1 → e ∈ table → e.inUse = true →
        ∃ r, remove fs1 (path ++ '/' :: e.name) = some r ∧ P r.2) →
      ∀ fs, P fs → ∃ fs2, FileSystem.RemoveEntries remove path table fs = some fs2 := by
  intro table
  induction table with
  | nil => intro _ fs _; exact ⟨fs, rfl⟩
  | cons x xs ih =>
    intro hrem fs hP
    have hrem2 : ∀ fs1 e, P fs1 → e ∈ xs → e.inUse = true →
        ∃ r, remove fs1 (path ++ '/' :: e.name) = some r ∧ P r.2 :=
      fun fs1 e h1 h2 h3 => hrem fs1 e h1 (List.mem_cons_of_mem _ h2) h3
    unfold FileSystem.RemoveEntries
    by_cases hx : x.inUse = true
    · obtain ⟨r, hr, hPr⟩ := hrem fs x hP (List.mem_cons_self _ _) hx
      rw [if_pos hx, hr]
      exact ih hrem2 r.2 hPr
    · rw [if_neg hx]
      exact ih hrem2 fs hP

theorem Remove_step_returns {fs : FileSystem} {rank : Nat → Nat} (fuel : Nat) (r : Bool)
    (path : List Char) (hR : FileSystem.Ranked fs rank) (hN : FileSystem.NamesProper fs)
    (hrec : ∀ parent leaf, FileSystem.findsubdirectory fs path = some (parent, leaf) →
      Directory.IsDir (fs.disk.fetchDirectory parent) leaf = true → r = true →
      ∀ fs1 name, FileSystem.Ranked fs1 rank ∧ FileSystem.NamesProper fs1 →
        strtokAll [] name ≠ [] →
        ∃ b fs2, FileSystem.Remove fuel fs1 r (path ++ '/' :: name) = some (b, fs2)) :
    ∃ b fs2, FileSystem.Remove (fuel + 1) fs r path = some (b, fs2) := by
  cases hres : FileSystem.findsubdirectory fs path with
  | none => exact ⟨false, fs, Remove_of_unresolved fuel r hres⟩
  | some pl =>
    obtain ⟨parent, leaf⟩ := pl
    by_cases hf : Directory.Find (fs.disk.fetchDirectory parent) leaf = -1
    · exact ⟨false, fs, Remove_of_absent fuel r hres hf⟩
    · rw [Remove_of_present fuel r hres hf]
      by_cases hc : Directory.IsDir (fs.disk.fetchDirectory parent) leaf = true ∧ r = true
      · rw [if_pos hc]
        obtain ⟨fs2, h2⟩ := RemoveEntries_returns path
          (fun f => FileSystem.Ranked f rank ∧ FileSystem.NamesProper f)
          (fs.disk.fetchDirectory (OpenFile.mk
              (Directory.Find (fs.disk.fetchDirectory parent) leaf).toNat))
          (by
            intro fs1 e hP he hu
            obtain ⟨b, fs3, h3⟩ := hrec parent leaf hres hc.1 hc.2 fs1 e.name hP
              (hN _ e he hu)
            have hw := Remove_within _ _ _ _ _ _ h3
            exact ⟨(b, fs3), h3, hP.1.of_within hw, hP.2.restrict hw⟩)
          fs ⟨hR, hN⟩
        rw [h2]
        exact ⟨true, _, rfl⟩
      · rw [if_neg hc]
        exact ⟨true, _, rfl⟩

theorem Remove_returns_of_ranked {rank : Nat → Nat} :
    ∀ (m : Nat) (fs : FileSystem) (r : Bool) (path : List Char),
      FileSystem.Ranked fs rank → FileSystem.NamesProper fs →
      rank DirectorySector + 1 ≤ m + (strtokAll [] path).length →
      ∃ b fs2, FileSystem.Remove (m + 1) fs r path = some (b, fs2) := by
  intro m
  induction m with
  | zero =>
    intro fs r path hR hN hb
    refine Remove_step_returns 0 r path hR hN ?_
    intro parent leaf hres hd _
    have := findsubdirectory_depth hR hres hd
    omega
  | succ m ih =>
    intro fs r path hR hN hb
    refine Remove_step_returns (m + 1) r path hR hN ?_
    intro parent leaf hres hd _ fs1 name hP hname
    refine ih fs1 r _ hP.1 hP.2 ?_
    rw [strtokAll_append, List.length_append]
    have : 1 ≤ (strtokAll [] name).length := by
      cases h : strtokAll [] name with
      | nil => exact absurd h hname
      | cons a b => simp
    omega

theorem FileHeader.Deallocate_keeps_clear (l : List Nat) :
    ∀ (b : Bitmap) (s : Nat), Bitmap.Test b s = false →
      Bitmap.Test (l.foldl Bitmap.Clear b) s = false := by
  induction l with
  | nil => intro b s h; exact h
  | cons x xs ih =>
    intro b s h
    exact ih _ _ (Bitmap.Test_Clear_of_false b x s h)

theorem FileHeader.Deallocate_clears (hdr : FileHeader) (b : Bitmap) (s : Nat)
    (hs : s ∈ hdr.dataSectors) : Bitmap.Test (FileHeader.Deallocate hdr b) s = false := by
  unfold FileHeader.Deallocate
  generalize hdr.dataSectors = l at hs
  induction l generalizing b with
  | nil => simp at hs
  | cons x xs ih =>
    rcases List.mem_cons.1 hs with h1 | h1
    · subst h1
      exact FileHeader.Deallocate_keeps_clear xs _ _ (Bitmap.Test_Clear_self b s)
    · exact ih _ h1

theorem Remove_children_within {fs fs1 : FileSystem} {r : Bool} {path : List Char} {c : Prop}
    [Decidable c] {fuel : Nat} {table : List DirectoryEntry}
    (h1 : (if c then
        FileSystem.RemoveEntries (fun fs1 p => FileSystem.Remove fuel fs1 r p) path table fs
      else some fs) = some fs1) : FileSystem.Within fs1 fs := by
  split_ifs at h1
  · exact RemoveEntries_within path (fun a p q hq => Remove_within fuel a r p q.1 q.2 hq) _ _ _ h1
  · simp only [Option.some.injEq] at h1
    rw [← h1]
    exact FileSystem.Within.refl _

theorem Directory.Find_release {pre post : Directory} {e : DirectoryEntry} {leaf : List Char}
    (hn : e.name = leaf) (hu : e.inUse = true)
    (hpre : ∀ x ∈ pre, ¬ (x.inUse = true ∧ x.name = leaf))
    (huniq : Directory.NamesUnique (pre ++ e :: post)) :
    Directory.Find (pre ++ { e with inUse := false } :: post) leaf = -1 := by
  rw [Directory.Find_eq_neg_one, Directory.FindEntry_none]
  intro x hx hxu hxn
  unfold Directory.NamesUnique at huniq
  rw [List.pairwise_append] at huniq
  have hpost := (List.pairwise_cons.1 huniq.2.1).1
  rcases List.mem_append.1 hx with h1 | h1
  · exact hpre x h1 ⟨hxu, hxn⟩
  · rcases List.mem_cons.1 h1 with h2 | h2
    · subst h2
      simp at hxu
    · exact hpost x h2 hu hxu (by rw [hn, hxn])

theorem Remove_spec (fuel : Nat) (fs : FileSystem) (r : Bool) (path : List Char) (b : Bool)
    (fs2 : FileSystem) (h : FileSystem.Remove fuel fs r path = some (b, fs2)) :
    (b = false ↔ (FileSystem.findsubdirectory fs path = none ∨
      ∃ parent leaf, FileSystem.findsubdirectory fs path = some (parent, leaf) ∧
        Directory.Find (fs.disk.fetchDirectory parent) leaf = -1)) ∧
    (b = false → fs2 = fs) ∧
    (b = true → ∃ (parent : OpenFile) (leaf : List Char) (e : DirectoryEntry)
        (pre post : Directory),
      FileSystem.findsubdirectory fs path = some (parent, leaf) ∧
      fs.disk.fetchDirectory parent = pre ++ e :: post ∧
      e.inUse = true ∧ e.name = leaf ∧
      (∀ x ∈ pre, ¬ (x.inUse = true ∧ x.name = leaf)) ∧
      fs2.disk.fetchDirectory parent = pre ++ { e with inUse := false } :: post ∧
      (Directory.NamesUnique (fs.disk.fetchDirectory parent) →
        Directory.Find (fs2.disk.fetchDirectory parent) leaf = -1) ∧
      Bitmap.Test fs2.disk.freeMap e.sector = false ∧
      (∀ s ∈ (fs.disk.headers e.sector).dataSectors,
        Bitmap.Test fs2.disk.freeMap s = false) ∧
      fs2.disk.headers = fs.disk.headers ∧ fs2.num_openfile = fs.num_openfile ∧
      fs2.fileDescriptorTable = fs.fileDescriptorTable) := by
  cases fuel with
  | zero => simp [FileSystem.Remove] at h
  | succ fuel =>
    cases hres : FileSystem.findsubdirectory fs path with
    | none =>
      rw [Remove_of_unresolved fuel r hres] at h
      simp only [Option.some.injEq, Prod.mk.injEq] at h
      obtain ⟨rfl, rfl⟩ := h
      simp
    | some pl =>
      obtain ⟨parent, leaf⟩ := pl
      by_cases hf : Directory.Find (fs.disk.fetchDirectory parent) leaf = -1
      · rw [Remove_of_absent fuel r hres hf] at h
        simp only [Option.some.injEq, Prod.mk.injEq] at h
        obtain ⟨rfl, rfl⟩ := h
        exact ⟨⟨fun _ => Or.inr ⟨parent, leaf, rfl, hf⟩, fun _ => rfl⟩, fun _ => rfl,
          fun hc => by cases hc⟩
      · rw [Remove_of_present fuel r hres hf] at h
        cases h1 : (if Directory.IsDir (fs.disk.fetchDirectory parent) leaf = true ∧
            r = true then
          FileSystem.RemoveEntries (fun fs1 p => FileSystem.Remove fuel fs1 r p) path
            (fs.disk.fetchDirectory (OpenFile.mk
              (Directory.Find (fs.disk.fetchDirectory parent) leaf).toNat)) fs
          else some fs) with
        | none => simp [h1] at h
        | some fs1 =>
          have hw := Remove_children_within h1
          rw [h1] at h
          simp only [Option.map_some', Option.some.injEq, Prod.mk.injEq] at h
          obtain ⟨hb, hfs2⟩ := h
          subst hb
          cases he : Directory.FindEntry (fs.disk.fetchDirectory parent) leaf with
          | none => exact absurd (Directory.Find_eq_neg_one.2 he) hf
          | some e =>
            obtain ⟨hu, hn, pre, post, hdec, hpre⟩ := Directory.FindEntry_some he
            have hF : (Directory.Find (fs.disk.fetchDirectory parent) leaf).toNat = e.sector := by
              rw [Directory.Find_of_some he, Int.toNat_natCast]
            rw [hF] at hfs2
            have hdir : fs2.disk.fetchDirectory parent =
                pre ++ { e with inUse := false } :: post := by
              have hrm : (Directory.Remove (fs.disk.fetchDirectory parent) leaf).2 =
                  Directory.release leaf (fs.disk.fetchDirectory parent) := by
                rw [Directory.Remove, if_neg hf]
              rw [← hfs2]
              simp only [Disk.fetchDirectory, Disk.writeDirectory, if_true]
              exact hrm.trans (Directory.release_eq hdec ⟨hu, hn⟩ hpre)
            have hmap : fs2.disk.freeMap = Bitmap.Clear
                (FileHeader.Deallocate (fs.disk.headers e.sector) fs1.disk.freeMap)
                e.sector := by
              rw [← hfs2, ← hw.1]
              rfl
            refine ⟨by simp [hf], by simp, fun _ => ⟨parent, leaf, e, pre, post, rfl, hdec,
              hu, hn, hpre, hdir, ?_, ?_, ?_, ?_, ?_, ?_⟩⟩
            · intro huniq
              rw [hdir]
              rw [hdec] at huniq
              exact Directory.Find_release hn hu hpre huniq
            · rw [hmap]
              exact Bitmap.Test_Clear_self _ _
            · intro s hs
              rw [hmap]
              exact Bitmap.Test_Clear_of_false _ _ _
                (FileHeader.Deallocate_clears _ _ _ hs)
            · rw [← hfs2]
              exact hw.1
            · rw [← hfs2]
              exact hw.2.1
            · rw [← hfs2]
              exact hw.2.2.1

theorem exampleFsAB_directories_other (s : Nat) (h1 : s ≠ 1) (h4 : s ≠ 4) :
    exampleFsAB.disk.directories s = Directory.create 4 := by
  have h : exampleFsAB.disk.directories s =
      if s = 4 then exampleFsAB.disk.directories 4
      else if s = 1 then exampleFsA.disk.directories 1
      else if s = 1 then Directory.create 4 else Directory.create 4 := rfl
  rw [h, if_neg h4, if_neg h1, if_neg h1]

theorem exampleFsAB_ranked : FileSystem.Ranked exampleFsAB exampleRank := by
  intro s
  by_cases h4 : s = 4
  · subst h4
    decide
  · by_cases h1 : s = 1
    · subst h1
      decide
    · rw [exampleFsAB_directories_other s h1 h4]
      intro e he hu
      simp [Directory.create] at he
      simp [he] at hu

theorem exampleFsAB_namesProper : FileSystem.NamesProper exampleFsAB := by
  intro s
  by_cases h4 : s = 4
  · subst h4
    decide
  · by_cases h1 : s = 1
    · subst h1
      decide
    · rw [exampleFsAB_directories_other s h1 h4]
      intro e he hu
      simp [Directory.create] at he
      simp [he] at hu

/-- C19: on a directory tree (`rank` decreases along every directory entry in use, every name in
use has a component) `Remove(recursive, path)` returns with any fuel above the rank of the root.
It returns `FALSE` exactly when resolution fails or the leaf is absent from the resolved parent,
and then the file system is unchanged.  When it returns `TRUE` the persisted parent table is the
table read at the start with the first in-use entry named by the leaf released and every other
entry unchanged (so `Find` no longer finds the leaf when names are unique), the bit of the
leaf's header sector and the bits of all data sectors listed in its header are clear in the
persisted bitmap, and the headers and the descriptor table are as before. -/
theorem Remove_contract (rank : Nat → Nat) (fs : FileSystem) (recursive : Bool)
    (path : List Char) (fuel : Nat) (hR : FileSystem.Ranked fs rank)
    (hN : FileSystem.NamesProper fs) (hfuel : rank DirectorySector + 1 ≤ fuel) :
    ∃ b fs2, FileSystem.Remove fuel fs recursive path = some (b, fs2) ∧
      (b = false ↔ (FileSystem.findsubdirectory fs path = none ∨
        ∃ parent leaf, FileSystem.findsubdirectory fs path = some (parent, leaf) ∧
          Directory.Find (fs.disk.fetchDirectory parent) leaf = -1)) ∧
      (b = false → fs2 = fs) ∧
      (b = true → ∃ (parent : OpenFile) (leaf : List Char) (e : DirectoryEntry)
          (pre post : Directory),
        FileSystem.findsubdirectory fs path = some (parent, leaf) ∧
        fs.disk.fetchDirectory parent = pre ++ e :: post ∧
        e.inUse = true ∧ e.name = leaf ∧
        (∀ x ∈ pre, ¬ (x.inUse = true ∧ x.name = leaf)) ∧
        fs2.disk.fetchDirectory parent = pre ++ { e with inUse := false } :: post ∧
        (Directory.NamesUnique (fs.disk.fetchDirectory parent) →
          Directory.Find (fs2.disk.fetchDirectory parent) leaf = -1) ∧
        Bitmap.Test fs2.disk.freeMap e.sector = false ∧
        (∀ s ∈ (fs.disk.headers e.sector).dataSectors,
          Bitmap.Test fs2.disk.freeMap s = false) ∧
        fs2.disk.headers = fs.disk.headers ∧ fs2.num_openfile = fs.num_openfile ∧
        fs2.fileDescriptorTable = fs.fileDescriptorTable) := by
  obtain ⟨m, rfl⟩ : ∃ m, fuel = m + 1 := ⟨fuel - 1, by omega⟩
  have hret : ∃ b fs2, FileSystem.Remove (m + 1) fs recursive path = some (b, fs2) := by
    cases htok : strtokAll [] path with
    | nil =>
      exact ⟨false, fs, Remove_of_unresolved m recursive
        ((findsubdirectory_eq_none_iff fs path).2 htok)⟩
    | cons t ts =>
      refine Remove_returns_of_ranked m fs recursive path hR hN ?_
      rw [htok, List.length_cons]
      omega
  obtain ⟨b, fs2, h⟩ := hret
  exact ⟨b, fs2, h, Remove_spec _ _ _ _ _ _ h⟩

theorem Remove_contract_witness :
    FileSystem.Ranked exampleFsAB exampleRank ∧ FileSystem.NamesProper exampleFsAB ∧
    exampleRank DirectorySector + 1 ≤ 3 ∧
    FileSystem.findsubdirectory exampleFsAB "/a".toList =
      some (OpenFile.mk DirectorySector, "a".toList) ∧
    (FileSystem.Remove 3 exampleFsAB true "/a".toList).map Prod.fst = some true ∧
    ∃ b fs2, FileSystem.Remove 3 exampleFsAB true "/a".toList = some (b, fs2) ∧
      (b = false ↔ (FileSystem.findsubdirectory exampleFsAB "/a".toList = none ∨
        ∃ parent leaf,
          FileSystem.findsubdirectory exampleFsAB "/a".toList = some (parent, leaf) ∧
          Directory.Find (exampleFsAB.disk.fetchDirectory parent) leaf = -1)) ∧
      (b = false → fs2 = exampleFsAB) ∧
      (b = true → ∃ (parent : OpenFile) (leaf : List Char) (e : DirectoryEntry)
          (pre post : Directory),
        FileSystem.findsubdirectory exampleFsAB "/a".toList = some (parent, leaf) ∧
        exampleFsAB.disk.fetchDirectory parent = pre ++ e :: post ∧
        e.inUse = true ∧ e.name = leaf ∧
        (∀ x ∈ pre, ¬ (x.inUse = true ∧ x.name = leaf)) ∧
        fs2.disk.fetchDirectory parent = pre ++ { e with inUse := false } :: post ∧
        (Directory.NamesUnique (exampleFsAB.disk.fetchDirectory parent) →
          Directory.Find (fs2.disk.fetchDirectory parent) leaf = -1) ∧
        Bitmap.Test fs2.disk.freeMap e.sector = false ∧
        (∀ s ∈ (exampleFsAB.disk.headers e.sector).dataSectors,
          Bitmap.Test fs2.disk.freeMap s = false) ∧
        fs2.disk.headers = exampleFsAB.disk.headers ∧
        fs2.num_openfile = exampleFsAB.num_openfile ∧
        fs2.fileDescriptorTable = exampleFsAB.fileDescriptorTable) :=
  ⟨exampleFsAB_ranked, exampleFsAB_namesProper, by decide, by decide, by decide,
    Remove_contract exampleRank exampleFsAB true "/a".toList 3 exampleFsAB_ranked
      exampleFsAB_namesProper (by decide)⟩

/-! ## Create, open, remove on a freshly formatted disk -/

theorem strtokAll_tokens (path : List Char) :
    ∀ cur, '/' ∉ cur → ∀ t ∈ strtokAll cur path, t ≠ [] ∧ '/' ∉ t := by
  induction path with
  | nil =>
    intro cur hcur t ht
    unfold strtokAll at ht
    split_ifs at ht with h
    · simp at ht
    · simp only [List.mem_singleton] at ht
      subst ht
      exact ⟨h, hcur⟩
  | cons ch rest ih =>
    intro cur hcur t ht
    unfold strtokAll at ht
    split_ifs at ht with h1 h2
    · exact ih [] (by simp) t ht
    · rcases List.mem_cons.1 ht with h3 | h3
      · subst h3
        exact ⟨h2, hcur⟩
      · exact ih [] (by simp) t h3
    · refine ih (cur ++ [ch]) ?_ t ht
      intro hmem
      rcases List.mem_append.1 hmem with h3 | h3
      · exact hcur h3
      · simp only [List.mem_singleton] at h3
        exact h1 h3.symm

theorem strtokAll_of_token (t : List Char) :
    ∀ cur, '/' ∉ t → strtokAll cur t = if cur ++ t = [] then [] else [cur ++ t] := by
  induction t with
  | nil =>
    intro cur _
    simp [strtokAll]
  | cons ch rest ih =>
    intro cur h
    have h1 : ¬ ch = '/' := fun hc => h (by simp [hc])
    have h2 : '/' ∉ rest := fun hc => h (List.mem_cons_of_mem _ hc)
    unfold strtokAll
    rw [if_neg h1, ih _ h2]
    simp

theorem strtokAll_token_ne_nil (path : List Char) {t : List Char}
    (ht : t ∈ strtokAll [] path) : strtokAll [] t ≠ [] := by
  obtain ⟨h1, h2⟩ := strtokAll_tokens path [] (by simp) t ht
  rw [strtokAll_of_token t [] h2]
  simp [h1]

theorem Directory.FindEntry_of_unused {d : Directory} (h : ∀ e ∈ d, e.inUse = false)
    (name : List Char) : Directory.FindEntry d name = none := by
  rw [Directory.FindEntry_none]
  intro e he hu
  rw [h e he] at hu
  cases hu

theorem Directory.IsDir_of_none {d : Directory} {name : List Char}
    (h : Directory.FindEntry d name = none) : Directory.IsDir d name = false := by
  simp [Directory.IsDir, h]

theorem Directory.FindEntry_added {pre post : Directory} {e : DirectoryEntry}
    (hu : e.inUse = true) (hpre : ∀ x ∈ pre, ¬ (x.inUse = true ∧ x.name = e.name)) :
    Directory.FindEntry (pre ++ e :: post) e.name = some e := by
  rw [Directory.FindEntry_append_of_none hpre]
  simp [Directory.FindEntry, hu]

theorem findsubdirectoryLoop_of_not_dir {fs : FileSystem} {cur : OpenFile} {token : List Char}
    (h : Directory.IsDir (fs.disk.fetchDirectory cur) token = false)
    (more : List (List Char)) :
    FileSystem.findsubdirectoryLoop fs cur token more = some (cur, token) := by
  cases more with
  | nil => rfl
  | cons next more => simp [FileSystem.findsubdirectoryLoop, h]

theorem findsubdirectoryLoop_step {fs : FileSystem} {cur : OpenFile} {token : List Char}
    {e : DirectoryEntry}
    (h : Directory.FindEntry (fs.disk.fetchDirectory cur) token = some e)
    (hd : e.isDir = true) (next : List Char) (more : List (List Char)) :
    FileSystem.findsubdirectoryLoop fs cur token (next :: more) =
      FileSystem.findsubdirectoryLoop fs (OpenFile.mk e.sector) next more := by
  have h1 : Directory.IsDir (fs.disk.fetchDirectory cur) token = true := by
    rw [Directory.IsDir_of_some h, hd]
  have h2 : Directory.Find (fs.disk.fetchDirectory cur) token ≠ -1 := by
    rw [Directory.Find_of_some h]
    have := Int.natCast_nonneg e.sector
    omega
  have h3 : (Directory.Find (fs.disk.fetchDirectory cur) token).toNat = e.sector := by
    rw [Directory.Find_of_some h, Int.toNat_natCast]
  simp only [FileSystem.findsubdirectoryLoop, h1, if_true, if_pos h2, h3]

theorem findsubdirectory_first (fs : FileSystem) {path : List Char} {t : List Char}
    {more : List (List Char)} (htok : strtokAll [] path = t :: more)
    (h : Directory.IsDir (fs.disk.directories DirectorySector) t = false ∨ more = []) :
    FileSystem.findsubdirectory fs path = some (OpenFile.mk DirectorySector, t) := by
  simp only [FileSystem.findsubdirectory, htok]
  rcases h with h | h
  · exact findsubdirectoryLoop_of_not_dir h more
  · subst h
    rfl

theorem findsubdirectory_second (fs : FileSystem) {path : List Char} {t1 t2 : List Char}
    {rest : List (List Char)} {e : DirectoryEntry}
    (htok : strtokAll [] path = t1 :: t2 :: rest)
    (h1 : Directory.FindEntry (fs.disk.directories DirectorySector) t1 = some e)
    (hd : e.isDir = true)
    (h2 : Directory.IsDir (fs.disk.directories e.sector) t2 = false) :
    FileSystem.findsubdirectory fs path = some (OpenFile.mk e.sector, t2) := by
  simp only [FileSystem.findsubdirectory, htok]
  have h3 : Directory.FindEntry (fs.disk.fetchDirectory (OpenFile.mk DirectorySector)) t1 =
      some e := h1
  have h4 : Directory.IsDir (fs.disk.fetchDirectory (OpenFile.mk e.sector)) t2 = false := h2
  rw [findsubdirectoryLoop_step h3 hd]
  exact findsubdirectoryLoop_of_not_dir h4 rest

theorem Open_not_found (c : FsParams) {fs : FileSystem} {path : List Char} {parent : OpenFile}
    {leaf : List Char} (hres : FileSystem.findsubdirectory fs path = some (parent, leaf))
    (hf : Directory.FindEntry (fs.disk.fetchDirectory parent) leaf = none) :
    FileSystem.Open c fs path = ((none, -1), fs) := by
  rcases Open_cases c fs path with h | ⟨p, l, e, i, _, h2, h3, _⟩
  · exact h.1
  · rw [hres] at h2
    simp only [Option.some.injEq, Prod.mk.injEq] at h2
    rw [← h2.1, ← h2.2, hf] at h3
    cases h3

theorem Open_found (c : FsParams) {fs : FileSystem} {path : List Char} {parent : OpenFile}
    {leaf : List Char} {e : DirectoryEntry} (hn : fs.num_openfile ≠ c.MAXFILENUM)
    (hres : FileSystem.findsubdirectory fs path = some (parent, leaf))
    (hf : Directory.FindEntry (fs.disk.fetchDirectory parent) leaf = some e)
    (hslot : ∃ i, 1 ≤ i ∧ i ≤ c.MAXFILENUM ∧ fs.fileDescriptorTable i = none) :
    (FileSystem.Open c fs path).1.2 ≥ 1 ∧
      (FileSystem.Open c fs path).2.disk = fs.disk := by
  rcases Open_cases c fs path with h | ⟨p, l, e2, i, _, _, _, h4, h5⟩
  · rcases h.2 with h1 | h1 | h1 | h1
    · exact absurd h1 hn
    · rw [hres] at h1
      cases h1
    · obtain ⟨p, l, h2, h3⟩ := h1
      rw [hres] at h2
      simp only [Option.some.injEq, Prod.mk.injEq] at h2
      rw [← h2.1, ← h2.2, hf] at h3
      cases h3
    · obtain ⟨i, hi1, hi2, hi3⟩ := hslot
      exact absurd hi3 ((firstFreeSlot_none c fs).1 h1 i hi1 hi2)
  · rw [h5]
    have := (firstFreeSlot_some c fs i h4).1
    exact ⟨by simp only [ge_iff_le]; omega, rfl⟩

theorem Create_true_cases (c : FsParams) (fs : FileSystem) (path : List Char)
    (initialSize : Nat) (Dir : Bool)
    (h : (FileSystem.Create c fs path initialSize Dir).1 = true) :
    ∃ (parent : OpenFile) (leaf : List Char) (s : Nat) (pre : Directory)
        (old : DirectoryEntry) (post : Directory),
      FileSystem.findsubdirectory fs path = some (parent, leaf) ∧
      Directory.FindEntry (fs.disk.directories parent.sector) leaf = none ∧
      s < fs.disk.freeMap.length ∧ Bitmap.Test fs.disk.freeMap s = false ∧
      fs.disk.directories parent.sector = pre ++ old :: post ∧
      (∀ x ∈ pre, x.inUse = true) ∧ old.inUse = false ∧
      (FileSystem.Create c fs path initialSize Dir).2.disk.directories =
        (fun x => if x = parent.sector then
            pre ++ { inUse := true, isDir := Dir, name := leaf, sector := s } :: post
          else fs.disk.directories x) ∧
      (FileSystem.Create c fs path initialSize Dir).2.num_openfile = fs.num_openfile ∧
      (FileSystem.Create c fs path initialSize Dir).2.fileDescriptorTable =
        fs.fileDescriptorTable := by
  rcases Create_cases c fs path initialSize Dir with h1 | h1
  · rw [h1.1] at h
    cases h
  · obtain ⟨parent, leaf, s, pre, old, post, hres, hfind, hs, hd, hpre, hold, _, heq⟩ := h1
    have hbit : (Bitmap.FindAndSet fs.disk.freeMap).1 ≠ -1 := by
      rw [hs]
      have := Int.natCast_nonneg s
      omega
    obtain ⟨s2, hs2, hlt, htest, _, _⟩ := Bitmap.FindAndSet_found fs.disk.freeMap hbit
    have hss : s2 = s := by
      rw [hs] at hs2
      exact (Int.ofNat_inj.1 hs2).symm
    subst hss
    refine ⟨parent, leaf, s2, pre, old, post, hres, hfind, hlt, htest, hd, hpre, hold, ?_, ?_, ?_⟩
    · rw [heq]
      rfl
    · rw [heq]
    · rw [heq]

theorem Bitmap.FindAndSet_length (b : Bitmap) : (Bitmap.FindAndSet b).2.length = b.length := by
  unfold Bitmap.FindAndSet
  split_ifs <;> simp [Bitmap.Mark]

theorem Bitmap.FindAndSetMany_length (n : Nat) :
    ∀ b : Bitmap, (Bitmap.FindAndSetMany n b).2.length = b.length := by
  induction n with
  | zero => intro b; rfl
  | succ n ih =>
    intro b
    simp only [Bitmap.FindAndSetMany]
    rw [ih, Bitmap.FindAndSet_length]

theorem FileHeader.Allocate_length (c : FsParams) (b : Bitmap) (n : Nat) :
    (FileHeader.Allocate c b n).2.1.length = b.length := by
  unfold FileHeader.Allocate
  split_ifs
  · rfl
  · exact Bitmap.FindAndSetMany_length _ _

theorem FileHeader.Allocate_keeps (c : FsParams) (b : Bitmap) (n j : Nat)
    (h : Bitmap.Test b j = true) : Bitmap.Test (FileHeader.Allocate c b n).2.1 j = true := by
  unfold FileHeader.Allocate
  split_ifs
  · exact h
  · exact Bitmap.FindAndSetMany_keeps _ _ _ h

theorem construct_format_facts {c : FsParams} {disk : Disk} {memory : Nat → Option OpenFile}
    {fs0 : FileSystem} (h : FileSystem.construct c true disk memory = some fs0)
    (hdisk : Disk.NoEntryInUse disk) :
    Disk.NoEntryInUse fs0.disk ∧ fs0.num_openfile = 0 ∧
      (∀ i, i < c.MAXFILENUM → fs0.fileDescriptorTable i = none) ∧
      (DirectorySector < fs0.disk.freeMap.length →
        Bitmap.Test fs0.disk.freeMap DirectorySector = true) := by
  unfold FileSystem.construct at h
  rw [if_pos rfl] at h
  split_ifs at h with h1 h2
  simp only [Option.some.injEq] at h
  subst h
  refine ⟨?_, rfl, ?_, ?_⟩
  · intro s e he
    simp only [Disk.writeDirectory, Disk.writeFreeMap, Disk.writeHeader] at he
    split_ifs at he with hs
    · simp only [Directory.create, List.mem_replicate] at he
      rw [he.2]
    · exact hdisk s e he
  · intro i hi
    simp only [if_pos hi]
  · intro hlen
    simp only [Disk.writeDirectory, Disk.writeFreeMap, Disk.writeHeader] at hlen ⊢
    rw [FileHeader.Allocate_length, FileHeader.Allocate_length] at hlen
    exact FileHeader.Allocate_keeps _ _ _ _
      (FileHeader.Allocate_keeps _ _ _ _
        (Bitmap.Test_Mark_self _ _ (by simpa [Bitmap.Mark] using hlen)))

theorem Directory.FindEntry_single {pre post : Directory} (e : DirectoryEntry)
    (hu : e.inUse = true) (hpre : ∀ x ∈ pre, x.inUse = false) :
    Directory.FindEntry (pre ++ e :: post) e.name = some e :=
  Directory.FindEntry_added hu (fun x hx h => by rw [hpre x hx] at h; cases h.1)

theorem Directory.release_single {pre post : Directory} (e : DirectoryEntry)
    (hu : e.inUse = true) (hpre : ∀ x ∈ pre, x.inUse = false)
    (hpost : ∀ x ∈ post, x.inUse = false) :
    ∀ x ∈ Directory.release e.name (pre ++ e :: post), x.inUse = false := by
  rw [Directory.release_eq rfl ⟨hu, rfl⟩ (fun x hx h => by rw [hpre x hx] at h; cases h.1)]
  intro x hx
  rcases List.mem_append.1 hx with h | h
  · exact hpre x h
  · rcases List.mem_cons.1 h with h1 | h1
    · rw [h1]
    · exact hpost x h1

theorem created_tree {c : FsParams} {disk : Disk} {memory : Nat → Option OpenFile}
    {fs0 : FileSystem} {d f : List Char} {n1 n2 : Nat}
    (hfmt : FileSystem.construct c true disk memory = some fs0)
    (hdisk : Disk.NoEntryInUse disk)
    (hc1 : (FileSystem.Create c fs0 d n1 true).1 = true)
    (hc2 : (FileSystem.Create c (FileSystem.Create c fs0 d n1 true).2 (d ++ '/' :: f) n2
      false).1 = true) :
    ∃ (t1 t2 : List Char) (more rest : List (List Char)) (s1 s2 : Nat),
      strtokAll [] d = t1 :: more ∧ strtokAll [] (d ++ '/' :: f) = t1 :: t2 :: rest ∧
      (more = [] ∨ ∃ more2, more = t2 :: more2) ∧
      FileSystem.HoldsOneFile
        (FileSystem.Create c (FileSystem.Create c fs0 d n1 true).2 (d ++ '/' :: f) n2 false).2
        t1 t2 s1 s2 ∧
      (FileSystem.Create c (FileSystem.Create c fs0 d n1 true).2 (d ++ '/' :: f) n2
        false).2.num_openfile = 0 ∧
      ∀ i, i < c.MAXFILENUM →
        (FileSystem.Create c (FileSystem.Create c fs0 d n1 true).2 (d ++ '/' :: f) n2
          false).2.fileDescriptorTable i = none := by
  obtain ⟨hU0, hn0, ht0, hb0⟩ := construct_format_facts hfmt hdisk
  obtain ⟨P1, L1, s1, pre1, old1, post1, hres1, hfind1, hlt1, htest1, hd1, hpre1, hold1,
    hdirs1, hnum1, htab1⟩ := Create_true_cases c fs0 d n1 true hc1
  obtain ⟨P2, L2, s2, pre2, old2, post2, hres2, hfind2, _, _, hd2, hpre2, hold2,
    hdirs2, hnum2, htab2⟩ :=
    Create_true_cases c (FileSystem.Create c fs0 d n1 true).2 (d ++ '/' :: f) n2 false hc2
  generalize (FileSystem.Create c (FileSystem.Create c fs0 d n1 true).2 (d ++ '/' :: f) n2
    false).2 = fs2 at hdirs2 hnum2 htab2 ⊢
  generalize (FileSystem.Create c fs0 d n1 true).2 = fs1 at *
  cases htok : strtokAll [] d with
  | nil =>
    rw [(findsubdirectory_eq_none_iff fs0 d).2 htok] at hres1
    cases hres1
  | cons t1 more =>
    have hr0 := findsubdirectory_first fs0 htok
      (Or.inl (Directory.IsDir_of_none (Directory.FindEntry_of_unused (hU0 DirectorySector) t1)))
    rw [hr0] at hres1
    simp only [Option.some.injEq, Prod.mk.injEq] at hres1
    obtain ⟨rfl, rfl⟩ := hres1
    have hs1 : s1 ≠ DirectorySector := by
      intro h
      subst h
      rw [hb0 hlt1] at htest1
      cases htest1
    have hpre1u : ∀ x ∈ pre1, x.inUse = false := fun x hx =>
      hU0 DirectorySector x (by
        have h : fs0.disk.directories DirectorySector = pre1 ++ old1 :: post1 := hd1
        rw [h]
        exact List.mem_append_left _ hx)
    have hpost1u : ∀ x ∈ post1, x.inUse = false := fun x hx =>
      hU0 DirectorySector x (by
        have h : fs0.disk.directories DirectorySector = pre1 ++ old1 :: post1 := hd1
        rw [h]
        exact List.mem_append_right _ (List.mem_cons_of_mem _ hx))
    have hroot1 : fs1.disk.directories DirectorySector =
        pre1 ++ { inUse := true, isDir := true, name := t1, sector := s1 } :: post1 := by
      rw [hdirs1]
      simp
    have hother1 : ∀ x, x ≠ DirectorySector → fs1.disk.directories x = fs0.disk.directories x := by
      intro x hx
      rw [hdirs1]
      exact if_neg hx
    have hF1 : Directory.FindEntry (fs1.disk.directories DirectorySector) t1 =
        some { inUse := true, isDir := true, name := t1, sector := s1 } := by
      rw [hroot1]
      exact Directory.FindEntry_single
        { inUse := true, isDir := true, name := t1, sector := s1 } rfl hpre1u
    have htok2 : strtokAll [] (d ++ '/' :: f) = t1 :: (more ++ strtokAll [] f) := by
      rw [strtokAll_append, htok]
      rfl
    cases hrest : more ++ strtokAll [] f with
    | nil =>
      rw [hrest] at htok2
      have hr1 := findsubdirectory_first fs1 htok2 (Or.inr rfl)
      rw [hr1] at hres2
      simp only [Option.some.injEq, Prod.mk.injEq] at hres2
      obtain ⟨rfl, rfl⟩ := hres2
      rw [hF1] at hfind2
      cases hfind2
    | cons t2 rest =>
      rw [hrest] at htok2
      have hsub1 : ∀ e ∈ fs1.disk.directories s1, e.inUse = false := by
        rw [hother1 s1 hs1]
        exact hU0 s1
      have hr1 := findsubdirectory_second fs1 htok2 hF1 rfl
        (Directory.IsDir_of_none (Directory.FindEntry_of_unused hsub1 t2))
      rw [hr1] at hres2
      simp only [Option.some.injEq, Prod.mk.injEq] at hres2
      obtain ⟨rfl, rfl⟩ := hres2
      have hd2b : fs1.disk.directories s1 = pre2 ++ old2 :: post2 := hd2
      refine ⟨t1, t2, more, rest, s1, s2, rfl, htok2, ?_, ⟨hs1, ⟨pre1, post1, ?_, hpre1u,
        hpost1u⟩, ⟨pre2, post2, ?_, ?_, ?_⟩, ?_⟩, ?_, ?_⟩
      · cases more with
        | nil => exact Or.inl rfl
        | cons m more2 =>
          simp only [List.cons_append, List.cons.injEq] at hrest
          exact Or.inr ⟨more2, by rw [hrest.1]⟩
      · rw [hdirs2]
        simp only
        rw [if_neg (fun h => hs1 h.symm)]
        exact hroot1
      · rw [hdirs2]
        simp
      · intro x hx
        exact hsub1 x (by rw [hd2b]; exact List.mem_append_left _ hx)
      · intro x hx
        exact hsub1 x (by rw [hd2b]; exact List.mem_append_right _ (List.mem_cons_of_mem _ hx))
      · intro x hx1 hx2
        rw [hdirs2]
        simp only
        rw [if_neg hx2, hother1 x hx1]
        exact hU0 x
      · rw [hnum2, hnum1, hn0]
      · intro i hi
        rw [htab2, htab1]
        exact ht0 i hi

theorem FileSystem.HoldsOneFile.mem_root {fs : FileSystem} {t1 t2 : List Char} {s1 s2 : Nat}
    (H : FileSystem.HoldsOneFile fs t1 t2 s1 s2) {e : DirectoryEntry}
    (he : e ∈ fs.disk.directories DirectorySector) (hu : e.inUse = true) :
    e = { inUse := true, isDir := true, name := t1, sector := s1 } := by
  obtain ⟨_, ⟨pre, post, hd, hpre, hpost⟩, _, _⟩ := H
  rw [hd] at he
  rcases List.mem_append.1 he with h | h
  · rw [hpre e h] at hu
    cases hu
  · rcases List.mem_cons.1 h with h1 | h1
    · exact h1
    · rw [hpost e h1] at hu
      cases hu

theorem FileSystem.HoldsOneFile.find_root {fs : FileSystem} {t1 t2 : List Char} {s1 s2 : Nat}
    (H : FileSystem.HoldsOneFile fs t1 t2 s1 s2) :
    Directory.FindEntry (fs.disk.directories DirectorySector) t1 =
      some { inUse := true, isDir := true, name := t1, sector := s1 } := by
  obtain ⟨_, ⟨pre, post, hd, hpre, _⟩, _, _⟩ := H
  rw [hd]
  exact Directory.FindEntry_single { inUse := true, isDir := true, name := t1, sector := s1 }
    rfl hpre

theorem FileSystem.HoldsOneFile.find_sub {fs : FileSystem} {t1 t2 : List Char} {s1 s2 : Nat}
    (H : FileSystem.HoldsOneFile fs t1 t2 s1 s2) :
    Directory.FindEntry (fs.disk.directories s1) t2 =
      some { inUse := true, isDir := false, name := t2, sector := s2 } := by
  obtain ⟨_, _, ⟨pre, post, hd, hpre, _⟩, _⟩ := H
  rw [hd]
  exact Directory.FindEntry_single { inUse := true, isDir := false, name := t2, sector := s2 }
    rfl hpre

theorem FileSystem.HoldsOneFile.mem_sub {fs : FileSystem} {t1 t2 : List Char} {s1 s2 : Nat}
    (H : FileSystem.HoldsOneFile fs t1 t2 s1 s2) {e : DirectoryEntry}
    (he : e ∈ fs.disk.directories s1) (hu : e.inUse = true) :
    e = { inUse := true, isDir := false, name := t2, sector := s2 } := by
  obtain ⟨_, _, ⟨pre, post, hd, hpre, hpost⟩, _⟩ := H
  rw [hd] at he
  rcases List.mem_append.1 he with h | h
  · rw [hpre e h] at hu
    cases hu
  · rcases List.mem_cons.1 h with h1 | h1
    · exact h1
    · rw [hpost e h1] at hu
      cases hu

theorem FileSystem.HoldsOneFile.of_disk {fs fs3 : FileSystem} {t1 t2 : List Char}
    {s1 s2 : Nat} (H : FileSystem.HoldsOneFile fs t1 t2 s1 s2) (h : fs3.disk = fs.disk) :
    FileSystem.HoldsOneFile fs3 t1 t2 s1 s2 := by
  unfold FileSystem.HoldsOneFile at H ⊢
  rw [h]
  exact H

theorem FileSystem.HoldsOneFile.resolve_two {fs : FileSystem} {t1 t2 : List Char}
    {s1 s2 : Nat} (H : FileSystem.HoldsOneFile fs t1 t2 s1 s2) {path : List Char}
    {rest : List (List Char)} (htok : strtokAll [] path = t1 :: t2 :: rest) :
    FileSystem.findsubdirectory fs path = some (OpenFile.mk s1, t2) :=
  findsubdirectory_second fs htok H.find_root rfl
    (by
      have h := Directory.IsDir_of_some H.find_sub
      exact h)

theorem FileSystem.HoldsOneFile.ranked {fs : FileSystem} {t1 t2 : List Char} {s1 s2 : Nat}
    (H : FileSystem.HoldsOneFile fs t1 t2 s1 s2) : FileSystem.Ranked fs rootRank := by
  intro s e he hu hd
  by_cases h1 : s = DirectorySector
  · subst h1
    rw [H.mem_root he hu]
    simp [rootRank, H.1]
  · by_cases h2 : s = s1
    · subst h2
      rw [H.mem_sub he hu] at hd
      cases hd
    · rw [H.2.2.2 s h1 h2 e he] at hu
      cases hu

theorem FileSystem.HoldsOneFile.namesProper {fs : FileSystem} {t1 t2 : List Char}
    {s1 s2 : Nat} (H : FileSystem.HoldsOneFile fs t1 t2 s1 s2)
    (h1 : strtokAll [] t1 ≠ []) (h2 : strtokAll [] t2 ≠ []) : FileSystem.NamesProper fs := by
  intro s e he hu
  by_cases hs1 : s = DirectorySector
  · subst hs1
    rw [H.mem_root he hu]
    exact h1
  · by_cases hs2 : s = s1
    · subst hs2
      rw [H.mem_sub he hu]
      exact h2
    · rw [H.2.2.2 s hs1 hs2 e he] at hu
      cases hu

theorem Open_dead_end (c : FsParams) {fs : FileSystem} {path : List Char} {t1 : List Char}
    {rest : List (List Char)} (htok : strtokAll [] path = t1 :: rest)
    (hdead : ∀ e, Directory.FindEntry (fs.disk.directories DirectorySector) t1 = some e →
      rest ≠ [] ∧ e.isDir = true ∧ ∀ x ∈ fs.disk.directories e.sector, x.inUse = false) :
    FileSystem.Open c fs path = ((none, -1), fs) := by
  cases hF : Directory.FindEntry (fs.disk.directories DirectorySector) t1 with
  | none =>
    exact Open_not_found c
      (findsubdirectory_first fs htok (Or.inl (Directory.IsDir_of_none hF))) hF
  | some e =>
    obtain ⟨hr, hd, hu⟩ := hdead e hF
    cases rest with
    | nil => exact absurd rfl hr
    | cons t2 rest2 =>
      have hn := Directory.FindEntry_of_unused hu t2
      exact Open_not_found c
        (findsubdirectory_second fs htok hF hd (Directory.IsDir_of_none hn)) hn

theorem Remove_of_holdsOneFile {fs : FileSystem} {t1 t2 : List Char} {s1 s2 : Nat}
    (H : FileSystem.HoldsOneFile fs t1 t2 s1 s2) {d : List Char} {more : List (List Char)}
    (htok : strtokAll [] d = t1 :: more) (hm : more = [] ∨ ∃ more2, more = t2 :: more2)
    (h1 : strtokAll [] t1 ≠ []) (h2 : strtokAll [] t2 ≠ []) (fuel : Nat) (hfuel : 2 ≤ fuel) :
    ∃ fs4, FileSystem.Remove fuel fs true d = some (true, fs4) ∧
      fs4.num_openfile = fs.num_openfile ∧
      ∀ e, Directory.FindEntry (fs4.disk.directories DirectorySector) t1 = some e →
        more ≠ [] ∧ e.isDir = true ∧ ∀ x ∈ fs4.disk.directories e.sector, x.inUse = false := by
  obtain ⟨m, rfl⟩ : ∃ m, fuel = m + 1 := ⟨fuel - 1, by omega⟩
  obtain ⟨b, fs4, hrem⟩ := Remove_returns_of_ranked m fs true d H.ranked
    (H.namesProper h1 h2) (by
      rw [htok]
      simp only [rootRank, if_true, List.length_cons]
      omega)
  have hw := Remove_within _ _ _ _ _ _ hrem
  obtain ⟨hiff, _, htrue⟩ := Remove_spec _ _ _ _ _ _ hrem
  rcases hm with hm | ⟨more2, hm⟩
  · subst hm
    have hres : FileSystem.findsubdirectory fs d = some (OpenFile.mk DirectorySector, t1) :=
      findsubdirectory_first fs htok (Or.inr rfl)
    have hb : b = true := by
      cases b with
      | true => rfl
      | false =>
        rcases hiff.1 rfl with h | ⟨p, l, hp, hf⟩
        · rw [hres] at h
          cases h
        · rw [hres] at hp
          simp only [Option.some.injEq, Prod.mk.injEq] at hp
          obtain ⟨rfl, rfl⟩ := hp
          rw [Directory.Find_eq_neg_one] at hf
          have hfr : Directory.FindEntry (fs.disk.fetchDirectory (OpenFile.mk DirectorySector))
              t1 = some { inUse := true, isDir := true, name := t1, sector := s1 } :=
            H.find_root
          rw [hfr] at hf
          cases hf
    subst hb
    obtain ⟨p, l, e, pre, post, hp, hdec, hu, hn, hpre, hdir4, _⟩ := htrue rfl
    rw [hres] at hp
    simp only [Option.some.injEq, Prod.mk.injEq] at hp
    obtain ⟨rfl, rfl⟩ := hp
    have hrel : fs4.disk.directories DirectorySector =
        Directory.release t1 (fs.disk.directories DirectorySector) :=
      hdir4.trans (Directory.release_eq hdec ⟨hu, hn⟩ hpre).symm
    obtain ⟨_, ⟨pre1, post1, hd1, hpre1, hpost1⟩, _, _⟩ := H
    have hun : ∀ x ∈ fs4.disk.directories DirectorySector, x.inUse = false := by
      rw [hrel, hd1]
      exact Directory.release_single
        { inUse := true, isDir := true, name := t1, sector := s1 } rfl hpre1 hpost1
    refine ⟨fs4, hrem, hw.2.1, ?_⟩
    intro e2 he2
    rw [Directory.FindEntry_of_unused hun t1] at he2
    cases he2
  · subst hm
    have hres : FileSystem.findsubdirectory fs d = some (OpenFile.mk s1, t2) :=
      H.resolve_two htok
    have hb : b = true := by
      cases b with
      | true => rfl
      | false =>
        rcases hiff.1 rfl with h | ⟨p, l, hp, hf⟩
        · rw [hres] at h
          cases h
        · rw [hres] at hp
          simp only [Option.some.injEq, Prod.mk.injEq] at hp
          obtain ⟨rfl, rfl⟩ := hp
          rw [Directory.Find_eq_neg_one] at hf
          have hfr : Directory.FindEntry (fs.disk.fetchDirectory (OpenFile.mk s1))
              t2 = some { inUse := true, isDir := false, name := t2, sector := s2 } :=
            H.find_sub
          rw [hfr] at hf
          cases hf
    subst hb
    obtain ⟨p, l, e, pre, post, hp, hdec, hu, hn, hpre, hdir4, _⟩ := htrue rfl
    rw [hres] at hp
    simp only [Option.some.injEq, Prod.mk.injEq] at hp
    obtain ⟨rfl, rfl⟩ := hp
    have hrel : fs4.disk.directories s1 = Directory.release t2 (fs.disk.directories s1) :=
      hdir4.trans (Directory.release_eq hdec ⟨hu, hn⟩ hpre).symm
    have H2 := H
    obtain ⟨_, _, ⟨pre2, post2, hd2, hpre2, hpost2⟩, _⟩ := H2
    have hun : ∀ x ∈ fs4.disk.directories s1, x.inUse = false := by
      rw [hrel, hd2]
      exact Directory.release_single
        { inUse := true, isDir := false, name := t2, sector := s2 } rfl hpre2 hpost2
    refine ⟨fs4, hrem, hw.2.1, ?_⟩
    intro e2 he2
    obtain ⟨hu2, _, pre3, post3, hdec3, _⟩ := Directory.FindEntry_some he2
    have hmem : e2 ∈ fs.disk.directories DirectorySector :=
      hw.2.2.2 _ e2 (by rw [hdec3]; simp) hu2
    rw [H.mem_root hmem hu2]
    exact ⟨by simp, rfl, hun⟩

theorem Disk.blank_noEntryInUse (c : FsParams) : Disk.NoEntryInUse (Disk.blank c) := by
  intro s e he
  simp only [Disk.blank, Directory.create, List.mem_replicate] at he
  rw [he.2]

/-- The round trip on a zero-filled disk: format a disk none of whose directory tables holds an
entry in use, with at least two descriptor slots.  If `Create(d, n1, TRUE)` and then
`Create(d/f, n2, FALSE)` both return `TRUE`, then `Open(d/f)` returns an id of at least 1,
`Remove(TRUE, d)` afterwards returns `TRUE` (any fuel from 2 on), and in the state it leaves
`Open(d/f)` and `Open(d)` return `(NULL, -1)` and leave that state unchanged, so every later
`Open` of these paths does the same. -/
theorem create_open_remove_roundtrip (c : FsParams) (disk : Disk)
    (memory : Nat → Option OpenFile) (fs0 : FileSystem) (d f : List Char) (n1 n2 fuel : Nat)
    (hfmt : FileSystem.construct c true disk memory = some fs0)
    (hdisk : Disk.NoEntryInUse disk) (hM : 2 ≤ c.MAXFILENUM) (hfuel : 2 ≤ fuel)
    (hc1 : (FileSystem.Create c fs0 d n1 true).1 = true)
    (hc2 : (FileSystem.Create c (FileSystem.Create c fs0 d n1 true).2 (d ++ '/' :: f) n2
      false).1 = true) :
    (FileSystem.Open c
      (FileSystem.Create c (FileSystem.Create c fs0 d n1 true).2 (d ++ '/' :: f) n2 false).2
      (d ++ '/' :: f)).1.2 ≥ 1 ∧
    ∃ fs4,
      FileSystem.Remove fuel
        (FileSystem.Open c
          (FileSystem.Create c (FileSystem.Create c fs0 d n1 true).2 (d ++ '/' :: f) n2
            false).2
          (d ++ '/' :: f)).2 true d = some (true, fs4) ∧
      FileSystem.Open c fs4 (d ++ '/' :: f) = ((none, -1), fs4) ∧
      FileSystem.Open c fs4 d = ((none, -1), fs4) := by
  obtain ⟨t1, t2, more, rest, s1, s2, htok, htok2, hm, H, hnum, htab⟩ :=
    created_tree hfmt hdisk hc1 hc2
  generalize (FileSystem.Create c (FileSystem.Create c fs0 d n1 true).2 (d ++ '/' :: f) n2
    false).2 = fs2 at H hnum htab ⊢
  have hp1 : strtokAll [] t1 ≠ [] :=
    strtokAll_token_ne_nil d (by rw [htok]; simp)
  have hp2 : strtokAll [] t2 ≠ [] :=
    strtokAll_token_ne_nil (d ++ '/' :: f) (by rw [htok2]; simp)
  have hopen := Open_found c
    (by rw [hnum]; omega) (H.resolve_two htok2)
    (by
      have h : Directory.FindEntry (fs2.disk.fetchDirectory (OpenFile.mk s1)) t2 =
          some { inUse := true, isDir := false, name := t2, sector := s2 } := H.find_sub
      exact h)
    ⟨1, le_refl 1, by omega, htab 1 (by omega)⟩
  obtain ⟨fs4, hrem, _, hdead⟩ :=
    Remove_of_holdsOneFile (H.of_disk hopen.2) htok hm hp1 hp2 fuel hfuel
  refine ⟨hopen.1, fs4, hrem, ?_, ?_⟩
  · exact Open_dead_end c htok2 (fun e he => ⟨by simp, (hdead e he).2⟩)
  · exact Open_dead_end c htok hdead

theorem create_open_remove_roundtrip_witness :
    FileSystem.construct exampleParams true (Disk.blank exampleParams) (fun _ => none) =
      some exampleFs ∧
    Disk.NoEntryInUse (Disk.blank exampleParams) ∧ 2 ≤ exampleParams.MAXFILENUM ∧
    (FileSystem.Create exampleParams exampleFs "/a".toList 120 true).1 = true ∧
    (FileSystem.Create exampleParams
      (FileSystem.Create exampleParams exampleFs "/a".toList 120 true).2
      ("/a".toList ++ '/' :: "b".toList) 200 false).1 = true ∧
    ((FileSystem.Open exampleParams
      (FileSystem.Create exampleParams
        (FileSystem.Create exampleParams exampleFs "/a".toList 120 true).2
        ("/a".toList ++ '/' :: "b".toList) 200 false).2
      ("/a".toList ++ '/' :: "b".toList)).1.2 ≥ 1 ∧
    ∃ fs4,
      FileSystem.Remove 2
        (FileSystem.Open exampleParams
          (FileSystem.Create exampleParams
            (FileSystem.Create exampleParams exampleFs "/a".toList 120 true).2
            ("/a".toList ++ '/' :: "b".toList) 200 false).2
          ("/a".toList ++ '/' :: "b".toList)).2 true "/a".toList = some (true, fs4) ∧
      FileSystem.Open exampleParams fs4 ("/a".toList ++ '/' :: "b".toList) =
        ((none, -1), fs4) ∧
      FileSystem.Open exampleParams fs4 "/a".toList = ((none, -1), fs4)) :=
  ⟨rfl, Disk.blank_noEntryInUse exampleParams, by decide, by decide, by decide,
    create_open_remove_roundtrip exampleParams (Disk.blank exampleParams) (fun _ => none)
      exampleFs "/a".toList "b".toList 120 200 2 rfl (Disk.blank_noEntryInUse exampleParams)
      (by decide) (by decide) (by decide) (by decide)⟩

theorem Open_fails_iff_witness :
    FileSystem.findsubdirectory exampleFs "/a".toList =
      some (OpenFile.mk DirectorySector, "a".toList) ∧
    Directory.Find (exampleFs.disk.fetchDirectory (OpenFile.mk DirectorySector)) "a".toList =
      -1 ∧
    (FileSystem.Open exampleParams exampleFs "/a".toList).1 = (none, -1) ∧
    (FileSystem.Open exampleParams exampleFs "/a".toList).2 = exampleFs :=
  ⟨by decide, by decide, by decide,
    (Open_fails_iff exampleParams exampleFs "/a".toList).2.1 (by decide)⟩

/-! ## `Run` and `CheckToBeDestroyed` -/

theorem CheckToBeDestroyed_toBeDestroyed (s : SchedulerState) :
    (Scheduler.CheckToBeDestroyed s).toBeDestroyed = none := by
  unfold Scheduler.CheckToBeDestroyed
  cases h : s.toBeDestroyed with
  | none => exact h
  | some t => rfl

theorem switchTo_fields (k : Kernel) (nextThread : ThreadPtr) :
    (k.switchTo nextThread).currentThread = nextThread ∧
    ((k.switchTo nextThread).threads nextThread).status = ThreadStatus.RUNNING ∧
    (∀ t, t ≠ nextThread → (k.switchTo nextThread).threads t = k.threads t) ∧
    (∀ q, (k.switchTo nextThread).queue q = k.queue q) := by
  refine ⟨rfl, by simp [Kernel.switchTo, Kernel.update], ?_, ?_⟩
  · intro t ht
    simp [Kernel.switchTo, Kernel.update, ht]
  · intro q
    cases q <;> rfl

/-- C23: `Run(next, finishing)` with interrupts off.  With `finishing` true it aborts on the
assertion `toBeDestroyed == NULL` if and only if `toBeDestroyed` is already non-null (and, the
stack check of the old thread passing, it aborts at all if and only if so); otherwise it sets
`toBeDestroyed` to the previous current thread.  With `finishing` false that assertion never
aborts and `toBeDestroyed` is left as it is.  In every case in which `Run` reaches the context
switch, the current thread is `next` and the status of `next` is RUNNING by then (no other
thread object and no queue has changed, and the dispatch tick is recorded), and it reaches the
switch whenever the assertion and the stack check pass.  `CheckToBeDestroyed` leaves
`toBeDestroyed` null in every state, and so does the part of `Run` after the switch. -/
theorem Run_dispatch (checkOverflow : ThreadPtr → Bool) (s : SchedulerState)
    (nextThread : ThreadPtr) (finishing : Bool)
    (hint : s.kernel.interruptLevel = IntStatus.IntOff) :
    (Scheduler.RunToSwitch checkOverflow s nextThread finishing =
        Except.error RunAbort.toBeDestroyedSet ↔
      finishing = true ∧ s.toBeDestroyed ≠ none) ∧
    (checkOverflow s.kernel.currentThread = true →
      ((∃ e, Scheduler.RunToSwitch checkOverflow s nextThread finishing = Except.error e) ↔
        finishing = true ∧ s.toBeDestroyed ≠ none)) ∧
    (checkOverflow s.kernel.currentThread = true →
      ¬ (finishing = true ∧ s.toBeDestroyed ≠ none) →
      ∃ s2, Scheduler.RunToSwitch checkOverflow s nextThread finishing = Except.ok s2) ∧
    (∀ s2, Scheduler.RunToSwitch checkOverflow s nextThread finishing = Except.ok s2 →
      (finishing = true → s2.toBeDestroyed = some s.kernel.currentThread) ∧
      (finishing = false → s2.toBeDestroyed = s.toBeDestroyed) ∧
      s2.kernel.currentThread = nextThread ∧
      (s2.kernel.threads nextThread).status = ThreadStatus.RUNNING ∧
      (∀ t, t ≠ nextThread → s2.kernel.threads t = s.kernel.threads t) ∧
      (∀ q, s2.kernel.queue q = s.kernel.queue q) ∧
      s2.comingRun = s.kernel.totalTicks ∧
      (Scheduler.CheckToBeDestroyed s2).toBeDestroyed = none) ∧
    (∀ s3, (Scheduler.CheckToBeDestroyed s3).toBeDestroyed = none) ∧
    (∀ s3 s4, Scheduler.RunAfterSwitch s3 = Except.ok s4 → s4.toBeDestroyed = none) := by
  have hi : ¬ s.kernel.interruptLevel ≠ IntStatus.IntOff := not_not.2 hint
  refine ⟨?_, ?_, ?_, ?_, CheckToBeDestroyed_toBeDestroyed, ?_⟩
  rotate_right
  · intro s3 s4 h
    unfold Scheduler.RunAfterSwitch at h
    split_ifs at h
    simp only [Except.ok.injEq] at h
    rw [← h]
    exact CheckToBeDestroyed_toBeDestroyed s3
  · unfold Scheduler.RunToSwitch
    rw [if_neg hi]
    by_cases h1 : finishing = true ∧ s.toBeDestroyed ≠ none
    · rw [if_pos h1]
      exact ⟨fun _ => h1, fun _ => rfl⟩
    · rw [if_neg h1]
      constructor
      · intro h
        split_ifs at h
        · cases h
      · intro h
        exact absurd h h1
  · intro hc
    have hc2 : ¬ checkOverflow s.kernel.currentThread = false := by simp [hc]
    unfold Scheduler.RunToSwitch
    rw [if_neg hi]
    by_cases h1 : finishing = true ∧ s.toBeDestroyed ≠ none
    · rw [if_pos h1]
      exact ⟨fun _ => h1, fun _ => ⟨_, rfl⟩⟩
    · rw [if_neg h1, if_neg hc2]
      constructor
      · rintro ⟨e, he⟩
        cases he
      · intro h
        exact absurd h h1
  · intro hc h1
    have hc2 : ¬ checkOverflow s.kernel.currentThread = false := by simp [hc]
    unfold Scheduler.RunToSwitch
    rw [if_neg hi, if_neg h1, if_neg hc2]
    exact ⟨_, rfl⟩
  · intro s2 h
    unfold Scheduler.RunToSwitch at h
    rw [if_neg hi] at h
    by_cases h1 : finishing = true ∧ s.toBeDestroyed ≠ none
    · rw [if_pos h1] at h
      cases h
    · rw [if_neg h1] at h
      by_cases h2 : checkOverflow s.kernel.currentThread = false
      · rw [if_pos h2] at h
        cases h
      · rw [if_neg h2] at h
        simp only [Except.ok.injEq] at h
        subst h
        obtain ⟨f1, f2, f3, f4⟩ := switchTo_fields s.kernel nextThread
        refine ⟨fun hf => by simp [hf], fun hf => by simp [hf], f1, f2, f3, f4, rfl,
          CheckToBeDestroyed_toBeDestroyed _⟩

theorem Run_dispatch_witness :
    runExample.kernel.interruptLevel = IntStatus.IntOff ∧
    runExample.kernel.currentThread = 0 ∧
    ∃ s2, Scheduler.RunToSwitch (fun _ => true) runExample 1 true = Except.ok s2 ∧
      s2.toBeDestroyed = some 0 ∧ s2.kernel.currentThread = 1 ∧
      (s2.kernel.threads 1).status = ThreadStatus.RUNNING ∧
      (Scheduler.CheckToBeDestroyed s2).toBeDestroyed = none := by
  obtain ⟨-, -, h3, h4, -, -⟩ := Run_dispatch (fun _ => true) runExample 1 true rfl
  obtain ⟨s2, hs2⟩ := h3 rfl (by decide)
  obtain ⟨g1, -, g3, g4, -, -, -, g8⟩ := h4 s2 hs2
  exact ⟨rfl, rfl, s2, hs2, g1 rfl, g3, g4, g8⟩

/-! ## `List` -/

/-- For a path other than `"/"` whose leaf is absent from the directory that resolution
returns, `List` opens a file on sector -1. -/
theorem List_of_absent_leaf (fs : FileSystem) (recursive : Bool) (dirPath : List Char)
    (parent : OpenFile) (leaf : List Char) (hroot : dirPath ≠ ['/'])
    (hres : FileSystem.findsubdirectory fs dirPath = some (parent, leaf))
    (hfind : Directory.Find (fs.disk.fetchDirectory parent) leaf = -1) :
    FileSystem.ListPath fs recursive dirPath =
      [ListEvent.fetchFrom parent.sector, ListEvent.openFile (-1), ListEvent.fetchFrom (-1),
        ListEvent.list recursive (-1)] := by
  simp only [FileSystem.ListPath, if_neg hroot, hres, hfind]

/-- C26, evaluated where it fails: on the freshly formatted example file system the root holds
no entry `x`, `Find` returns -1 for it, and `List(FALSE, "/x")` opens a file on sector -1, reads
a directory table from it and lists it.  For `"/"` and for a directory that exists, `List` reads
the table at the sector the lookup returned. -/
theorem List_opens_sector_of_failed_lookup :
    FileSystem.findsubdirectory exampleFs "/x".toList =
      some (OpenFile.mk DirectorySector, "x".toList) ∧
    Directory.Find (exampleFs.disk.fetchDirectory (OpenFile.mk DirectorySector)) "x".toList =
      -1 ∧
    FileSystem.ListPath exampleFs false "/x".toList =
      [ListEvent.fetchFrom 1, ListEvent.openFile (-1), ListEvent.fetchFrom (-1),
        ListEvent.list false (-1)] ∧
    FileSystem.ListPath exampleFs true "/".toList =
      [ListEvent.fetchFrom 1, ListEvent.list true 1] ∧
    FileSystem.ListPath exampleFsAB true "/a".toList =
      [ListEvent.fetchFrom 1, ListEvent.openFile 4, ListEvent.fetchFrom 4,
        ListEvent.list true 4] := by
  refine ⟨by decide, by decide, by decide, by decide, by decide⟩

/-! ## The bitmap after a recursive removal -/

/-- C21, evaluated.  Where the directory is `/a` and the file `/a/b`, `Remove(TRUE, "/a")`
returns `TRUE` and the persisted bitmap is the one right after formatting.  Where the directory
is `/a/b` on the freshly formatted disk, `Create("/a/b", 120, TRUE)` returns `TRUE` but adds the
entry `a` to the root; `Remove(TRUE, "/a/b")` then returns `FALSE` and the persisted bitmap
keeps sectors 4 and 5 marked, which are clear right after formatting. -/
theorem recursive_remove_bitmap_evaluated :
    exampleFs.disk.freeMap =
      [true, true, true, true, false, false, false, false, false, false, false, false, false,
        false, false, false] ∧
    (FileSystem.Remove 3 exampleFsAB true "/a".toList).map
        (fun r => (r.1, r.2.disk.freeMap)) = some (true, exampleFs.disk.freeMap) ∧
    (FileSystem.Create exampleParams exampleFs "/a/b".toList 120 true).1 = true ∧
    Directory.FindEntry (exampleFsDeep.disk.directories DirectorySector) "a".toList =
      some { inUse := true, isDir := true, name := "a".toList, sector := 4 } ∧
    (exampleFsDeep.disk.headers 4).dataSectors = [5] ∧
    (FileSystem.Remove 3 exampleFsDeep true "/a/b".toList).map
        (fun r => (r.1, r.2.disk.freeMap)) =
      some (false,
        [true, true, true, true, true, true, false, false, false, false, false, false, false,
          false, false, false]) ∧
    Bitmap.NumClear exampleFs.disk.freeMap = 12 ∧
    ((FileSystem.Remove 3 exampleFsDeep true "/a/b".toList).map
        (fun r => Bitmap.NumClear r.2.disk.freeMap)) = some 10 := by
  refine ⟨by decide, by decide, by decide, by decide, by decide, by decide, by decide,
    by decide⟩

/-! ## Directories on sectors that are not zero-filled -/

theorem findsubdirectoryLoop_snoc (fs : FileSystem) (name : List Char) :
    ∀ (more : List (List Char)) (cur : OpenFile) (token : List Char) (P : OpenFile)
      (leaf : List Char) (e0 : DirectoryEntry),
      FileSystem.findsubdirectoryLoop fs cur token more = some (P, leaf) →
      Directory.FindEntry (fs.disk.fetchDirectory P) leaf = some e0 → e0.isDir = true →
      FileSystem.findsubdirectoryLoop fs cur token (more ++ [name]) =
        some (OpenFile.mk e0.sector, name) := by
  intro more
  induction more with
  | nil =>
    intro cur token P leaf e0 h hF hd
    simp only [FileSystem.findsubdirectoryLoop, Option.some.injEq, Prod.mk.injEq] at h
    obtain ⟨rfl, rfl⟩ := h
    rw [List.nil_append, findsubdirectoryLoop_step hF hd]
    rfl
  | cons next more ih =>
    intro cur token P leaf e0 h hF hd
    by_cases h1 : Directory.IsDir (fs.disk.fetchDirectory cur) token = true
    · obtain ⟨e, he, hed⟩ := Directory.IsDir_true h1
      rw [findsubdirectoryLoop_step he hed] at h
      rw [List.cons_append, findsubdirectoryLoop_step he hed]
      exact ih _ _ _ _ _ h hF hd
    · have h2 : Directory.IsDir (fs.disk.fetchDirectory cur) token = false := by
        simpa using h1
      rw [findsubdirectoryLoop_of_not_dir h2] at h
      simp only [Option.some.injEq, Prod.mk.injEq] at h
      obtain ⟨rfl, rfl⟩ := h
      rw [Directory.IsDir_of_some hF, hd] at h2
      cases h2

/-- Resolving a path that leads to the directory `e0`, extended by the component `name`: the
walk ends in `e0` with leaf `name`. -/
theorem findsubdirectory_snoc {fs : FileSystem} {path name : List Char} {P : OpenFile}
    {leaf : List Char} {e0 : DirectoryEntry}
    (hres : FileSystem.findsubdirectory fs path = some (P, leaf))
    (hF : Directory.FindEntry (fs.disk.fetchDirectory P) leaf = some e0)
    (hd : e0.isDir = true) (hname : name ≠ [] ∧ '/' ∉ name) :
    FileSystem.findsubdirectory fs (path ++ '/' :: name) =
      some (OpenFile.mk e0.sector, name) := by
  unfold FileSystem.findsubdirectory at hres ⊢
  have htn : strtokAll [] name = [name] := by
    rw [strtokAll_of_token name [] hname.2]
    simp [hname.1]
  rw [strtokAll_append, htn]
  cases htok : strtokAll [] path with
  | nil => simp [htok] at hres
  | cons token more =>
    simp only [htok] at hres
    simp only [List.cons_append]
    exact findsubdirectoryLoop_snoc fs name more _ token P leaf e0 hres hF hd

/-- Every path `/a/x/.../x` resolves, in the example with the stale entry `x`, to a directory
whose table holds the leaf as a directory with header sector 4. -/
theorem staleLoop_resolves :
    ∀ n, ∃ P leaf e, FileSystem.findsubdirectory exampleStaleLoopFsOpen (loopPath n) =
        some (P, leaf) ∧
      Directory.FindEntry (exampleStaleLoopFsOpen.disk.fetchDirectory P) leaf = some e ∧
      e.isDir = true ∧ e.sector = 4 := by
  intro n
  induction n with
  | zero =>
    exact ⟨OpenFile.mk 1, "a".toList,
      { inUse := true, isDir := true, name := "a".toList, sector := 4 },
      by decide, by decide, rfl, rfl⟩
  | succ n ih =>
    obtain ⟨P, leaf, e, hres, hF, hd, hs⟩ := ih
    refine ⟨OpenFile.mk 4, "x".toList,
      { inUse := true, isDir := true, name := "x".toList, sector := 4 }, ?_, by decide,
      rfl, rfl⟩
    have h := findsubdirectory_snoc hres hF hd
      (show "x".toList ≠ [] ∧ '/' ∉ "x".toList by decide)
    rw [hs] at h
    exact h

/-- In the example with the stale entry `x`, no call of `Remove` with `recursive` set on a path
`/a/x/.../x` returns, whatever the fuel: each one calls `Remove` on the next path. -/
theorem staleLoop_diverges :
    ∀ fuel n, FileSystem.Remove fuel exampleStaleLoopFsOpen true (loopPath n) = none := by
  intro fuel
  induction fuel with
  | zero =>
    intro n
    simp [FileSystem.Remove]
  | succ fuel ih =>
    intro n
    obtain ⟨P, leaf, e, hres, hF, hd, hs⟩ := staleLoop_resolves n
    have hf : Directory.Find (exampleStaleLoopFsOpen.disk.fetchDirectory P) leaf ≠ -1 := by
      rw [Directory.Find_of_some hF]
      have := Int.natCast_nonneg e.sector
      omega
    have hsec : (Directory.Find (exampleStaleLoopFsOpen.disk.fetchDirectory P) leaf).toNat =
        4 := by
      rw [Directory.Find_of_some hF, Int.toNat_natCast, hs]
    rw [Remove_of_present fuel true hres hf,
      if_pos ⟨(Directory.IsDir_of_some hF).trans hd, rfl⟩, hsec]
    have htab : exampleStaleLoopFsOpen.disk.fetchDirectory (OpenFile.mk 4) =
        { inUse := true, isDir := true, name := "x".toList, sector := 4 } ::
          { inUse := true, isDir := false, name := "b".toList, sector := 6 } ::
            Directory.create 2 := by
      decide
    rw [htab]
    unfold FileSystem.RemoveEntries
    rw [if_pos rfl]
    have hnext := ih (n + 1)
    simp only [loopPath] at hnext
    simp only [hnext, Option.map_none']

/-- C20, evaluated on a disk that is not zero-filled: the bytes that the first directory created
after formatting reads as its table hold one entry in use, a directory `x` with sector 4.  After
formatting, `Create("/a", 120, TRUE)` and `Create("/a/b", 200, FALSE)` return `TRUE` and
`Open("/a/b")` returns id 1, but `Remove(TRUE, "/a")` does not return: it recurses into `/a/x`,
`/a/x/x`, ... and no fuel gives a result. -/
theorem roundtrip_stale_disk_evaluated :
    FileSystem.construct exampleParams true exampleStaleLoopDisk (fun _ => none) =
      some exampleStaleLoopFs ∧
    (FileSystem.Create exampleParams exampleStaleLoopFs "/a".toList 120 true).1 = true ∧
    (FileSystem.Create exampleParams
      (FileSystem.Create exampleParams exampleStaleLoopFs "/a".toList 120 true).2
      "/a/b".toList 200 false).1 = true ∧
    (FileSystem.Open exampleParams exampleStaleLoopFsAB "/a/b".toList).1.2 = 1 ∧
    ∀ fuel, FileSystem.Remove fuel exampleStaleLoopFsOpen true "/a".toList = none :=
  ⟨rfl, by decide, by decide, by decide, fun fuel => staleLoop_diverges fuel 0⟩

theorem Bitmap.Test_lt (b : Bitmap) (j : Nat) (h : Bitmap.Test b j = true) : j < b.length := by
  by_contra hc
  unfold Bitmap.Test at h
  rw [List.getD_eq_getElem?_getD, List.getElem?_eq_none (by omega)] at h
  cases h

/-- When the root table holds no entry in use, nothing but the root is reachable. -/
theorem Reachable_of_root_unused {fs : FileSystem}
    (hroot : ∀ e ∈ fs.disk.directories DirectorySector, e.inUse = false) {h : Nat} {d : Bool}
    (hr : FileSystem.Reachable fs h d) : h = DirectorySector ∧ d = true := by
  induction hr with
  | root => exact ⟨rfl, rfl⟩
  | child p e _ he hu ih =>
    rw [ih.1] at he
    rw [hroot e he] at hu
    cases hu

/-- Invariant F1 holds right after formatting the example disk with the stale entry: sectors 0
to 3 are marked, and they are the headers and data sectors of the bitmap file and the root. -/
theorem exampleStaleFileFs_F1 : FileSystem.F1 exampleStaleFileFs := by
  have hroot : ∀ e ∈ exampleStaleFileFs.disk.directories DirectorySector, e.inUse = false := by
    decide
  have hd0 : (exampleStaleFileFs.disk.headers FreeMapSector).dataSectors = [2] := by decide
  have hd1 : (exampleStaleFileFs.disk.headers DirectorySector).dataSectors = [3] := by decide
  intro x
  constructor
  · intro h
    have hx : x < 16 := Bitmap.Test_lt _ _ h
    have h0 : FileSystem.Live exampleStaleFileFs FreeMapSector := Or.inl rfl
    have h1 : FileSystem.Live exampleStaleFileFs DirectorySector :=
      Or.inr ⟨true, FileSystem.Reachable.root⟩
    interval_cases x
    · exact ⟨FreeMapSector, h0, Or.inl rfl⟩
    · exact ⟨DirectorySector, h1, Or.inl rfl⟩
    · exact ⟨FreeMapSector, h0, Or.inr (by rw [hd0]; simp)⟩
    · exact ⟨DirectorySector, h1, Or.inr (by rw [hd1]; simp)⟩
    all_goals exact absurd h (by decide)
  · rintro ⟨h, hl, ho⟩
    rcases hl with rfl | ⟨d, hr⟩
    · rcases ho with rfl | ho
      · decide
      · rw [hd0, List.mem_singleton] at ho
        subst ho
        decide
    · rw [(Reachable_of_root_unused hroot hr).1] at ho
      rcases ho with rfl | ho
      · decide
      · rw [hd1, List.mem_singleton] at ho
        subst ho
        decide

/-- C22, evaluated at two inputs.  First, on a disk that is not zero-filled (the bytes that the
first directory created after formatting reads as its table hold one entry in use, a plain file
`x` with sector 9): Invariant F1 holds after formatting, `Create("/a", 120, TRUE)` returns
`TRUE`, and in the state it leaves `Open("/a/x")` succeeds, so sector 9 is the header sector of
a file reachable from the root, while bit 9 of the bitmap is clear: F1 fails.  Second, on the
zero-filled example disk, after formatting, `Create("/a", 120, TRUE)` and
`Create("/a/b", 200, FALSE)`: `Remove(FALSE, "/a")` returns `TRUE`, and in the state it leaves
the root directory holds no entry in use while bit 6 of the bitmap (the header sector of `b`)
is still set: F1 fails. -/
theorem F1_violations_evaluated :
    (FileSystem.construct exampleParams true exampleStaleFileDisk (fun _ => none) =
        some exampleStaleFileFs ∧
      FileSystem.F1 exampleStaleFileFs ∧
      (FileSystem.Create exampleParams exampleStaleFileFs "/a".toList 120 true).1 = true ∧
      (FileSystem.Open exampleParams exampleStaleFileFsA "/a/x".toList).1 =
        (some (OpenFile.mk 9), 1) ∧
      FileSystem.Reachable exampleStaleFileFsA 9 false ∧
      Bitmap.Test exampleStaleFileFsA.disk.freeMap 9 = false ∧
      ¬ FileSystem.F1 exampleStaleFileFsA) ∧
    (FileSystem.construct exampleParams true (Disk.blank exampleParams) (fun _ => none) =
        some exampleFs ∧
      (FileSystem.Create exampleParams exampleFs "/a".toList 120 true).1 = true ∧
      (FileSystem.Create exampleParams exampleFsA "/a/b".toList 200 false).1 = true ∧
      (FileSystem.Remove 3 exampleFsAB false "/a".toList).map Prod.fst = some true ∧
      (∀ e ∈ ((FileSystem.Remove 3 exampleFsAB false "/a".toList).getD
        (false, exampleFsAB)).2.disk.directories DirectorySector, e.inUse = false) ∧
      Bitmap.Test ((FileSystem.Remove 3 exampleFsAB false "/a".toList).getD
        (false, exampleFsAB)).2.disk.freeMap 6 = true ∧
      ¬ FileSystem.F1 ((FileSystem.Remove 3 exampleFsAB false "/a".toList).getD
        (false, exampleFsAB)).2) := by
  constructor
  · have hreach : FileSystem.Reachable exampleStaleFileFsA 9 false :=
      FileSystem.Reachable.child 4
        { inUse := true, isDir := false, name := "x".toList, sector := 9 }
        (FileSystem.Reachable.child DirectorySector
          { inUse := true, isDir := true, name := "a".toList, sector := 4 }
          FileSystem.Reachable.root (by decide) rfl)
        (by decide) rfl
    have hbit : Bitmap.Test exampleStaleFileFsA.disk.freeMap 9 = false := by decide
    refine ⟨rfl, exampleStaleFileFs_F1, by decide, by decide, hreach, hbit, ?_⟩
    intro hF1
    have h := (hF1 9).2 ⟨9, Or.inr ⟨false, hreach⟩, Or.inl rfl⟩
    rw [hbit] at h
    cases h
  · have hroot : ∀ e ∈ ((FileSystem.Remove 3 exampleFsAB false "/a".toList).getD
        (false, exampleFsAB)).2.disk.directories DirectorySector, e.inUse = false := by
      decide
    have hbit : Bitmap.Test ((FileSystem.Remove 3 exampleFsAB false "/a".toList).getD
        (false, exampleFsAB)).2.disk.freeMap 6 = true := by
      decide
    refine ⟨rfl, by decide, by decide, by decide, hroot, hbit, ?_⟩
    intro hF1
    obtain ⟨h, hl, ho⟩ := (hF1 6).1 hbit
    rcases hl with rfl | ⟨d, hr⟩
    · revert ho
      unfold FileSystem.Owns
      decide
    · rw [(Reachable_of_root_unused hroot hr).1] at ho
      revert ho
      unfold FileSystem.Owns
      decide

end Nachos
